import Mathlib

/-!
Move protocol of `ParticleSet` and batched two-body Jastrow kernels (miniqmc).

A shallow embedding of `src/Particle/ParticleSet.cpp`, of the part of
`src/Numerics/OhmmsPETE/TinyVector.h` it uses and of
`src/QMCWaveFunctions/Jastrow/TwoBodyJastrow.h`, followed by theorems about
the propose / accept / reject protocol, the grouping of the particles, the
registry of distance tables and the batched Jastrow kernels.

Conventions of the embedding:

* the scalar type `T` of `TinyVector<T, D>` stays a parameter; the move
  protocol only adds positions and copies them;
* a C++ member function that mutates `*this` becomes a function from the
  state before the call to an `Outcome`: the returned value with the state
  after the call, an `APP_ABORT` with the state in which it was raised, or
  `undefined` when the call indexes a container out of range;
* `Index_t` is `int`, so particle indices are `Int` and `-1` is the
  "no active particle" value of `activePtcl`.
-/

namespace qmcplusplus

/-! ## TinyVector.h -/

/-- Fixed-size array `TinyVector<T, D>`: the member `T X[Size]`. -/
structure TinyVector (T : Type) (D : Nat) where
  X : Mathlib.Vector T D
deriving DecidableEq

namespace TinyVector

variable {T : Type} {D : Nat}

/-- Constructor `TinyVector(x00, x01, x02)`: `X[0] = x00; X[1] = x01; X[2] = x02`. -/
def mk3 (x00 x01 x02 : T) : TinyVector T 3 :=
  ⟨⟨[x00, x01, x02], rfl⟩⟩

/-- Element access `operator[](i)`. -/
def get (v : TinyVector T D) (i : Fin D) : T :=
  v.X.get i

/-- Binary `operator+` (`OHMMS_META_BINARY_OPERATORS(TinyVector, operator+, OpAdd)`):
the element-wise sum. -/
def add [Add T] (lhs rhs : TinyVector T D) : TinyVector T D :=
  ⟨Mathlib.Vector.zipWith (fun a b => a + b) lhs.X rhs.X⟩

instance [Add T] : Add (TinyVector T D) := ⟨TinyVector.add⟩

end TinyVector

/-! ## Outcomes of a call -/

/-- The `APP_ABORT` sites of `ParticleSet.cpp` that the move protocol,
`resetGroups` and `addTable` can reach, with the values streamed into the
message. -/
inductive AbortMsg where
  /-- The text `"  Illegal acceptMove " << iat << " != " << activePtcl`. -/
  | illegalAcceptMove (iat activePtcl : Int)
  /-- The text `"ParticleSet::resetGroups() Failed. No species exisits"`. -/
  | noSpecies
  /-- The text `"ParticleSet::resetGroups() Failed. GroupID is out of bound."`. -/
  | groupIDOutOfBound
  /-- The text `"ParticleSet::addTable needs a proper name for this particle set."`. -/
  | addTableNeedsName
  /-- The text `"ParticleSet::addTable Cannot mix AoS and SoA distance tables.\n"`. -/
  | cannotMixTables
deriving DecidableEq, Repr

/-- Result of running a member function on a state of type `σ`. -/
inductive Outcome (σ α : Type) where
  /-- Normal return of `ret`, leaving the object in `state`. -/
  | ok (ret : α) (state : σ)
  /-- The call reached `APP_ABORT(msg)` while the object was in `state`. -/
  | abort (msg : AbortMsg) (state : σ)
  /-- The call indexed a container outside its range. -/
  | undefined
deriving DecidableEq

namespace Outcome

variable {σ α β : Type}

/-- Sequencing of two calls on the same object: the second call runs only
when the first one returned. -/
def andThen (o : Outcome σ α) (f : α → σ → Outcome σ β) : Outcome σ β :=
  match o with
  | ok a s => f a s
  | abort m s => abort m s
  | undefined => undefined

/-- Whether the call ended in `APP_ABORT`. -/
def aborted : Outcome σ α → Bool
  | abort _ _ => true
  | _ => false

end Outcome

/-! ## Containers indexed by `int` -/

/-- Read of `v[i]` for an `int` index; `none` outside `0 .. size-1`. -/
def readAt {α : Type} (v : List α) (i : Int) : Option α :=
  if 0 ≤ i then v[i.toNat]? else none

/-- Write `v[i] = x` for an `int` index; `none` outside `0 .. size-1`. -/
def writeAt {α : Type} (v : List α) (i : Int) (x : α) : Option (List α) :=
  if 0 ≤ i ∧ i.toNat < v.length then some (v.set i.toNat x) else none

/-! ## Collaborators declared outside the sources -/

/-- `SingleParticlePos_t`, a `TinyVector<RealType, DIM>` with `DIM = 3`. -/
abbrev SingleParticlePos_t (T : Type) := TinyVector T 3

/-- The member functions of `ParticleSet::Lattice` used by the move protocol.
The lattice class is declared outside the sources, so its three functions
are parameters of the embedding. -/
structure ParticleLayout_t (T : Type) where
  toUnit : SingleParticlePos_t T → SingleParticlePos_t T
  outOfBound : SingleParticlePos_t T → Bool
  isValid : SingleParticlePos_t T → Bool

/-- One call received by a distance table, with its arguments other than
the particle set itself. -/
inductive DTCall (T : Type) where
  /-- The call `evaluate(P)`. -/
  | evaluate
  /-- The call `evaluate(P, iat)`. -/
  | evaluateAt (iat : Int)
  /-- The call `move(P, rnew)`. -/
  | move (rnew : SingleParticlePos_t T)
  /-- The call `moveOnSphere(P, rnew)`. -/
  | moveOnSphere (rnew : SingleParticlePos_t T)
  /-- The call `update(iat)`. -/
  | update (iat : Int)
deriving DecidableEq

/-- Modelled from the spec: `DistanceTableData` (`Particle/DistanceTableData.h`
is not among the sources). The spec gives a table the operations
`recomputeAll`, `evaluateTrialRow`, `evaluateTrialRowOnSphere` and `commit`;
the embedding keeps, for each table, the calls it has received, oldest first,
which is what the claims about "calls `move` / `update` on every table"
speak of. -/
structure DistanceTableData (T : Type) where
  calls : List (DTCall T)
deriving DecidableEq

namespace DistanceTableData

variable {T : Type}

/-- The table after one more call. -/
def record (t : DistanceTableData T) (c : DTCall T) : DistanceTableData T :=
  { t with calls := t.calls ++ [c] }

/-- `DistTables[i]->move(*this, rnew)`. -/
def move (t : DistanceTableData T) (rnew : SingleParticlePos_t T) : DistanceTableData T :=
  t.record (DTCall.move rnew)

/-- `DistTables[i]->update(iat)`. -/
def update (t : DistanceTableData T) (iat : Int) : DistanceTableData T :=
  t.record (DTCall.update iat)

/-- The `update` (commit) calls the table has received. -/
def commits (t : DistanceTableData T) : List (DTCall T) :=
  t.calls.filter (fun c => match c with
    | DTCall.update _ => true
    | _ => false)

end DistanceTableData

/-! ## ParticleSet.cpp -/

/-- The members of `ParticleSet` read or written by the move protocol. -/
structure ParticleSet (T : Type) where
  UseBoundBox : Bool
  R : List (SingleParticlePos_t T)
  RSoA : List (SingleParticlePos_t T)
  activePtcl : Int
  activePos : SingleParticlePos_t T
  newRedPos : SingleParticlePos_t T
  DistTables : List (DistanceTableData T)
deriving DecidableEq

namespace ParticleSet

variable {T : Type}

/-- `ParticleSet::makeMoveAndCheck(iat, displ)`, lines 513-543. -/
def makeMoveAndCheck [Add T] (Lattice : ParticleLayout_t T) (P : ParticleSet T)
    (iat : Int) (displ : SingleParticlePos_t T) : Outcome (ParticleSet T) Bool :=
  match readAt P.R iat with
  | none => Outcome.undefined
  | some r =>
    -- activePtcl = iat; activePos = R[iat] + displ;
    let P1 : ParticleSet T := { P with activePtcl := iat, activePos := r + displ }
    if P1.UseBoundBox then
      if Lattice.outOfBound (Lattice.toUnit displ) then
        Outcome.ok false { P1 with activePtcl := -1 }
      else
        let P2 : ParticleSet T := { P1 with newRedPos := Lattice.toUnit P1.activePos }
        if Lattice.isValid P2.newRedPos then
          Outcome.ok true { P2 with DistTables := P2.DistTables.map (fun t => t.move P2.activePos) }
        else
          -- out of bound
          Outcome.ok false { P2 with activePtcl := -1 }
    else
      Outcome.ok true { P1 with DistTables := P1.DistTables.map (fun t => t.move P1.activePos) }

/-- `ParticleSet::acceptMove(iat)`, lines 610-630. -/
def acceptMove (P : ParticleSet T) (iat : Int) : Outcome (ParticleSet T) Unit :=
  if iat = P.activePtcl then
    -- Update position + distance-table
    let P1 : ParticleSet T := { P with DistTables := P.DistTables.map (fun t => t.update iat) }
    match writeAt P1.R iat P1.activePos with
    | none => Outcome.undefined
    | some R1 =>
      match writeAt P1.RSoA iat P1.activePos with
      | none => Outcome.undefined
      | some RSoA1 => Outcome.ok () { P1 with R := R1, RSoA := RSoA1, activePtcl := -1 }
  else
    Outcome.abort (AbortMsg.illegalAcceptMove iat P.activePtcl) P

/-- `ParticleSet::rejectMove(iat)`, line 632: `activePtcl = -1;`. -/
def rejectMove (P : ParticleSet T) (_iat : Int) : Outcome (ParticleSet T) Unit :=
  Outcome.ok () { P with activePtcl := -1 }

/-- One step of a run of accepted moves: `makeMoveAndCheck(m.1, m.2)` has to
return `true`, and is then followed by `acceptMove(m.1)`. The step yields
`none` when the proposal is rejected or when one of the two calls does not
return. -/
def proposeAccept [Add T] (Lattice : ParticleLayout_t T) (P : ParticleSet T)
    (m : Int × SingleParticlePos_t T) : Option (ParticleSet T) :=
  match makeMoveAndCheck Lattice P m.1 m.2 with
  | Outcome.ok true P1 =>
    match acceptMove P1 m.1 with
    | Outcome.ok _ P2 => some P2
    | _ => none
  | _ => none

/-- A finite sequence of accepted moves, performed in order. -/
def proposeAcceptAll [Add T] (Lattice : ParticleLayout_t T) :
    ParticleSet T → List (Int × SingleParticlePos_t T) → Option (ParticleSet T)
  | P, [] => some P
  | P, m :: ms =>
    match proposeAccept Lattice P m with
    | some P1 => proposeAcceptAll Lattice P1 ms
    | none => none

/-- The position the spec expects for particle `j` after the moves: the
start position `p0` with the displacements of the moves of particle `j`
added one at a time, in sequence order. -/
def displacedBy [Add T] (j : Int) (p0 : SingleParticlePos_t T)
    (moves : List (Int × SingleParticlePos_t T)) : SingleParticlePos_t T :=
  moves.foldl (fun p m => if m.1 = j then p + m.2 else p) p0

end ParticleSet

/-! ## The batched proposal of ParticleSet.cpp -/

/-- The members of `ParticleSet::pskType` used by the batched move protocol
of `ParticleSet.cpp`. `LikeDT` and `UnlikeDT` are the two distance tables
held in the structure, addressed by `LikeMove` / `LikeUpdate` and
`UnlikeMove` / `UnlikeUpdate`. -/
structure pskType (T : Type) where
  UseBoundBox : Bool
  R : List (SingleParticlePos_t T)
  RSoA : List (SingleParticlePos_t T)
  activePtcl : Int
  activePos : SingleParticlePos_t T
  LikeDT : DistanceTableData T
  UnlikeDT : DistanceTableData T
deriving DecidableEq

namespace ParticleSet

variable {T : Type}

/-- Body of the `"ps-makeMoveAndCheck"` kernel of
`multi_makeMoveAndCheckKokkos` (lines 556-586) for the team of league rank
`i`, working on `pset = allParticleSetData(i)` with the row `dr_i = dr(i, :)`.
Returns the walker after the kernel and the value stored in
`isValidList(i)`; `none` when `pset.R(i, d)` is out of range. The functions
`pset.toUnit`, `pset.outOfBound` and `pset.isValid` are those of `Lattice`. -/
def makeMoveAndCheckTeam [Add T] (Lattice : ParticleLayout_t T) (locIel : Int) (i : Nat)
    (pset : pskType T) (dr_i : SingleParticlePos_t T) : Option (pskType T × Int) :=
  match pset.R[i]? with
  | none => none
  | some r =>
    -- pset.activePtcl(0) = locIel; pset.activePos(d) = pset.R(i,d) + locDr(i,d);
    let p1 : pskType T := { pset with activePtcl := locIel, activePos := r + dr_i }
    if p1.UseBoundBox then
      if Lattice.outOfBound (Lattice.toUnit dr_i) then
        some ({ p1 with activePtcl := -1 }, 0)
      else
        if Lattice.isValid (Lattice.toUnit p1.activePos) then
          some ({ p1 with LikeDT := p1.LikeDT.move p1.activePos,
                          UnlikeDT := p1.UnlikeDT.move p1.activePos }, 1)
        else
          some (p1, 0)
    else
      some ({ p1 with LikeDT := p1.LikeDT.move p1.activePos,
                      UnlikeDT := p1.UnlikeDT.move p1.activePos }, 1)

/-- The teams of league rank `i, i+1, ...` of the kernel, one for each walker
of the list. -/
def makeMoveAndCheckTeams [Add T] (Lattice : ParticleLayout_t T) (locIel : Int)
    (dr : List (SingleParticlePos_t T)) :
    Nat → List (pskType T) → Option (List (pskType T × Int))
  | _, [] => some []
  | i, pset :: rest =>
    match dr[i]? with
    | none => none
    | some dr_i =>
      match makeMoveAndCheckTeam Lattice locIel i pset dr_i with
      | none => none
      | some res =>
        match makeMoveAndCheckTeams Lattice locIel dr (i + 1) rest with
        | none => none
        | some more => some (res :: more)

/-- `ParticleSet::multi_makeMoveAndCheckKokkos(allParticleSetData, dr, iel, isValidList)`,
lines 545-587: one team for each of the `allParticleSetData.extent(0)` walkers.
Returns the walkers and `isValidList` after the call; `none` when a team
reads or writes out of range. -/
def multi_makeMoveAndCheckKokkos [Add T] (Lattice : ParticleLayout_t T)
    (allParticleSetData : List (pskType T)) (dr : List (SingleParticlePos_t T))
    (iel : Int) (isValidList : List Int) : Option (List (pskType T) × List Int) :=
  if allParticleSetData.length ≤ isValidList.length then
    match makeMoveAndCheckTeams Lattice iel dr 0 allParticleSetData with
    | none => none
    | some res =>
      some (res.map Prod.fst,
            res.map Prod.snd ++ isValidList.drop allParticleSetData.length)
  else
    none

end ParticleSet

/-! ## The batched accept / reject of ParticleSet.cpp -/

namespace pskType

variable {T : Type}

/-- The single-configuration object that holds the data of a walker: the
same `UseBoundBox`, `R`, `RSoA`, `activePtcl` and `activePos`, and the two
distance tables of the walker as `DistTables[0]` (like) and `DistTables[1]`
(unlike). The walker data has no `newRedPos`; it is given separately. -/
def toParticleSet (w : pskType T) (newRedPos : SingleParticlePos_t T) : ParticleSet T where
  UseBoundBox := w.UseBoundBox
  R := w.R
  RSoA := w.RSoA
  activePtcl := w.activePtcl
  activePos := w.activePos
  newRedPos := newRedPos
  DistTables := [w.LikeDT, w.UnlikeDT]

end pskType

namespace ParticleSet

variable {T : Type}

/-- The statements run for an accepted walker, the same in both overloads of
`multi_acceptRejectMoveKokkos` (lines 645-651 and 691-697):
`psd.LikeUpdate(locIel); psd.UnlikeUpdate(locIel);` and, for each `dim`,
`psd.R(locIel,dim) = psd.activePos(dim); psd.RSoA(locIel,dim) = psd.activePos(dim);`.
The result is `none` when `locIel` is not a row of `R` or of `RSoA`. -/
def acceptWalker (locIel : Int) (psd : pskType T) : Option (pskType T) :=
  let p1 : pskType T :=
    { psd with LikeDT := psd.LikeDT.update locIel, UnlikeDT := psd.UnlikeDT.update locIel }
  match writeAt p1.R locIel p1.activePos with
  | none => none
  | some R1 =>
    match writeAt p1.RSoA locIel p1.activePos with
    | none => none
    | some RSoA1 => some { p1 with R := R1, RSoA := RSoA1 }

/-- The teams of league rank `i, i+1, ...` of the kernel of the flag-based
overload (lines 687-701), one for each walker of the list: the accept
statements when `deviceIsAccepted(i)` holds, then `psd.activePtcl(0) = -1`. -/
def acceptRejectTeams (locIel : Int) (deviceIsAccepted : List Bool) :
    Nat → List (pskType T) → Option (List (pskType T))
  | _, [] => some []
  | i, psd :: rest =>
    match deviceIsAccepted[i]? with
    | none => none
    | some accepted =>
      match (if accepted then acceptWalker locIel psd else some psd) with
      | none => none
      | some p1 =>
        match acceptRejectTeams locIel deviceIsAccepted (i + 1) rest with
        | none => none
        | some more => some ({ p1 with activePtcl := -1 } :: more)

/-- `ParticleSet::multi_acceptRejectMoveKokkos(psets, isAccepted, iel)`, the
flag-based overload of lines 665-703; `psets` is given by the walker data
`psets[i]->psk`. Returns the walkers after the call, `none` when a team
reads or writes out of range. -/
def multi_acceptRejectMoveKokkos (psets : List (pskType T)) (isAccepted : List Bool)
    (iel : Int) : Option (List (pskType T)) :=
  acceptRejectTeams iel isAccepted 0 psets

/-- The teams of the first kernel of the map-based overload (lines 640-653),
one for each entry `i = isAcceptedMap(idx)` handed over: the accept statements
on `psk(i)`. -/
def acceptMapTeams (locIel : Int) : List Int → List (pskType T) → Option (List (pskType T))
  | [], psk => some psk
  | i :: more, psk =>
    match readAt psk i with
    | none => none
    | some psd =>
      match acceptWalker locIel psd with
      | none => none
      | some p1 =>
        match writeAt psk i p1 with
        | none => none
        | some psk1 => acceptMapTeams locIel more psk1

/-- `ParticleSet::multi_acceptRejectMoveKokkos(psk, isAcceptedMap, numAccepted, iel)`,
the map-based overload of lines 634-661: `numAccepted` teams, each on the
walker `isAcceptedMap(idx)`, then `psk(i).activePtcl(0) = -1` for every walker. -/
def multi_acceptRejectMoveKokkos_map (psk : List (pskType T)) (isAcceptedMap : List Int)
    (numAccepted : Int) (iel : Int) : Option (List (pskType T)) :=
  if 0 ≤ numAccepted ∧ numAccepted.toNat ≤ isAcceptedMap.length then
    match acceptMapTeams iel (isAcceptedMap.take numAccepted.toNat) psk with
    | none => none
    | some psk1 => some (psk1.map (fun w => { w with activePtcl := -1 }))
  else
    none

/-- The walkers of league rank `i, i+1, ...` after the accept statements have
run on exactly those whose rank satisfies `sel`, the others being left as
they are. Both overloads are compared with this form. -/
def acceptSelected (locIel : Int) (sel : Nat → Bool) :
    Nat → List (pskType T) → Option (List (pskType T))
  | _, [] => some []
  | i, psd :: rest =>
    match (if sel i then acceptWalker locIel psd else some psd) with
    | none => none
    | some p1 =>
      match acceptSelected locIel sel (i + 1) rest with
      | none => none
      | some more => some (p1 :: more)

end ParticleSet

/-! ## Species and groups: `resetGroups` of ParticleSet.cpp -/

/-- All the results of `f` on the list, in order; `none` as soon as one of
them is `none`. Used for loops whose body reads a container. -/
def allOrNone {α β : Type} (f : α → Option β) : List α → Option (List β)
  | [] => some []
  | a :: as =>
    match f a with
    | none => none
    | some b =>
      match allOrNone f as with
      | none => none
      | some bs => some (b :: bs)

/-- Index of the first attribute called `aname`, if there is one. -/
def attribIndex {T : Type} (aname : String) : List (String × List T) → Option Nat
  | [] => none
  | a :: as =>
    if a.1 = aname then some 0
    else
      match attribIndex aname as with
      | none => none
      | some i => some (i + 1)

/-- Modelled from the spec: `SpeciesSet` (its header is not among the
sources), the species/group table collaborator that "supplies per-species
attribute lookup (`charge`, `mass`, `memberCount`) keyed by group index".
It holds `TotalNum` species and a list of named attributes, each with one
value per species. -/
structure SpeciesSet (T : Type) where
  TotalNum : Nat
  attribs : List (String × List T)
deriving DecidableEq

namespace SpeciesSet

variable {T : Type}

/-- `getTotalNum()`: the number of species. -/
def getTotalNum (s : SpeciesSet T) : Nat :=
  s.TotalNum

/-- `numAttributes()`: the number of attributes. -/
def numAttributes (s : SpeciesSet T) : Nat :=
  s.attribs.length

/-- `addAttribute(aname)`: the index of the attribute `aname`; when there is
none, a new attribute with one (zero) value per species is appended and its
index, the previous `numAttributes()`, is returned. -/
def addAttribute [Zero T] (s : SpeciesSet T) (aname : String) : Nat × SpeciesSet T :=
  match attribIndex aname s.attribs with
  | some i => (i, s)
  | none =>
    (s.attribs.length,
      { s with attribs := s.attribs ++ [(aname, List.replicate s.TotalNum 0)] })

/-- Read of `operator()(i, j)`: attribute `i` of species `j`. -/
def get (s : SpeciesSet T) (i : Nat) (j : Int) : Option T :=
  match s.attribs[i]? with
  | none => none
  | some a => readAt a.2 j

/-- The loop `for (ig = 0; ig < vals.size(); ig++) s(i, ig) = vals[ig];`. -/
def assignAll (s : SpeciesSet T) (i : Nat) (vals : List T) : Option (SpeciesSet T) :=
  match s.attribs[i]? with
  | none => none
  | some a =>
    if vals.length ≤ a.2.length then
      some { s with attribs := s.attribs.set i (a.1, vals ++ a.2.drop vals.length) }
    else
      none

/-- The attribute called `aname` of species `j`. -/
def lookup (s : SpeciesSet T) (aname : String) (j : Int) : Option T :=
  match attribIndex aname s.attribs with
  | none => none
  | some i => s.get i j

/-- Every attribute holds one value per species. -/
def WellFormed (s : SpeciesSet T) : Prop :=
  ∀ a ∈ s.attribs, a.2.length = s.TotalNum

end SpeciesSet

/-- The members of `ParticleSet` read or written by `resetGroups`. -/
structure ParticleGroups (T : Type) where
  mySpecies : SpeciesSet T
  ID : List Int
  IndirectID : List Int
  GroupID : List Int
  Z : List T
  Mass : List T
  SubPtcl : List Int
  IsGrouped : Bool
  SameMass : Bool
deriving DecidableEq

namespace ParticleGroups

variable {T : Type}

/-- Every per-particle array has one entry per particle and every species
attribute has one value per species. -/
def Sized (P : ParticleGroups T) : Prop :=
  P.ID.length = P.GroupID.length ∧ P.IndirectID.length = P.GroupID.length ∧
  P.Z.length = P.GroupID.length ∧ P.Mass.length = P.GroupID.length ∧
  P.mySpecies.WellFormed

/-- Every group index is a species: `0 ≤ GroupID[i] < nspecies`. -/
def GroupsInRange (P : ParticleGroups T) : Prop :=
  ∀ g ∈ P.GroupID, 0 ≤ g ∧ g < (P.mySpecies.TotalNum : Int)

end ParticleGroups

/-- Where the loop of lines 347-353 ends. -/
inductive GroupCount where
  /-- The loop ran to its end with the counters `ng`. -/
  | counted (ng : List Int)
  /-- The loop reached `APP_ABORT("... GroupID is out of bound.")`. -/
  | outOfBound
  /-- The access `ng[GroupID[iat]]` was out of range. -/
  | undefined
deriving DecidableEq

namespace ParticleSet

variable {T : Type}

/-- The loops of lines 327-328 and 344-345 over `n = Z.size()` (or
`Mass.size()`) particles: `X[iat] = mySpecies(ind, GroupID[iat])`. -/
def attribOfGroups (s : SpeciesSet T) (ind : Nat) (GroupID : List Int) (n : Nat) :
    Option (List T) :=
  if n ≤ GroupID.length then allOrNone (fun g => s.get ind g) (GroupID.take n) else none

/-- Lines 336-339: `SameMass = true; m0 = mySpecies(massind, 0);` and, for
`ig = 1 .. nspecies-1`, `SameMass &= (mySpecies(massind, ig) == m0)`. -/
def sameMassOf [DecidableEq T] (s : SpeciesSet T) (massind : Nat) (nspecies : Nat) :
    Option Bool :=
  match s.get massind 0 with
  | none => none
  | some m0 =>
    match allOrNone (fun ig : Nat => s.get massind ig) (List.range' 1 (nspecies - 1)) with
    | none => none
    | some ms => some (ms.foldl (fun acc m => acc && decide (m = m0)) true)

/-- The loop of lines 347-353 over the remaining group indices:
`if (GroupID[iat] < nspecies) ng[GroupID[iat]]++; else APP_ABORT(...)`. -/
def countGroups (nspecies : Int) : List Int → List Int → GroupCount
  | [], ng => GroupCount.counted ng
  | g :: gs, ng =>
    if g < nspecies then
      match readAt ng g with
      | none => GroupCount.undefined
      | some c =>
        match writeAt ng g (c + 1) with
        | none => GroupCount.undefined
        | some ng1 => countGroups nspecies gs ng1
    else
      GroupCount.outOfBound

/-- Lines 354-357, started at `SubPtcl[i] = s`: the entries
`SubPtcl[i], SubPtcl[i+1] = SubPtcl[i] + ng[i], ...`. -/
def offsets : Int → List Int → List Int
  | s, [] => [s]
  | s, n :: ns => s :: offsets (s + n) ns

/-- The inner loop of lines 365-367 for the species `i`: the values `ID[iat]`
of the particles with `GroupID[iat] == i`, in the order they are stored;
`none` when such an `ID[iat]` is out of range. -/
def gatherIDs (i : Int) : List Int → List Int → Option (List Int)
  | [], _ => some []
  | g :: gs, ids =>
    if g = i then
      match ids with
      | [] => none
      | id :: rest =>
        match gatherIDs i gs rest with
        | none => none
        | some more => some (id :: more)
    else
      gatherIDs i gs ids.tail

/-- Lines 363-367: the values stored in `IndirectID[0], IndirectID[1], ...`
by the two nested loops. -/
def indirectIDs (nspecies : Nat) (GroupID ID : List Int) : Option (List Int) :=
  match allOrNone (fun i : Nat => gatherIDs i GroupID ID) (List.range nspecies) with
  | none => none
  | some parts => some parts.flatten

/-- Lines 368-370: `IsGrouped = true;` and, for every `iat < ID.size()`,
`IsGrouped &= (IndirectID[iat] == ID[iat])`. -/
def isGroupedOf (IndirectID ID : List Int) : Option Bool :=
  if ID.length ≤ IndirectID.length then
    some ((List.zip IndirectID ID).foldl (fun acc p => acc && decide (p.1 = p.2)) true)
  else
    none

/-- The IDs of the particles of species `g`, in the order the particles are
stored: what the spec expects in the index range of species `g`. -/
def memberIDs (g : Int) (GroupID ID : List Int) : List Int :=
  ((GroupID.zip ID).filter (fun p => decide (p.1 = g))).map Prod.snd

/-- The number of particles of species `g`. -/
def memberCount (g : Int) (GroupID : List Int) : Nat :=
  GroupID.count g

/-- The number of particles of a species below `g`: where the spec expects
the index range of species `g` to start. -/
def membersBelow (g : Int) (GroupID : List Int) : Nat :=
  GroupID.countP (fun a => decide (a < g))

/-- The member counts of the species `0 .. nspecies-1`. -/
def memberCounts (nspecies : Nat) (GroupID : List Int) : List Int :=
  (List.range nspecies).map (fun g : Nat => (memberCount g GroupID : Int))

/-- The IDs of the particles listed species by species, in increasing species
index, and in storage order within one species. -/
def groupedIDs (nspecies : Nat) (GroupID ID : List Int) : List Int :=
  ((List.range nspecies).map (fun g : Nat => memberIDs g GroupID ID)).flatten

/-- `ParticleSet::resetGroups()`, lines 310-377. -/
def resetGroups [Zero T] [One T] [IntCast T] [DecidableEq T] (P : ParticleGroups T) :
    Outcome (ParticleGroups T) Unit :=
  let nspecies : Nat := P.mySpecies.getTotalNum
  if nspecies = 0 then
    Outcome.abort AbortMsg.noSpecies P
  else
    let natt := P.mySpecies.numAttributes
    let qind := (P.mySpecies.addAttribute "charge").1
    let sp1 := (P.mySpecies.addAttribute "charge").2
    match (if natt = qind then sp1.assignAll qind (List.replicate nspecies 0) else some sp1) with
    | none => Outcome.undefined
    | some sp2 =>
      match attribOfGroups sp2 qind P.GroupID P.Z.length with
      | none => Outcome.undefined
      | some Z1 =>
        let natt2 := sp2.numAttributes
        let massind := (sp2.addAttribute "mass").1
        let sp3 := (sp2.addAttribute "mass").2
        match (if massind = natt2 then sp3.assignAll massind (List.replicate nspecies 1)
               else some sp3) with
        | none => Outcome.undefined
        | some sp4 =>
          match sameMassOf sp4 massind nspecies with
          | none => Outcome.undefined
          | some sameMass =>
            match attribOfGroups sp4 massind P.GroupID P.Mass.length with
            | none => Outcome.undefined
            | some Mass1 =>
              let P1 : ParticleGroups T :=
                { P with mySpecies := sp4, Z := Z1, SameMass := sameMass, Mass := Mass1 }
              match countGroups nspecies P1.GroupID (List.replicate nspecies 0) with
              | GroupCount.undefined => Outcome.undefined
              | GroupCount.outOfBound => Outcome.abort AbortMsg.groupIDOutOfBound P1
              | GroupCount.counted ng =>
                let membersize := (sp4.addAttribute "membersize").1
                let sp5 := (sp4.addAttribute "membersize").2
                match sp5.assignAll membersize (ng.map (fun c : Int => (c : T))) with
                | none => Outcome.undefined
                | some sp6 =>
                  match indirectIDs nspecies P1.GroupID P1.ID with
                  | none => Outcome.undefined
                  | some written =>
                    if written.length ≤ P1.IndirectID.length then
                      let IndirectID1 := written ++ P1.IndirectID.drop written.length
                      match isGroupedOf IndirectID1 P1.ID with
                      | none => Outcome.undefined
                      | some grouped =>
                        Outcome.ok ()
                          { P1 with mySpecies := sp6, SubPtcl := offsets 0 ng,
                                    IndirectID := IndirectID1, IsGrouped := grouped }
                    else
                      Outcome.undefined

end ParticleSet

/-! ## Whole-configuration updates of ParticleSet.cpp -/

/-- The member of `Walker_t` read by `loadWalker` and written by
`saveWalker`: the positions `R`. -/
structure Walker_t (T : Type) where
  R : List (SingleParticlePos_t T)
deriving DecidableEq

namespace ParticleSet

variable {T : Type}

/-- `ParticleSet::update(skipSK)`, lines 468-474. The container class of
`RSoA` is declared outside the sources, so its member `copyIn` is a
parameter: `copyIn RSoA R` is what the container holds after
`RSoA.copyIn(R)`, given what it held before. -/
def update (copyIn : List (SingleParticlePos_t T) → List (SingleParticlePos_t T) →
      List (SingleParticlePos_t T))
    (P : ParticleSet T) (_skipSK : Bool) : Outcome (ParticleSet T) Unit :=
  Outcome.ok ()
    { P with RSoA := copyIn P.RSoA P.R,
             DistTables := P.DistTables.map (fun t => t.record DTCall.evaluate),
             activePtcl := -1 }

/-- `ParticleSet::makeMoveOnSphere(iat, displ)`, lines 594-602. -/
def makeMoveOnSphere [Add T] (P : ParticleSet T) (iat : Int) (displ : SingleParticlePos_t T) :
    Outcome (ParticleSet T) Unit :=
  match readAt P.R iat with
  | none => Outcome.undefined
  | some r =>
    -- activePtcl = iat; activePos = R[iat] + displ;
    let P1 : ParticleSet T := { P with activePtcl := iat, activePos := r + displ }
    Outcome.ok ()
      { P1 with DistTables :=
          P1.DistTables.map (fun t => t.record (DTCall.moveOnSphere P1.activePos)) }

/-- `ParticleSet::donePbyP(skipSK)`, line 706: `activePtcl = -1;`. -/
def donePbyP (P : ParticleSet T) (_skipSK : Bool) : Outcome (ParticleSet T) Unit :=
  Outcome.ok () { P with activePtcl := -1 }

/-- `ParticleSet::loadWalker(awalker, pbyp)`, lines 721-732. The member
`copyIn` of the container of `RSoA` and the member
`Need_full_table_loadWalker` of a distance table are declared outside the
sources and are parameters: what the container holds after the call, and
the value of the flag for each table. -/
def loadWalker (copyIn : List (SingleParticlePos_t T) → List (SingleParticlePos_t T) →
      List (SingleParticlePos_t T))
    (Need_full_table_loadWalker : DistanceTableData T → Bool) (P : ParticleSet T)
    (awalker : Walker_t T) (pbyp : Bool) : Outcome (ParticleSet T) Unit :=
  -- R = awalker.R; RSoA.copyIn(R);
  let P1 : ParticleSet T := { P with R := awalker.R }
  let P2 : ParticleSet T := { P1 with RSoA := copyIn P1.RSoA P1.R }
  if pbyp then
    Outcome.ok ()
      { P2 with DistTables := P2.DistTables.map (fun t =>
          if Need_full_table_loadWalker t then t.record DTCall.evaluate else t) }
  else
    Outcome.ok () P2

/-- `ParticleSet::saveWalker(awalker)`, line 734: `awalker.R = R;`. -/
def saveWalker (P : ParticleSet T) (awalker : Walker_t T) : Walker_t T :=
  { awalker with R := P.R }

/-- For every particle `i`, `RSoA[i]` is the position `R[i]`. -/
def positionsInStep (P : ParticleSet T) : Prop :=
  ∀ (i : Int) (r : SingleParticlePos_t T), readAt P.R i = some r → readAt P.RSoA i = some r

end ParticleSet

/-! ## `create(agroup)` of ParticleSet.cpp -/

/-- The members of `ParticleSet` written by `create(agroup)`. -/
structure ParticleRanges where
  TotalNum : Int
  SubPtcl : List Int
  GroupID : List Int
deriving DecidableEq

namespace ParticleSet

/-- The inner loop of lines 304-305 for the group `i`, with `n` iterations
left: `for (...; j++, loc++) GroupID[loc] = i;`. It yields the value of
`loc` and the array after the loop, `none` when a write is out of range. -/
def fillGroup (i : Int) : Nat → Int → List Int → Option (Int × List Int)
  | 0, loc, GroupID => some (loc, GroupID)
  | n + 1, loc, GroupID =>
    match writeAt GroupID loc i with
    | none => none
    | some GroupID1 => fillGroup i n (loc + 1) GroupID1

/-- The outer loop of lines 302-306 from the group `i` on, over the
remaining entries of `agroup`. An entry `agroup[i] <= 0` gives no
iteration of the inner loop. -/
def fillGroups : Int → Int → List Int → List Int → Option (List Int)
  | _, _, [], GroupID => some GroupID
  | i, loc, a :: as, GroupID =>
    match fillGroup i a.toNat loc GroupID with
    | none => none
    | some (loc1, GroupID1) => fillGroups (i + 1) loc1 as GroupID1

/-- The group indices of the particles when the groups `i, i + 1, ...` hold
`agroup[0], agroup[1], ...` particles each and are stored one after the
other: what the spec expects in `GroupID`. -/
def groupBlocks : Int → List Int → List Int
  | _, [] => []
  | i, a :: as => List.replicate a.toNat i ++ groupBlocks (i + 1) as

/-- `ParticleSet::create(const std::vector<int>& agroup)`, lines 293-308.
`resize(n)`, declared outside the sources, is a parameter: what it makes of
`GroupID`. A negative `nsum`, which the conversion to `size_t` turns into a
size no array can have, is an undefined outcome. -/
def create (resize : Nat → List Int → List Int) (P : ParticleRanges) (agroup : List Int) :
    Outcome ParticleRanges Unit :=
  -- SubPtcl[0] = 0; SubPtcl[is + 1] = SubPtcl[is] + agroup[is];
  let SubPtcl1 := offsets 0 agroup
  match readAt SubPtcl1 agroup.length with
  | none => Outcome.undefined
  | some nsum =>
    if nsum < 0 then
      Outcome.undefined
    else
      match fillGroups 0 0 agroup (resize nsum.toNat P.GroupID) with
      | none => Outcome.undefined
      | some GroupID1 =>
        Outcome.ok () { P with SubPtcl := SubPtcl1, TotalNum := nsum, GroupID := GroupID1 }

end ParticleSet

/-! ## TwoBodyJastrow.h: the flat work-item indices -/

/-- Lines 303-305 of `doTwoBodyJastrowMultiEvalRatio`: the work item
`(workingElecNum, knotNum, walkerIdx)` of the flat index `idx`. The
operator `/` on `int` truncates toward zero. -/
def evalRatioItem (numWalkers numKnots idx : Int) : Int × Int × Int :=
  let workingElecNum := (idx.tdiv numWalkers).tdiv numKnots
  let knotNum := (idx - workingElecNum * numWalkers * numKnots).tdiv numWalkers
  let walkerIdx := idx - workingElecNum * numWalkers * numKnots - knotNum * numWalkers
  (workingElecNum, knotNum, walkerIdx)

/-- Lines 188-190 of `doTwoBodyJastrowMultiRatioGrad` (the same at lines
82-84, 90-92 and 198-200): the work item `(walkerIdx, workingElNum)` of the
flat index `idx`, `idx / numElectrons` and `idx % numElectrons`. -/
def ratioGradItem (numElectrons idx : Int) : Int × Int :=
  (idx.tdiv numElectrons, idx.tmod numElectrons)

/-! ## TwoBodyJastrow.h: the Jastrow data of a walker -/

/-- One member-function call received by the Jastrow data of a walker, with
its integer arguments. The particle-set data `apsd(walkerNum)` passed along
belongs to the same walker and is not recorded. -/
inductive JastrowCall where
  /-- The call `acceptMove(member, psd, iat)`. -/
  | acceptMove (iat : Int)
  /-- The call `acceptMove_part1(psd, iat, workingElNum)`. -/
  | acceptMove_part1 (iat workingElNum : Int)
  /-- The call `acceptMove_part2(psd, iat, workingElNum)`. -/
  | acceptMove_part2 (iat workingElNum : Int)
  /-- The call `acceptMove_part3(iat)`. -/
  | acceptMove_part3 (iat : Int)
  /-- The call `ratioGrad_part1(psd, iel, workingElNum)`. -/
  | ratioGrad_part1 (iel workingElNum : Int)
  /-- The call `ratioGrad_part2(psd, iel, workingElNum)`. -/
  | ratioGrad_part2 (iel workingElNum : Int)
  /-- The call `ratioGrad_part3(iel, gv)`. -/
  | ratioGrad_part3 (iel : Int)
  /-- The call `ratioGrad(member, psd, iel, gv)`. -/
  | ratioGrad (iel : Int)
deriving DecidableEq, Repr

/-- Modelled from the spec: `TwoBodyJastrowKokkos` (its header is not among
the sources), the per-walker numeric state of the Jastrow factor to which
the batched kernels route their work items. The embedding keeps the members
assigned in `initializeJastrowKokkos` and `addFunc`, each view as the list
of its entries, and the calls the member functions have received, oldest
first. -/
structure TwoBodyJastrowKokkos (T : Type) where
  Nelec : Int
  NumGroups : Int
  first : Int × Int
  last : Int × Int
  updateMode : Int
  A : List T
  dA : List T
  d2A : List T
  cutoff_radius : List T
  DeltaRInv : List T
  SplineCoefs : List (List T)
  calls : List JastrowCall
deriving DecidableEq

/-- The Jastrow data after one more call. -/
def TwoBodyJastrowKokkos.record {T : Type} (jd : TwoBodyJastrowKokkos T) (c : JastrowCall) :
    TwoBodyJastrowKokkos T :=
  { jd with calls := jd.calls ++ [c] }

/-- The members of the functor type `FT` read by `addFunc`; the functor
class is declared outside the sources. -/
structure FuncType (T : Type) where
  cutoff_radius : T
  DeltaRInv : T
  SplineCoefs : List T
deriving DecidableEq

/-- The members of `TwoBodyJastrow<FT>` read or written by
`initializeJastrowKokkos` and `addFunc`. -/
structure TwoBodyJastrow (T : Type) where
  jasData : TwoBodyJastrowKokkos T
  splCoefsNotAllocated : Bool
  N : Nat
  NumGroups : Nat
  FirstTime : Bool
  first : Int × Int
  last : Int × Int
deriving DecidableEq

namespace TwoBodyJastrow

variable {T : Type}

/-- `TwoBodyJastrow<FT>::initializeJastrowKokkos()`, lines 602-688. The
scalar type `valT` is a field, in which the literals of lines 651-662 are
exact fractions. A new view holds zeros. -/
def initializeJastrowKokkos [Field T] (J : TwoBodyJastrow T) : TwoBodyJastrow T :=
  { J with
    jasData :=
      { J.jasData with
        Nelec := (J.N : Int)
        NumGroups := (J.NumGroups : Int)
        first := (J.first.1, J.first.2)
        last := (J.last.1, J.last.2)
        updateMode := 3
        A := [-1.0/6.0,  3.0/6.0, -3.0/6.0, 1.0/6.0,
               3.0/6.0, -6.0/6.0,  0.0/6.0, 4.0/6.0,
              -3.0/6.0,  3.0/6.0,  3.0/6.0, 1.0/6.0,
               1.0/6.0,  0.0/6.0,  0.0/6.0, 0.0/6.0]
        dA := [0.0, -0.5,  1.0, -0.5,
               0.0,  1.5, -2.0,  0.0,
               0.0, -1.5,  1.0,  0.5,
               0.0,  0.5,  0.0,  0.0]
        d2A := [0.0, 0.0, -1.0,  1.0,
                0.0, 0.0,  3.0, -2.0,
                0.0, 0.0, -3.0,  1.0,
                0.0, 0.0,  1.0,  0.0]
        cutoff_radius := List.replicate (J.NumGroups * J.NumGroups) 0
        DeltaRInv := List.replicate (J.NumGroups * J.NumGroups) 0 }
    splCoefsNotAllocated := true }

/-- Entry `tbl[4*r + c]` of a table of sixteen coefficients: the coefficient
of `t^(3-c)` in row `r`. -/
def tableEntry (tbl : List ℚ) (r c : Nat) : ℚ :=
  tbl.getD (4 * r + c) 0

/-- The loop `for (i = 0; i < j->SplineCoefs.extent(0); i++)
bigScMirror(ij, i) = smallScMirror(i);` between the two copies of
`jasData.SplineCoefs`: row `ij` receives the entries of `small` in its first
places; `none` when one of the writes is out of range. -/
def copyRow (big : List (List T)) (ij : Int) (small : List T) : Option (List (List T)) :=
  if small.length = 0 then some big
  else
    match readAt big ij with
    | none => none
    | some row =>
      if small.length ≤ row.length then writeAt big ij (small ++ row.drop small.length)
      else none

/-- The statements on `cutoff_radius` and `DeltaRInv` of lines 779-786, where
each of the two mirrors is created from its own view: after the copies back
the two views hold the functor's values at `groupIndex`. -/
def assignRadii (jd : TwoBodyJastrowKokkos T) (groupIndex : Int) (j : FuncType T) :
    Option (List T × List T) :=
  match writeAt jd.cutoff_radius groupIndex j.cutoff_radius with
  | none => none
  | some cr =>
    match writeAt jd.DeltaRInv groupIndex j.DeltaRInv with
    | none => none
    | some drinv => some (cr, drinv)

/-- The statements on `cutoff_radius` and `DeltaRInv` of lines 706-713 (the
same at 727-734 and 756-763), where `drinvMirror` is created from
`jasData.cutoff_radius`. `Kokkos::create_mirror_view` returns the view
itself in a host-accessible memory space (`hostMirror`) and a new host view
of the same extent otherwise; `deep_copy` needs equal extents. With
`hostMirror` both mirrors are the view `cutoff_radius`, which is overwritten
by `DeltaRInv`, written twice at `ij`, and copied to `DeltaRInv`. -/
def assignRadiiShared (hostMirror : Bool) (jd : TwoBodyJastrowKokkos T) (ij : Int)
    (j : FuncType T) : Option (List T × List T) :=
  if jd.cutoff_radius.length = jd.DeltaRInv.length then
    if hostMirror then
      match writeAt jd.DeltaRInv ij j.cutoff_radius with
      | none => none
      | some v1 =>
        match writeAt v1 ij j.DeltaRInv with
        | none => none
        | some v2 => some (v2, v2)
    else
      assignRadii jd ij j
  else
    none

/-- One of the four blocks of `addFunc` (lines 706-722, 727-743, 756-772,
779-795): the functor's cutoff radius, `DeltaRInv` and spline coefficients
are stored at the pair slot `groupIndex`. `shared` tells the blocks whose
`drinvMirror` is created from `cutoff_radius` from the block of lines
779-795. -/
def assignPair (hostMirror shared : Bool) (jd : TwoBodyJastrowKokkos T) (groupIndex : Int)
    (j : FuncType T) : Option (TwoBodyJastrowKokkos T) :=
  match (if shared then assignRadiiShared hostMirror jd groupIndex j
         else assignRadii jd groupIndex j) with
  | none => none
  | some (cr, drinv) =>
    match copyRow jd.SplineCoefs groupIndex j.SplineCoefs with
    | none => none
    | some coefs => some { jd with cutoff_radius := cr, DeltaRInv := drinv, SplineCoefs := coefs }

/-- The nested loops over `ig` and `jg` of lines 704-723 and 753-773: the
block `assignPair` for each listed pair slot, in order. -/
def assignPairs (hostMirror : Bool) (j : FuncType T) :
    List Int → TwoBodyJastrowKokkos T → Option (TwoBodyJastrowKokkos T)
  | [], jd => some jd
  | ij :: rest, jd =>
    match assignPair hostMirror true jd ij j with
    | none => none
    | some jd1 => assignPairs hostMirror j rest jd1

/-- The pair slots `ig*NumGroups + jg` in the order of the nested loops. -/
def pairSlots (NumGroups : Nat) : List Int :=
  (List.range NumGroups).flatMap (fun ig : Nat =>
    (List.range NumGroups).map (fun jg : Nat => (ig : Int) * (NumGroups : Int) + (jg : Int)))

/-- `TwoBodyJastrow<FT>::addFunc(ia, ib, j)`, lines 691-802; `none` when a
view is indexed out of range. `hostMirror` says whether the memory space of
the views is host-accessible. -/
def addFunc [Zero T] (hostMirror : Bool) (J : TwoBodyJastrow T) (ia ib : Int)
    (j : FuncType T) : Option (TwoBodyJastrow T) :=
  let J1 : TwoBodyJastrow T :=
    if J.splCoefsNotAllocated then
      { J with
        splCoefsNotAllocated := false
        jasData := { J.jasData with
          SplineCoefs := List.replicate (J.NumGroups * J.NumGroups)
            (List.replicate j.SplineCoefs.length 0) } }
    else J
  let stored : Option (TwoBodyJastrowKokkos T) :=
    if ia = ib then
      if ia = 0 then
        -- first time, assign everything
        assignPairs hostMirror j (pairSlots J1.NumGroups) J1.jasData
      else
        assignPair hostMirror true J1.jasData (ia * (J1.NumGroups : Int) + ib) j
    else
      if J1.N = 2 then
        -- a very special case, 1 up + 1 down
        assignPairs hostMirror j (pairSlots J1.NumGroups) J1.jasData
      else
        -- generic case
        assignPair hostMirror false J1.jasData (ia * (J1.NumGroups : Int) + ib) j
  match stored with
  | none => none
  | some jd => some { J1 with jasData := jd, FirstTime := false }

end TwoBodyJastrow

/-! ## TwoBodyJastrow.h: the gather step and the batched kernels -/

/-- `Kokkos::create_mirror_view` for the views of `α`. Kokkos is not among
the sources: the mirror of a view is the view itself in a host-accessible
memory space and a new host view otherwise, in both cases with the extent of
the view. The function (what the mirror holds when it is created) is a
parameter. -/
structure MirrorSpace (α : Type) where
  create_mirror_view : List α → List α
  extent_eq : ∀ v, (create_mirror_view v).length = v.length

namespace TwoBodyJastrow

variable {T : Type}

/-- The loop of lines 474-481 from the walker `i` on, with `idx` the next
free slot: the remaining entries of `WFC_list`, `P_list` and `isAccepted`
and the two mirrors. An entry of `P_list` stands for `P_list[i]->psk`.
`none` when `isAccepted[i]`, `P_list[i]` or a slot of a mirror is out of
range. -/
def gatherAccepted (idx : Int) :
    List (TwoBodyJastrow T) → List (pskType T) → List Bool →
    List (TwoBodyJastrowKokkos T) × List (pskType T) →
    Option (List (TwoBodyJastrowKokkos T) × List (pskType T))
  | [], _, _, mirrors => some mirrors
  | _ :: _, _, [], _ => none
  | wfc :: wfcs, ps, accepted :: flags, (atbjdMirror, apsdMirror) =>
    if accepted then
      match writeAt atbjdMirror idx wfc.jasData with
      | none => none
      | some atbjdMirror1 =>
        match ps with
        | [] => none
        | psk :: _ =>
          match writeAt apsdMirror idx psk with
          | none => none
          | some apsdMirror1 =>
            gatherAccepted (idx + 1) wfcs ps.tail flags (atbjdMirror1, apsdMirror1)
    else
      gatherAccepted idx wfcs ps.tail flags (atbjdMirror, apsdMirror)

/-- `populateCollectiveViews(atbjd, apsd, WFC_list, P_list, isAccepted)`,
lines 468-484: the contents of `atbjd` and `apsd` after the two final
`deep_copy` calls. -/
def populateCollectiveViews (jastrowSpace : MirrorSpace (TwoBodyJastrowKokkos T))
    (particleSpace : MirrorSpace (pskType T))
    (atbjd : List (TwoBodyJastrowKokkos T)) (apsd : List (pskType T))
    (WFC_list : List (TwoBodyJastrow T)) (P_list : List (pskType T))
    (isAccepted : List Bool) :
    Option (List (TwoBodyJastrowKokkos T) × List (pskType T)) :=
  gatherAccepted 0 WFC_list P_list isAccepted
    (jastrowSpace.create_mirror_view atbjd, particleSpace.create_mirror_view apsd)

/-- The Jastrow data and the walker data of the walkers whose flag is true,
in increasing walker index: what the spec expects in the first slots. -/
def acceptedOf {α : Type} (items : List α) (isAccepted : List Bool) : List α :=
  ((items.zip isAccepted).filter (fun p => p.2)).map Prod.fst

end TwoBodyJastrow

/-! ## TwoBodyJastrow.h: the batched accept and ratio kernels -/

/-- A `Kokkos::parallel_for` over the indices `0 .. n-1` (a `RangePolicy`,
or the league of a `TeamPolicy`), run in increasing index order; no
iteration when `n <= 0`, `none` as soon as one iteration is. -/
def forRange {σ : Type} (n : Int) (body : Int → σ → Option σ) (s : σ) : Option σ :=
  (List.range n.toNat).foldl
    (fun acc idx => match acc with
      | none => none
      | some s1 => body (idx : Int) s1)
    (some s)

/-- A member-function call `atbjd(walkerNum).f(...)`, recorded as `c` by the
Jastrow data of the walker `walkerNum`; `none` when `walkerNum` is out of
range. -/
def callOn {T : Type} (atbjd : List (TwoBodyJastrowKokkos T)) (walkerNum : Int)
    (c : JastrowCall) : Option (List (TwoBodyJastrowKokkos T)) :=
  match readAt atbjd walkerNum with
  | none => none
  | some jd => writeAt atbjd walkerNum (jd.record c)

/-- The body shared by the loops over `numWalkers*numElectrons` work items
(lines 82-85, 90-93, 188-191, 198-201): `walkerIdx = idx / numElectrons`,
`walkerNum = map(walkerIdx)`, `workingElNum = idx % numElectrons`, and the
call `part workingElNum` on the Jastrow data of `walkerNum`. -/
def perElectron {T : Type} (map : List Int) (numElectrons : Int)
    (part : Int → JastrowCall) (idx : Int) (atbjd : List (TwoBodyJastrowKokkos T)) :
    Option (List (TwoBodyJastrowKokkos T)) :=
  match readAt map (ratioGradItem numElectrons idx).1 with
  | none => none
  | some walkerNum => callOn atbjd walkerNum (part (ratioGradItem numElectrons idx).2)

/-- The body shared by the loops over walkers (lines 73-75, 98-99, 127-129):
`walkerNum = map(walkerIdx)` and the call `c` on the Jastrow data of
`walkerNum`. -/
def perWalker {T : Type} (map : List Int) (c : JastrowCall) (walkerIdx : Int)
    (atbjd : List (TwoBodyJastrowKokkos T)) : Option (List (TwoBodyJastrowKokkos T)) :=
  match readAt map walkerIdx with
  | none => none
  | some walkerNum => callOn atbjd walkerNum c

/-- `doTwoBodyJastrowMultiAcceptRestoreMove(atbjd, apsd, isAcceptedMap,
numAccepted, iat, numElectrons, numIons)`, lines 61-115. The view `apsd` is
only handed to the member functions, element `walkerNum` with the Jastrow
data `walkerNum`, and `numIons` is not used. -/
def doTwoBodyJastrowMultiAcceptRestoreMove {T : Type} (atbjd : List (TwoBodyJastrowKokkos T))
    (isAcceptedMap : List Int) (numAccepted iat numElectrons : Int) :
    Option (List (TwoBodyJastrowKokkos T)) :=
  let numWalkers := numAccepted
  if numWalkers > 2048 then
    forRange numWalkers (perWalker isAcceptedMap (JastrowCall.acceptMove iat)) atbjd
  else
    match forRange (numWalkers * numElectrons)
        (perElectron isAcceptedMap numElectrons (JastrowCall.acceptMove_part1 iat)) atbjd with
    | none => none
    | some atbjd1 =>
      match forRange (numWalkers * numElectrons)
          (perElectron isAcceptedMap numElectrons (JastrowCall.acceptMove_part2 iat))
          atbjd1 with
      | none => none
      | some atbjd2 =>
        forRange numWalkers (perWalker isAcceptedMap (JastrowCall.acceptMove_part3 iat)) atbjd2

/-- The overload of `doTwoBodyJastrowMultiAcceptRestoreMove` for
`Kokkos::HostSpace`, lines 117-131. -/
def doTwoBodyJastrowMultiAcceptRestoreMove_HostSpace {T : Type}
    (atbjd : List (TwoBodyJastrowKokkos T)) (isAcceptedMap : List Int)
    (_numAccepted iat _numElectrons : Int) : Option (List (TwoBodyJastrowKokkos T)) :=
  let numWalkers : Int := atbjd.length
  forRange numWalkers (perWalker isAcceptedMap (JastrowCall.acceptMove iat)) atbjd

/-- The views written by `doTwoBodyJastrowMultiRatioGrad`: the Jastrow data
of the walkers, `gradNowView` (one row per slot) and `ratiosView`. -/
structure RatioGradViews (T : Type) where
  atbjd : List (TwoBodyJastrowKokkos T)
  gradNowView : List (List T)
  ratiosView : List T
deriving DecidableEq

/-- The body of the loops of lines 203-210 and 233-239: `walkerNum =
isValidMap(walkerIdx)`, the call `c` on the Jastrow data of `walkerNum`, its
gradient stored in row `walkerIdx` of `gradNowView` and its value in
`ratiosView(walkerIdx)`. The member function (`ratioGrad_part3` or
`ratioGrad`) is declared outside the sources: `result` gives the value it
returns and the row it writes. -/
def storeRatio {T : Type} (result : TwoBodyJastrowKokkos T → Int → T × List T)
    (isValidMap : List Int) (iel : Int) (c : JastrowCall) (walkerIdx : Int)
    (v : RatioGradViews T) : Option (RatioGradViews T) :=
  match readAt isValidMap walkerIdx with
  | none => none
  | some walkerNum =>
    match readAt v.atbjd walkerNum with
    | none => none
    | some jd =>
      match callOn v.atbjd walkerNum c with
      | none => none
      | some atbjd1 =>
        match writeAt v.gradNowView walkerIdx (result jd iel).2 with
        | none => none
        | some grad1 =>
          match writeAt v.ratiosView walkerIdx (result jd iel).1 with
          | none => none
          | some ratios1 =>
            some { atbjd := atbjd1, gradNowView := grad1, ratiosView := ratios1 }

/-- `doTwoBodyJastrowMultiRatioGrad(atbjd, apsd, isValidMap, numValid, iel,
gradNowView, ratiosView)`, lines 177-224. -/
def doTwoBodyJastrowMultiRatioGrad {T : Type}
    (ratioGrad_part3 : TwoBodyJastrowKokkos T → Int → T × List T)
    (v : RatioGradViews T) (isValidMap : List Int) (numValid iel : Int) :
    Option (RatioGradViews T) :=
  let numWalkers := numValid
  match readAt v.atbjd 0 with
  | none => none
  | some jd0 =>
    let numElectrons := jd0.Nelec
    match forRange (numWalkers * numElectrons)
        (perElectron isValidMap numElectrons (JastrowCall.ratioGrad_part1 iel)) v.atbjd with
    | none => none
    | some atbjd1 =>
      match forRange (numWalkers * numElectrons)
          (perElectron isValidMap numElectrons (JastrowCall.ratioGrad_part2 iel)) atbjd1 with
      | none => none
      | some atbjd2 =>
        forRange numWalkers
          (storeRatio ratioGrad_part3 isValidMap iel (JastrowCall.ratioGrad_part3 iel))
          { v with atbjd := atbjd2 }

/-- The overload of `doTwoBodyJastrowMultiRatioGrad` for `Kokkos::HostSpace`,
lines 226-240. -/
def doTwoBodyJastrowMultiRatioGrad_HostSpace {T : Type}
    (ratioGrad : TwoBodyJastrowKokkos T → Int → T × List T)
    (v : RatioGradViews T) (isValidMap : List Int) (_numValid iel : Int) :
    Option (RatioGradViews T) :=
  let numWalkers : Int := v.atbjd.length
  forRange numWalkers (storeRatio ratioGrad isValidMap iel (JastrowCall.ratioGrad iel)) v

/-! ## `addTable` of ParticleSet.cpp -/

/-- The members of `ParticleSet` read or written by `addTable`; `DT` is the
type of a distance table. `myDistTableMap`, a `std::map<std::string, int>`,
is the list of its entries in the order of insertion. -/
structure ParticleTables (DT : Type) where
  myName : String
  DistTables : List DT
  myDistTableMap : List (String × Int)
deriving DecidableEq

/-- The declarations used by `addTable` that are outside the sources, as
parameters: the two `createDistanceTable` functions, the member
`is_same_type` of a table and the enumerator `DT_SOA_PREFERRED`. -/
structure DistanceTableKinds (DT : Type) where
  /-- The call `createDistanceTable(s, dt_type)`. -/
  createDistanceTable : ParticleTables DT → Int → DT
  /-- The call `createDistanceTable(s, t, dt_type)`. -/
  createDistanceTableAB : ParticleTables DT → ParticleTables DT → Int → DT
  /-- The call `table->is_same_type(dt_type)`. -/
  is_same_type : DT → Int → Bool
  DT_SOA_PREFERRED : Int

namespace ParticleSet

/-- The assignment `m[key] = value` of `std::map`: the entry of `key` is
replaced, or a new entry is added. -/
def mapAssign (m : List (String × Int)) (key : String) (value : Int) : List (String × Int) :=
  if (m.lookup key).isSome then m.map (fun e => if e.1 = key then (key, value) else e)
  else m ++ [(key, value)]

/-- `ParticleSet::addTable(psrc, dt_type)`, lines 410-466. -/
def addTable {DT : Type} (kinds : DistanceTableKinds DT) (P psrc : ParticleTables DT)
    (dt_type : Int) : Outcome (ParticleTables DT) Int :=
  if P.myName = "none" then
    Outcome.abort AbortMsg.addTableNeedsName P
  else
    let wasEmpty := P.DistTables.isEmpty
    -- add  this-this pair
    let P1 : ParticleTables DT :=
      if wasEmpty then
        { P with DistTables := P.DistTables ++ [kinds.createDistanceTable P dt_type],
                 myDistTableMap := mapAssign [] P.myName 0 }
      else P
    if wasEmpty ∧ psrc.myName = P1.myName then
      Outcome.ok 0 P1
    else if psrc.myName = P1.myName then
      Outcome.ok 0 P1
    else
      match P1.myDistTableMap.lookup psrc.myName with
      | none =>
        let tid : Int := P1.DistTables.length
        Outcome.ok tid
          { P1 with DistTables := P1.DistTables ++ [kinds.createDistanceTableAB psrc P1 dt_type],
                    myDistTableMap := mapAssign P1.myDistTableMap psrc.myName tid }
      | some tid =>
        match readAt P1.DistTables tid with
        | none => Outcome.undefined
        | some table =>
          if dt_type = kinds.DT_SOA_PREFERRED ∨ kinds.is_same_type table dt_type = true then
            -- good to reuse
            Outcome.ok tid P1
          else
            Outcome.abort AbortMsg.cannotMixTables P1

/-- The registry of a particle set that holds its self table and one table
for each of the partners `names`, in the order of their first request: the
map lists the own name and `names` with the indices `0, 1, 2, ...`, and
there are as many tables. -/
def Registered {DT : Type} (P : ParticleTables DT) (names : List String) : Prop :=
  P.myDistTableMap.map Prod.fst = P.myName :: names ∧
  P.myDistTableMap.map Prod.snd = (List.range (names.length + 1)).map (fun k : Nat => (k : Int)) ∧
  P.DistTables.length = names.length + 1 ∧
  (P.myName :: names).Nodup

/-- A sequence of `addTable(psrc, dt_type)` calls on the same particle set,
performed in order: the values returned and the state after the last call;
`none` when one of the calls does not return. -/
def addTables {DT : Type} (kinds : DistanceTableKinds DT) :
    ParticleTables DT → List (ParticleTables DT × Int) → Option (List Int × ParticleTables DT)
  | P, [] => some ([], P)
  | P, c :: cs =>
    match addTable kinds P c.1 c.2 with
    | Outcome.ok tid P1 =>
      match addTables kinds P1 cs with
      | none => none
      | some (tids, P2) => some (tid :: tids, P2)
    | _ => none

end ParticleSet

/-! ## Concrete configurations -/

namespace Scenario

/-- A lattice over integer coordinates with `toUnit` the identity: a
displacement is out of bound when its first coordinate leaves `[-2, 2]`,
a position is valid when its first coordinate lies in `[0, 3)`. -/
def cell : ParticleLayout_t Int where
  toUnit := fun p => p
  outOfBound := fun u => decide (u.get 0 < -2 ∨ 2 < u.get 0)
  isValid := fun u => decide (0 ≤ u.get 0 ∧ u.get 0 < 3)

/-- Two particles at `(0,0,0)` and `(1,0,0)` in an open domain
(`UseBoundBox = false`), no move pending, two distance tables without calls. -/
def twoOpen : ParticleSet Int where
  UseBoundBox := false
  R := [TinyVector.mk3 0 0 0, TinyVector.mk3 1 0 0]
  RSoA := [TinyVector.mk3 0 0 0, TinyVector.mk3 1 0 0]
  activePtcl := -1
  activePos := TinyVector.mk3 0 0 0
  newRedPos := TinyVector.mk3 0 0 0
  DistTables := [⟨[]⟩, ⟨[]⟩]

/-- The configuration `twoOpen` with the bounding box enabled. -/
def twoBoxed : ParticleSet Int :=
  { twoOpen with UseBoundBox := true }

/-- The configuration `twoOpen` with a move of particle 1 to `(5,0,0)` pending. -/
def twoPending : ParticleSet Int :=
  { twoOpen with activePtcl := 1, activePos := TinyVector.mk3 5 0 0 }

/-- The walker data of the boxed configuration `twoBoxed`. -/
def walkerBoxed : pskType Int where
  UseBoundBox := true
  R := [TinyVector.mk3 0 0 0, TinyVector.mk3 1 0 0]
  RSoA := [TinyVector.mk3 0 0 0, TinyVector.mk3 1 0 0]
  activePtcl := -1
  activePos := TinyVector.mk3 0 0 0
  LikeDT := ⟨[]⟩
  UnlikeDT := ⟨[]⟩

/-- The walker `walkerBoxed` left Idle by a rejected proposal, with the
stale trial position `(5,0,0)`. -/
def walkerStale : pskType Int :=
  { walkerBoxed with activePtcl := -1, activePos := TinyVector.mk3 5 0 0 }

/-- The walker `walkerBoxed` with the move of particle 0 to `(2,0,0)` proposed. -/
def walkerProposed : pskType Int :=
  { walkerBoxed with activePtcl := 0, activePos := TinyVector.mk3 2 0 0,
                     LikeDT := ⟨[DTCall.move (TinyVector.mk3 2 0 0)]⟩,
                     UnlikeDT := ⟨[DTCall.move (TinyVector.mk3 2 0 0)]⟩ }

/-- Two species with the attribute `charge` only (`-1` and `3`). -/
def twoSpecies : SpeciesSet Int where
  TotalNum := 2
  attribs := [("charge", [-1, 3])]

/-- Three particles with `ID = [0, 1, 2]` and `GroupID = [1, 0, 1]`: particle 1
is the only one of species 0. -/
def mixedGroups : ParticleGroups Int where
  mySpecies := twoSpecies
  ID := [0, 1, 2]
  IndirectID := [0, 0, 0]
  GroupID := [1, 0, 1]
  Z := [0, 0, 0]
  Mass := [0, 0, 0]
  SubPtcl := []
  IsGrouped := true
  SameMass := false

/-- The particles of `mixedGroups` stored species by species: `GroupID = [0, 1, 1]`. -/
def sortedGroups : ParticleGroups Int :=
  { mixedGroups with GroupID := [0, 1, 1] }

/-- The particles of `mixedGroups` with no species defined. -/
def noSpeciesGroups : ParticleGroups Int :=
  { mixedGroups with mySpecies := { TotalNum := 0, attribs := [] } }

/-- The particles of `mixedGroups` with particle 1 in the group `2`, one
past the last of the two species. -/
def groupTooLarge : ParticleGroups Int :=
  { mixedGroups with GroupID := [1, 2, 1] }

/-- The particles of `mixedGroups` with particle 1 in the group `-1`. -/
def groupNegative : ParticleGroups Int :=
  { mixedGroups with GroupID := [1, -1, 1] }

/-- A Jastrow factor for four electrons in two groups before
`initializeJastrowKokkos`: the Jastrow data holds empty views. -/
def jastrowBlank : TwoBodyJastrow ℚ where
  jasData :=
    { Nelec := 0, NumGroups := 0, first := (0, 0), last := (0, 0), updateMode := 0,
      A := [], dA := [], d2A := [], cutoff_radius := [], DeltaRInv := [],
      SplineCoefs := [], calls := [] }
  splCoefsNotAllocated := true
  N := 4
  NumGroups := 2
  FirstTime := true
  first := (0, 2)
  last := (2, 4)

/-- The Jastrow factor `jastrowBlank` as `initializeJastrowKokkos` leaves it. -/
def jastrowFresh : TwoBodyJastrow ℚ :=
  TwoBodyJastrow.initializeJastrowKokkos jastrowBlank

/-- The functor of the like-spin pairs: cutoff radius 4, `DeltaRInv` 3. -/
def likeFunc : FuncType ℚ where
  cutoff_radius := 4
  DeltaRInv := 3
  SplineCoefs := [7, 8, 9]

/-- The functor of the unlike-spin pairs: cutoff radius 5, `DeltaRInv` 2. -/
def unlikeFunc : FuncType ℚ where
  cutoff_radius := 5
  DeltaRInv := 2
  SplineCoefs := [1, 2, 3]

/-- Jastrow data of a walker with one electron in one group, no call
received, and `updateMode = tag` to tell the walkers apart. -/
def jasDataOf (tag : Int) : TwoBodyJastrowKokkos Int where
  Nelec := 1
  NumGroups := 1
  first := (0, 1)
  last := (1, 1)
  updateMode := tag
  A := []
  dA := []
  d2A := []
  cutoff_radius := [0]
  DeltaRInv := [0]
  SplineCoefs := []
  calls := []

/-- The Jastrow factor that owns the data `jasDataOf tag`. -/
def jastrowOf (tag : Int) : TwoBodyJastrow Int where
  jasData := jasDataOf tag
  splCoefsNotAllocated := true
  N := 1
  NumGroups := 1
  FirstTime := true
  first := (0, 1)
  last := (1, 1)

/-- A host-accessible memory space: the mirror of a view is the view. -/
def hostSpace (α : Type) : MirrorSpace α where
  create_mirror_view := fun v => v
  extent_eq := fun _ => rfl

/-- A memory space that is not host-accessible: the mirror of a view is a
new host view of the same extent, every element of which is `fresh`. -/
def deviceSpace {α : Type} (fresh : α) : MirrorSpace α where
  create_mirror_view := fun v => List.replicate v.length fresh
  extent_eq := fun _ => List.length_replicate _ _

/-- Distance tables told apart by their layout only: a table is the value
`dt_type` it was created with, `is_same_type` compares it with the requested
one, and `DT_SOA_PREFERRED` is the enumerator 3 (after `DT_AOS = 0`,
`DT_SOA = 1` and `DT_AOS_PREFERRED = 2`). -/
def layoutKinds : DistanceTableKinds Int where
  createDistanceTable := fun _ dt_type => dt_type
  createDistanceTableAB := fun _ _ dt_type => dt_type
  is_same_type := fun table dt_type => decide (table = dt_type)
  DT_SOA_PREFERRED := 3

/-- The ions, a particle set without tables. -/
def ions : ParticleTables Int where
  myName := "ion0"
  DistTables := []
  myDistTableMap := []

/-- The electrons before any `addTable` call. -/
def electronsNew : ParticleTables Int where
  myName := "e"
  DistTables := []
  myDistTableMap := []

/-- The electrons with their self table and a table for the ions, both
created with `DT_SOA = 1`. -/
def electrons : ParticleTables Int where
  myName := "e"
  DistTables := [1, 1]
  myDistTableMap := [("e", 0), ("ion0", 1)]

/-- The configuration `twoOpen` with a stale `RSoA`: two entries, different
from `R[0]` and `R[1]`. -/
def twoOutOfStep : ParticleSet Int :=
  { twoOpen with RSoA := [TinyVector.mk3 7 7 7, TinyVector.mk3 8 8 8] }

/-- A `copyIn` that keeps the size of the container: it overwrites as many
entries as the container holds with the first entries of the source. -/
def copyPrefix (RSoA src : List (SingleParticlePos_t Int)) : List (SingleParticlePos_t Int) :=
  src.take RSoA.length ++ RSoA.drop src.length

end Scenario

end qmcplusplus

/-! ## Facts about the containers and the call records -/

namespace qmcplusplus

theorem readAt_eq_some_iff {α : Type} (v : List α) (i : Int) (x : α) :
    readAt v i = some x ↔ 0 ≤ i ∧ v[i.toNat]? = some x := by
  unfold readAt
  by_cases h : 0 ≤ i <;> simp [h]

theorem readAt_inRange {α : Type} (v : List α) (i : Int) (x : α)
    (h : readAt v i = some x) : 0 ≤ i ∧ i.toNat < v.length := by
  obtain ⟨h0, hx⟩ := (readAt_eq_some_iff v i x).1 h
  refine ⟨h0, ?_⟩
  by_contra hlt
  rw [List.getElem?_eq_none (Nat.le_of_not_lt hlt)] at hx
  exact Option.noConfusion hx

theorem readAt_of_inRange {α : Type} (v : List α) (i : Int)
    (h0 : 0 ≤ i) (hlt : i.toNat < v.length) : readAt v i = some (v.get ⟨i.toNat, hlt⟩) := by
  unfold readAt
  rw [if_pos h0, List.getElem?_eq_getElem hlt]
  rfl

theorem writeAt_eq_some_iff {α : Type} (v w : List α) (i : Int) (x : α) :
    writeAt v i x = some w ↔ (0 ≤ i ∧ i.toNat < v.length) ∧ w = v.set i.toNat x := by
  unfold writeAt
  by_cases h : 0 ≤ i ∧ i.toNat < v.length
  · simp [h, eq_comm]
  · simp [h]

theorem readAt_writeAt_same {α : Type} (v w : List α) (i : Int) (x : α)
    (h : writeAt v i x = some w) : readAt w i = some x := by
  obtain ⟨⟨h0, hlt⟩, rfl⟩ := (writeAt_eq_some_iff v w i x).1 h
  simp [readAt, h0, hlt]

theorem readAt_writeAt_other {α : Type} (v w : List α) (i j : Int) (x : α)
    (h : writeAt v i x = some w) (hij : j ≠ i) : readAt w j = readAt v j := by
  obtain ⟨⟨h0, _⟩, rfl⟩ := (writeAt_eq_some_iff v w i x).1 h
  unfold readAt
  by_cases hj : 0 ≤ j
  · have hne : i.toNat ≠ j.toNat := by omega
    simp [hj, List.getElem?_set_ne hne]
  · simp [hj]

theorem writeAt_length {α : Type} (v w : List α) (i : Int) (x : α)
    (h : writeAt v i x = some w) : w.length = v.length := by
  obtain ⟨_, rfl⟩ := (writeAt_eq_some_iff v w i x).1 h
  simp

namespace DistanceTableData

variable {T : Type}

theorem commits_move (t : DistanceTableData T) (rnew : SingleParticlePos_t T) :
    (t.move rnew).commits = t.commits := by
  simp [move, record, commits, List.filter_append]

theorem map_commits_move (ts : List (DistanceTableData T)) (rnew : SingleParticlePos_t T) :
    (ts.map (fun t => t.move rnew)).map commits = ts.map commits := by
  simp [List.map_map, Function.comp_def, commits_move]

end DistanceTableData

end qmcplusplus

/-! ## The single-configuration move protocol -/

namespace qmcplusplus

namespace ParticleSet

variable {T : Type}

/-- Outcome of `makeMoveAndCheck` when the bounding box is disabled. -/
theorem makeMoveAndCheck_open [Add T] (Lattice : ParticleLayout_t T) (P : ParticleSet T)
    (iat : Int) (displ r : SingleParticlePos_t T)
    (hr : readAt P.R iat = some r) (hoff : P.UseBoundBox = false) :
    makeMoveAndCheck Lattice P iat displ = Outcome.ok true
      { P with activePtcl := iat, activePos := r + displ,
               DistTables := P.DistTables.map (fun t => t.move (r + displ)) } := by
  simp only [makeMoveAndCheck, hr, hoff]
  rfl

/-- Outcome of `makeMoveAndCheck` when the box is enabled and both tests pass. -/
theorem makeMoveAndCheck_inside [Add T] (Lattice : ParticleLayout_t T) (P : ParticleSet T)
    (iat : Int) (displ r : SingleParticlePos_t T)
    (hr : readAt P.R iat = some r) (hon : P.UseBoundBox = true)
    (hout : Lattice.outOfBound (Lattice.toUnit displ) = false)
    (hval : Lattice.isValid (Lattice.toUnit (r + displ)) = true) :
    makeMoveAndCheck Lattice P iat displ = Outcome.ok true
      { P with activePtcl := iat, activePos := r + displ,
               newRedPos := Lattice.toUnit (r + displ),
               DistTables := P.DistTables.map (fun t => t.move (r + displ)) } := by
  simp only [makeMoveAndCheck, hr, hon, hout, hval]
  rfl

/-- Outcome of `makeMoveAndCheck` when the displacement is out of bound. -/
theorem makeMoveAndCheck_outOfBound [Add T] (Lattice : ParticleLayout_t T) (P : ParticleSet T)
    (iat : Int) (displ r : SingleParticlePos_t T)
    (hr : readAt P.R iat = some r) (hon : P.UseBoundBox = true)
    (hout : Lattice.outOfBound (Lattice.toUnit displ) = true) :
    makeMoveAndCheck Lattice P iat displ = Outcome.ok false
      { P with activePtcl := -1, activePos := r + displ } := by
  simp only [makeMoveAndCheck, hr, hon, hout]
  rfl

/-- Outcome of `makeMoveAndCheck` when the new reduced position is not valid. -/
theorem makeMoveAndCheck_invalid [Add T] (Lattice : ParticleLayout_t T) (P : ParticleSet T)
    (iat : Int) (displ r : SingleParticlePos_t T)
    (hr : readAt P.R iat = some r) (hon : P.UseBoundBox = true)
    (hout : Lattice.outOfBound (Lattice.toUnit displ) = false)
    (hval : Lattice.isValid (Lattice.toUnit (r + displ)) = false) :
    makeMoveAndCheck Lattice P iat displ = Outcome.ok false
      { P with activePtcl := -1, activePos := r + displ,
               newRedPos := Lattice.toUnit (r + displ) } := by
  simp only [makeMoveAndCheck, hr, hon, hout, hval]
  rfl

/-- The calls recorded after one `move(rnew)` on every table. -/
theorem calls_map_move (ts : List (DistanceTableData T)) (rnew : SingleParticlePos_t T) :
    (ts.map (fun t => t.move rnew)).map (fun t => t.calls) =
      ts.map (fun t => t.calls ++ [DTCall.move rnew]) := by
  simp [DistanceTableData.move, DistanceTableData.record, List.map_map, Function.comp_def]

/-- The calls recorded after one `update(iat)` on every table. -/
theorem calls_map_update (ts : List (DistanceTableData T)) (iat : Int) :
    (ts.map (fun t => t.update iat)).map (fun t => t.calls) =
      ts.map (fun t => t.calls ++ [DTCall.update iat]) := by
  simp [DistanceTableData.update, DistanceTableData.record, List.map_map, Function.comp_def]

/-- C1: when the bounding box is disabled, or is enabled with
`outOfBound(toUnit(displ))` false and `isValid(toUnit(R[iat] + displ))` true,
`makeMoveAndCheck(iat, displ)` returns `true`, leaves `activePtcl = iat` and
`activePos = R[iat] + displ`, appends exactly one `move(activePos)` call to
the record of every distance table, and leaves `R` unchanged. -/
theorem makeMoveAndCheck_valid [Add T] (Lattice : ParticleLayout_t T) (P : ParticleSet T)
    (iat : Int) (displ r : SingleParticlePos_t T)
    (hr : readAt P.R iat = some r)
    (hbox : P.UseBoundBox = false ∨
      (P.UseBoundBox = true ∧ Lattice.outOfBound (Lattice.toUnit displ) = false ∧
        Lattice.isValid (Lattice.toUnit (r + displ)) = true)) :
    ∃ Q, makeMoveAndCheck Lattice P iat displ = Outcome.ok true Q ∧
      Q.activePtcl = iat ∧ Q.activePos = r + displ ∧
      Q.DistTables.map (fun t => t.calls) =
        P.DistTables.map (fun t => t.calls ++ [DTCall.move (r + displ)]) ∧
      Q.R = P.R := by
  rcases hbox with hoff | ⟨hon, hout, hval⟩
  · exact ⟨_, makeMoveAndCheck_open Lattice P iat displ r hr hoff, rfl, rfl,
      calls_map_move _ _, rfl⟩
  · exact ⟨_, makeMoveAndCheck_inside Lattice P iat displ r hr hon hout hval, rfl, rfl,
      calls_map_move _ _, rfl⟩

/-- Instance of C1: particle 1 of the boxed
two-particle configuration, displaced by `(1,0,0)` inside the cell. -/
theorem makeMoveAndCheck_valid_witness :
    ∃ Q, makeMoveAndCheck Scenario.cell Scenario.twoBoxed 1 (TinyVector.mk3 1 0 0)
        = Outcome.ok true Q ∧
      Q.activePtcl = 1 ∧ Q.activePos = TinyVector.mk3 1 0 0 + TinyVector.mk3 1 0 0 ∧
      Q.DistTables.map (fun t => t.calls) =
        Scenario.twoBoxed.DistTables.map
          (fun t => t.calls ++ [DTCall.move (TinyVector.mk3 1 0 0 + TinyVector.mk3 1 0 0)]) ∧
      Q.R = Scenario.twoBoxed.R :=
  makeMoveAndCheck_valid Scenario.cell Scenario.twoBoxed 1 (TinyVector.mk3 1 0 0)
    (TinyVector.mk3 1 0 0) (by decide) (Or.inr ⟨by decide, by decide, by decide⟩)

/-- C2: with the bounding box enabled, when `outOfBound(toUnit(displ))` holds
or `isValid(toUnit(R[iat] + displ))` fails, `makeMoveAndCheck(iat, displ)`
returns `false`, leaves `activePtcl = -1`, leaves every distance table as it
was (no call reaches any of them) and leaves `R` unchanged. -/
theorem makeMoveAndCheck_rejected [Add T] (Lattice : ParticleLayout_t T) (P : ParticleSet T)
    (iat : Int) (displ r : SingleParticlePos_t T)
    (hr : readAt P.R iat = some r)
    (hon : P.UseBoundBox = true)
    (hbad : Lattice.outOfBound (Lattice.toUnit displ) = true ∨
      Lattice.isValid (Lattice.toUnit (r + displ)) = false) :
    ∃ Q, makeMoveAndCheck Lattice P iat displ = Outcome.ok false Q ∧
      Q.activePtcl = -1 ∧ Q.DistTables = P.DistTables ∧ Q.R = P.R := by
  by_cases hout : Lattice.outOfBound (Lattice.toUnit displ) = true
  · exact ⟨_, makeMoveAndCheck_outOfBound Lattice P iat displ r hr hon hout, rfl, rfl, rfl⟩
  · have hval : Lattice.isValid (Lattice.toUnit (r + displ)) = false := by
      rcases hbad with h | h
      · exact absurd h hout
      · exact h
    have hout2 : Lattice.outOfBound (Lattice.toUnit displ) = false := by
      simpa using hout
    exact ⟨_, makeMoveAndCheck_invalid Lattice P iat displ r hr hon hout2 hval, rfl, rfl, rfl⟩

/-- Instance of C2: particle 1 of the boxed
two-particle configuration, displaced by `(3,0,0)` out of the cell. -/
theorem makeMoveAndCheck_rejected_witness :
    ∃ Q, makeMoveAndCheck Scenario.cell Scenario.twoBoxed 1 (TinyVector.mk3 3 0 0)
        = Outcome.ok false Q ∧
      Q.activePtcl = -1 ∧ Q.DistTables = Scenario.twoBoxed.DistTables ∧
      Q.R = Scenario.twoBoxed.R :=
  makeMoveAndCheck_rejected Scenario.cell Scenario.twoBoxed 1 (TinyVector.mk3 3 0 0)
    (TinyVector.mk3 1 0 0) (by decide) (by decide) (Or.inl (by decide))

/-- Outcome of `acceptMove(iat)` when `iat` is the active particle and a
valid index of `R` and of `RSoA`. -/
theorem acceptMove_active (P : ParticleSet T) (iat : Int)
    (hact : P.activePtcl = iat) (h0 : 0 ≤ iat)
    (hR : iat.toNat < P.R.length) (hS : iat.toNat < P.RSoA.length) :
    acceptMove P iat = Outcome.ok ()
      { P with DistTables := P.DistTables.map (fun t => t.update iat),
               R := P.R.set iat.toNat P.activePos,
               RSoA := P.RSoA.set iat.toNat P.activePos,
               activePtcl := -1 } := by
  have hw1 : writeAt P.R iat P.activePos = some (P.R.set iat.toNat P.activePos) :=
    (writeAt_eq_some_iff _ _ _ _).2 ⟨⟨h0, hR⟩, rfl⟩
  have hw2 : writeAt P.RSoA iat P.activePos = some (P.RSoA.set iat.toNat P.activePos) :=
    (writeAt_eq_some_iff _ _ _ _).2 ⟨⟨h0, hS⟩, rfl⟩
  simp only [acceptMove, hact, hw1, hw2]
  rfl

/-- Outcome of `acceptMove(iat)` when `iat` is not the active particle. -/
theorem acceptMove_mismatch (P : ParticleSet T) (iat : Int) (hne : P.activePtcl ≠ iat) :
    acceptMove P iat = Outcome.abort (AbortMsg.illegalAcceptMove iat P.activePtcl) P := by
  have hne2 : ¬ iat = P.activePtcl := fun h => hne h.symm
  simp only [acceptMove, hne2]
  rfl

/-- C3: in a state with `activePtcl = iat`, `iat` a valid particle index,
`acceptMove(iat)` returns, sets `R[iat]` and `RSoA[iat]` to `activePos`,
appends exactly one `update(iat)` call to the record of every distance
table, sets `activePtcl = -1` and leaves `R[j]` unchanged for every
`j ≠ iat`. Scenario: with `R = [(0,0,0), (1,0,0)]` and the bounding box
disabled, `makeMoveAndCheck(0, (1,0,0))` followed by `acceptMove(0)` yields
`R[0] = (1,0,0)` and `R[1] = (1,0,0)`. -/
theorem acceptMove_commits :
    (∀ (T : Type) (P : ParticleSet T) (iat : Int),
      P.activePtcl = iat → 0 ≤ iat → iat.toNat < P.R.length → iat.toNat < P.RSoA.length →
      ∃ Q, acceptMove P iat = Outcome.ok () Q ∧
        readAt Q.R iat = some P.activePos ∧ readAt Q.RSoA iat = some P.activePos ∧
        Q.DistTables.map (fun t => t.calls) =
          P.DistTables.map (fun t => t.calls ++ [DTCall.update iat]) ∧
        Q.activePtcl = -1 ∧
        ∀ j : Int, j ≠ iat → readAt Q.R j = readAt P.R j) ∧
    (∃ Q, (makeMoveAndCheck Scenario.cell Scenario.twoOpen 0 (TinyVector.mk3 1 0 0)).andThen
          (fun _ P1 => acceptMove P1 0) = Outcome.ok () Q ∧
        readAt Q.R 0 = some (TinyVector.mk3 1 0 0) ∧
        readAt Q.R 1 = some (TinyVector.mk3 1 0 0)) := by
  constructor
  · intro T P iat hact h0 hR hS
    have hw1 : writeAt P.R iat P.activePos = some (P.R.set iat.toNat P.activePos) :=
      (writeAt_eq_some_iff _ _ _ _).2 ⟨⟨h0, hR⟩, rfl⟩
    have hw2 : writeAt P.RSoA iat P.activePos = some (P.RSoA.set iat.toNat P.activePos) :=
      (writeAt_eq_some_iff _ _ _ _).2 ⟨⟨h0, hS⟩, rfl⟩
    refine ⟨_, acceptMove_active P iat hact h0 hR hS, ?_, ?_, ?_, rfl, ?_⟩
    · exact readAt_writeAt_same _ _ _ _ hw1
    · exact readAt_writeAt_same _ _ _ _ hw2
    · exact calls_map_update _ _
    · intro j hj
      exact readAt_writeAt_other _ _ _ _ _ hw1 hj
  · exact ⟨_, rfl, by decide, by decide⟩

/-- Instance of C3: particle 0 of the open two-particle configuration, after
the proposal that moves it to `(5,0,0)`. -/
theorem acceptMove_commits_witness :
    ∃ Q, acceptMove { Scenario.twoOpen with activePtcl := 0, activePos := TinyVector.mk3 5 0 0 } 0
        = Outcome.ok () Q ∧
      readAt Q.R 0 = some (TinyVector.mk3 5 0 0) ∧
      readAt Q.RSoA 0 = some (TinyVector.mk3 5 0 0) ∧
      Q.DistTables.map (fun t => t.calls) = [[DTCall.update 0], [DTCall.update 0]] ∧
      Q.activePtcl = -1 ∧
      ∀ j : Int, j ≠ 0 → readAt Q.R j = readAt Scenario.twoOpen.R j :=
  acceptMove_commits.1 Int
    { Scenario.twoOpen with activePtcl := 0, activePos := TinyVector.mk3 5 0 0 } 0
    (by decide) (by decide) (by decide) (by decide)

/-- C4: `acceptMove(iat)` is a fatal error unless particle `iat` is the one in
flight. When `activePtcl ≠ iat`, and in particular on every call made from
Idle (`activePtcl = -1`) with a particle index `iat ≥ 0`, the call ends in
the "Illegal acceptMove" abort, in the state in which it was entered:
`R`, `RSoA`, `activePtcl` and the distance tables are untouched. -/
theorem acceptMove_illegal (P : ParticleSet T) (iat : Int)
    (h : P.activePtcl ≠ iat ∨ (P.activePtcl = -1 ∧ 0 ≤ iat)) :
    acceptMove P iat = Outcome.abort (AbortMsg.illegalAcceptMove iat P.activePtcl) P := by
  apply acceptMove_mismatch
  rcases h with h | ⟨hidle, h0⟩
  · exact h
  · omega

/-- Instance of C4: `acceptMove(0)` called from Idle on the open two-particle
configuration. -/
theorem acceptMove_illegal_witness :
    acceptMove Scenario.twoOpen 0 =
      Outcome.abort (AbortMsg.illegalAcceptMove 0 (-1)) Scenario.twoOpen :=
  acceptMove_illegal Scenario.twoOpen 0 (Or.inr ⟨by decide, by decide⟩)

/-- C5: for a particle index `iat`, `makeMoveAndCheck(iat, displ)` followed by
`rejectMove(iat)` returns with `R` and `RSoA` as they were before the
proposal, with no `update` call added to the record of any distance table,
and in Idle (`activePtcl = -1`), whether the proposal was boundary-rejected
or not. -/
theorem makeMove_rejectMove_restores [Add T] (Lattice : ParticleLayout_t T)
    (P : ParticleSet T) (iat : Int) (displ r : SingleParticlePos_t T)
    (hr : readAt P.R iat = some r) :
    ∃ Q, (makeMoveAndCheck Lattice P iat displ).andThen (fun _ P1 => rejectMove P1 iat)
        = Outcome.ok () Q ∧
      Q.R = P.R ∧ Q.RSoA = P.RSoA ∧
      Q.DistTables.map (fun t => t.commits) = P.DistTables.map (fun t => t.commits) ∧
      Q.activePtcl = -1 := by
  cases hb : P.UseBoundBox with
  | false =>
    rw [makeMoveAndCheck_open Lattice P iat displ r hr hb]
    exact ⟨_, rfl, rfl, rfl, DistanceTableData.map_commits_move _ _, rfl⟩
  | true =>
    cases ho : Lattice.outOfBound (Lattice.toUnit displ) with
    | true =>
      rw [makeMoveAndCheck_outOfBound Lattice P iat displ r hr hb ho]
      exact ⟨_, rfl, rfl, rfl, rfl, rfl⟩
    | false =>
      cases hv : Lattice.isValid (Lattice.toUnit (r + displ)) with
      | true =>
        rw [makeMoveAndCheck_inside Lattice P iat displ r hr hb ho hv]
        exact ⟨_, rfl, rfl, rfl, DistanceTableData.map_commits_move _ _, rfl⟩
      | false =>
        rw [makeMoveAndCheck_invalid Lattice P iat displ r hr hb ho hv]
        exact ⟨_, rfl, rfl, rfl, rfl, rfl⟩

/-- Instance of C5: particle 1 of the boxed two-particle configuration,
proposed inside the cell and then rejected. -/
theorem makeMove_rejectMove_restores_witness :
    ∃ Q, (makeMoveAndCheck Scenario.cell Scenario.twoBoxed 1 (TinyVector.mk3 1 0 0)).andThen
          (fun _ P1 => rejectMove P1 1) = Outcome.ok () Q ∧
      Q.R = Scenario.twoBoxed.R ∧ Q.RSoA = Scenario.twoBoxed.RSoA ∧
      Q.DistTables.map (fun t => t.commits) =
        Scenario.twoBoxed.DistTables.map (fun t => t.commits) ∧
      Q.activePtcl = -1 :=
  makeMove_rejectMove_restores Scenario.cell Scenario.twoBoxed 1 (TinyVector.mk3 1 0 0)
    (TinyVector.mk3 1 0 0) (by decide)

/-- C6: `rejectMove` is idempotent and a no-op from Idle: `rejectMove(j)` after
`rejectMove(i)` ends in the state `rejectMove(i)` ends in, and in a state
with `activePtcl = -1` the call `rejectMove(i)` returns in that same state. -/
theorem rejectMove_idempotent (P : ParticleSet T) (i j : Int) :
    (rejectMove P i).andThen (fun _ Q => rejectMove Q j) = rejectMove P i ∧
    (P.activePtcl = -1 → rejectMove P i = Outcome.ok () P) := by
  refine ⟨rfl, ?_⟩
  intro hidle
  cases P
  simp only at hidle
  simp only [rejectMove, hidle]

/-- Instance of C6: `rejectMove(0)` from Idle on the open two-particle
configuration. -/
theorem rejectMove_idempotent_witness :
    rejectMove Scenario.twoOpen 0 = Outcome.ok () Scenario.twoOpen :=
  (rejectMove_idempotent Scenario.twoOpen 0 1).2 (by decide)

/-- C8, as the code behaves: `rejectMove(iat)` never aborts. For every state
and every `iat`, equal to the active particle or not, it returns with
`activePtcl = -1` and every other member unchanged. -/
theorem rejectMove_never_aborts (P : ParticleSet T) (iat : Int) :
    rejectMove P iat = Outcome.ok () { P with activePtcl := -1 } ∧
    (rejectMove P iat).aborted = false :=
  ⟨rfl, rfl⟩

/-- C8 fails as stated: with particle 1 in flight, `rejectMove(0)` does not
abort; it returns and clears the pending move of particle 1. -/
theorem rejectMove_mismatch_returns :
    Scenario.twoPending.activePtcl = 1 ∧ (0 : Int) ≠ 1 ∧
    rejectMove Scenario.twoPending 0 =
      Outcome.ok () { Scenario.twoPending with activePtcl := -1 } ∧
    (rejectMove Scenario.twoPending 0).aborted = false := by
  decide

/-- C9, as the code behaves: `makeMoveAndCheck` has no guard on a pending
move. Called while particle `j` is in flight with trial position `pos`, it
returns the same value and ends in the same state as when called from the
state with any other `activePtcl` and `activePos`, Idle included: the
pending proposal is replaced by the new one. -/
theorem makeMoveAndCheck_ignores_pending [Add T] (Lattice : ParticleLayout_t T)
    (P : ParticleSet T) (iat : Int) (displ : SingleParticlePos_t T)
    (j : Int) (pos : SingleParticlePos_t T) :
    makeMoveAndCheck Lattice { P with activePtcl := j, activePos := pos } iat displ =
      makeMoveAndCheck Lattice P iat displ := by
  unfold makeMoveAndCheck
  rfl

/-- C9 fails as stated: with particle 1 in flight towards `(5,0,0)`,
`makeMoveAndCheck(0, (1,0,0))` returns `true` and overwrites `activePtcl`
with 0 and `activePos` with `R[0] + (1,0,0) = (1,0,0)`. -/
theorem makeMoveAndCheck_replaces_pending :
    Scenario.twoPending.activePtcl = 1 ∧
    Scenario.twoPending.activePos = TinyVector.mk3 5 0 0 ∧
    ∃ Q, makeMoveAndCheck Scenario.cell Scenario.twoPending 0 (TinyVector.mk3 1 0 0)
        = Outcome.ok true Q ∧
      Q.activePtcl = 0 ∧ Q.activePos = TinyVector.mk3 1 0 0 :=
  ⟨by decide, by decide, _, rfl, by decide, by decide⟩

/-! ## Sequences of accepted moves -/

/-- What a `true` return of `makeMoveAndCheck` says about the state it leaves. -/
theorem makeMoveAndCheck_true [Add T] (Lattice : ParticleLayout_t T) (P Q : ParticleSet T)
    (iat : Int) (displ : SingleParticlePos_t T)
    (h : makeMoveAndCheck Lattice P iat displ = Outcome.ok true Q) :
    ∃ r, readAt P.R iat = some r ∧ Q.R = P.R ∧ Q.RSoA = P.RSoA ∧
      Q.UseBoundBox = P.UseBoundBox ∧ Q.activePtcl = iat ∧ Q.activePos = r + displ := by
  cases hr : readAt P.R iat with
  | none =>
    simp only [makeMoveAndCheck, hr] at h
    exact Outcome.noConfusion h
  | some r =>
    refine ⟨r, rfl, ?_⟩
    cases hb : P.UseBoundBox with
    | false =>
      rw [makeMoveAndCheck_open Lattice P iat displ r hr hb] at h
      injection h with _ hQ
      subst hQ
      exact ⟨rfl, rfl, hb.symm ▸ rfl, rfl, rfl⟩
    | true =>
      cases ho : Lattice.outOfBound (Lattice.toUnit displ) with
      | true =>
        rw [makeMoveAndCheck_outOfBound Lattice P iat displ r hr hb ho] at h
        injection h with hret _
        exact Bool.noConfusion hret
      | false =>
        cases hv : Lattice.isValid (Lattice.toUnit (r + displ)) with
        | true =>
          rw [makeMoveAndCheck_inside Lattice P iat displ r hr hb ho hv] at h
          injection h with _ hQ
          subst hQ
          exact ⟨rfl, rfl, hb.symm ▸ rfl, rfl, rfl⟩
        | false =>
          rw [makeMoveAndCheck_invalid Lattice P iat displ r hr hb ho hv] at h
          injection h with hret _
          exact Bool.noConfusion hret

/-- What a normal return of `acceptMove` says about the state it leaves. -/
theorem acceptMove_ok (P Q : ParticleSet T) (iat : Int) (u : Unit)
    (h : acceptMove P iat = Outcome.ok u Q) :
    iat = P.activePtcl ∧ writeAt P.R iat P.activePos = some Q.R ∧
      writeAt P.RSoA iat P.activePos = some Q.RSoA ∧ Q.UseBoundBox = P.UseBoundBox := by
  by_cases hact : iat = P.activePtcl
  · refine ⟨hact, ?_⟩
    cases hw1 : writeAt P.R iat P.activePos with
    | none =>
      simp only [acceptMove, hw1] at h
      split at h <;> exact Outcome.noConfusion h
    | some R1 =>
      cases hw2 : writeAt P.RSoA iat P.activePos with
      | none =>
        simp only [acceptMove, hw1, hw2] at h
        split at h <;> exact Outcome.noConfusion h
      | some S1 =>
        simp only [acceptMove, hw1, hw2, if_pos hact] at h
        injection h with _ hQ
        subst hQ
        exact ⟨rfl, rfl, rfl⟩
  · simp only [acceptMove, if_neg hact] at h
    exact Outcome.noConfusion h

/-- One accepted move adds its displacement to the particle it moves and
leaves every other position alone. -/
theorem proposeAccept_positions [Add T] (Lattice : ParticleLayout_t T)
    (P Q : ParticleSet T) (m : Int × SingleParticlePos_t T)
    (h : proposeAccept Lattice P m = some Q) :
    Q.UseBoundBox = P.UseBoundBox ∧ Q.R.length = P.R.length ∧
    Q.RSoA.length = P.RSoA.length ∧
    ∀ (j : Int) (p0 : SingleParticlePos_t T), readAt P.R j = some p0 →
      readAt Q.R j = some (if m.1 = j then p0 + m.2 else p0) := by
  unfold proposeAccept at h
  cases hmk : makeMoveAndCheck Lattice P m.1 m.2 with
  | undefined => rw [hmk] at h; exact Option.noConfusion h
  | abort msg st => rw [hmk] at h; exact Option.noConfusion h
  | ok b P1 =>
    rw [hmk] at h
    cases b with
    | false => exact Option.noConfusion h
    | true =>
      obtain ⟨r, hr, hR, hS, hB, hact, hpos⟩ := makeMoveAndCheck_true Lattice P P1 m.1 m.2 hmk
      simp only at h
      cases hacc : acceptMove P1 m.1 with
      | undefined => rw [hacc] at h; exact Option.noConfusion h
      | abort msg st => rw [hacc] at h; exact Option.noConfusion h
      | ok u P2 =>
        rw [hacc] at h
        injection h with hQ
        subst hQ
        obtain ⟨_, hw1, hw2, hB2⟩ := acceptMove_ok P1 P2 m.1 u hacc
        refine ⟨hB2.trans hB, ?_, ?_, ?_⟩
        · rw [writeAt_length _ _ _ _ hw1, hR]
        · rw [writeAt_length _ _ _ _ hw2, hS]
        · intro j p0 hj
          by_cases hmj : m.1 = j
          · rw [if_pos hmj, ← hmj, readAt_writeAt_same _ _ _ _ hw1, hpos]
            rw [← hmj, hr] at hj
            injection hj with hj
            rw [hj]
          · rw [if_neg hmj, readAt_writeAt_other _ _ _ _ _ hw1 (fun e => hmj e.symm), hR, hj]

/-- A position untouched by every move of the sequence is not displaced. -/
theorem displacedBy_of_unmoved [Add T] (j : Int) (p0 : SingleParticlePos_t T)
    (moves : List (Int × SingleParticlePos_t T)) (h : ∀ m ∈ moves, m.1 ≠ j) :
    displacedBy j p0 moves = p0 := by
  induction moves generalizing p0 with
  | nil => rfl
  | cons m ms ih =>
    have hm : m.1 ≠ j := h m (List.mem_cons_self _ _)
    have hms : ∀ m2 ∈ ms, m2.1 ≠ j := fun m2 h2 => h m2 (List.mem_cons_of_mem _ h2)
    simp only [displacedBy, List.foldl_cons, if_neg hm]
    exact ih p0 hms

/-- In an open domain a run of moves of valid particle indices goes through. -/
theorem proposeAcceptAll_open_isSome [Add T] (Lattice : ParticleLayout_t T)
    (moves : List (Int × SingleParticlePos_t T)) (P : ParticleSet T)
    (hopen : P.UseBoundBox = false) (hlen : P.RSoA.length = P.R.length)
    (hidx : ∀ m ∈ moves, 0 ≤ m.1 ∧ m.1.toNat < P.R.length) :
    ∃ Q, proposeAcceptAll Lattice P moves = some Q := by
  induction moves generalizing P with
  | nil => exact ⟨P, rfl⟩
  | cons m ms ih =>
    obtain ⟨h0, hlt⟩ := hidx m (List.mem_cons_self _ _)
    have hr := readAt_of_inRange P.R m.1 h0 hlt
    have hmk := makeMoveAndCheck_open Lattice P m.1 m.2 _ hr hopen
    have hacc := acceptMove_active
      { P with activePtcl := m.1, activePos := P.R.get ⟨m.1.toNat, hlt⟩ + m.2,
               DistTables := P.DistTables.map
                 (fun t => t.move (P.R.get ⟨m.1.toNat, hlt⟩ + m.2)) }
      m.1 rfl h0 hlt (show m.1.toNat < P.RSoA.length from hlen.symm ▸ hlt)
    have hstep : ∃ P1, proposeAccept Lattice P m = some P1 := by
      unfold proposeAccept
      rw [hmk]
      simp only
      rw [hacc]
      exact ⟨_, rfl⟩
    obtain ⟨P1, hP1⟩ := hstep
    obtain ⟨hB, hRl, hSl, _⟩ := proposeAccept_positions Lattice P P1 m hP1
    have hnext := ih P1 (hB.trans hopen) (by rw [hSl, hRl, hlen])
      (fun m2 h2 => by
        rw [hRl]
        exact hidx m2 (List.mem_cons_of_mem _ h2))
    obtain ⟨Q, hQ⟩ := hnext
    refine ⟨Q, ?_⟩
    simp only [proposeAcceptAll, hP1]
    exact hQ

/-- C7: after a sequence of moves `(i_k, d_k)`, each performed as
`makeMoveAndCheck(i_k, d_k)` returning `true` followed by `acceptMove(i_k)`,
the position of every particle `j` is its initial position with the
displacements of the moves having `i_k = j` added one at a time in sequence
order, and a particle that no move names keeps its initial position. -/
theorem proposeAcceptAll_positions [Add T] (Lattice : ParticleLayout_t T)
    (moves : List (Int × SingleParticlePos_t T)) (P Q : ParticleSet T)
    (h : proposeAcceptAll Lattice P moves = some Q) :
    Q.R.length = P.R.length ∧
    ∀ (j : Int) (p0 : SingleParticlePos_t T), readAt P.R j = some p0 →
      readAt Q.R j = some (displacedBy j p0 moves) ∧
      ((∀ m ∈ moves, m.1 ≠ j) → readAt Q.R j = some p0) := by
  induction moves generalizing P with
  | nil =>
    simp only [proposeAcceptAll] at h
    injection h with h
    subst h
    exact ⟨rfl, fun j p0 hj => ⟨hj, fun _ => hj⟩⟩
  | cons m ms ih =>
    cases hstep : proposeAccept Lattice P m with
    | none =>
      simp only [proposeAcceptAll, hstep] at h
      exact Option.noConfusion h
    | some P1 =>
      simp only [proposeAcceptAll, hstep] at h
      obtain ⟨_, hlen1, _, hpos1⟩ := proposeAccept_positions Lattice P P1 m hstep
      obtain ⟨hlen, hpos⟩ := ih P1 h
      refine ⟨hlen.trans hlen1, ?_⟩
      intro j p0 hj
      have h1 := hpos1 j p0 hj
      have h2 := (hpos j _ h1).1
      have hfold : displacedBy j (if m.1 = j then p0 + m.2 else p0) ms
          = displacedBy j p0 (m :: ms) := by
        simp only [displacedBy, List.foldl_cons]
      refine ⟨by rw [h2, hfold], ?_⟩
      intro hun
      rw [h2, hfold, displacedBy_of_unmoved j p0 (m :: ms) hun]

/-- Instance of C7: on the open two-particle configuration, particle 0 moved
by `(1,0,0)`, particle 1 by `(2,0,0)`, then particle 0 by `(3,0,0)`. -/
theorem proposeAcceptAll_positions_witness :
    ∃ Q, proposeAcceptAll Scenario.cell Scenario.twoOpen
          [(0, TinyVector.mk3 1 0 0), (1, TinyVector.mk3 2 0 0), (0, TinyVector.mk3 3 0 0)]
        = some Q ∧
      Q.R = [TinyVector.mk3 4 0 0, TinyVector.mk3 3 0 0] ∧
      Q.R.length = Scenario.twoOpen.R.length ∧
      ∀ (j : Int) (p0 : SingleParticlePos_t Int), readAt Scenario.twoOpen.R j = some p0 →
        readAt Q.R j = some (displacedBy j p0
          [(0, TinyVector.mk3 1 0 0), (1, TinyVector.mk3 2 0 0), (0, TinyVector.mk3 3 0 0)]) ∧
        ((∀ m ∈ [((0 : Int), TinyVector.mk3 (1 : Int) 0 0), (1, TinyVector.mk3 2 0 0),
              (0, TinyVector.mk3 3 0 0)], m.1 ≠ j) → readAt Q.R j = some p0) :=
  ⟨_, rfl, by decide,
    proposeAcceptAll_positions Scenario.cell
      [(0, TinyVector.mk3 1 0 0), (1, TinyVector.mk3 2 0 0), (0, TinyVector.mk3 3 0 0)]
      Scenario.twoOpen _ rfl⟩

/-! ## The batched proposal against the single-configuration one -/

/-- C10 fails on the code: the kernel of `multi_makeMoveAndCheckKokkos` reads
`pset.R(i, d)` with `i` the league rank (the walker index) where
`makeMoveAndCheck` reads `R[iat]`. For the single walker 0 with
`R = [(0,0,0), (1,0,0)]`, `iel = 1` and `dr[0] = (2,0,0)`, the kernel leaves
`activePos = R[0] + dr[0] = (2,0,0)`, which is valid, and stores
`isValidList(0) = 1`, while `makeMoveAndCheck(1, (2,0,0))` on the same
configuration computes `R[1] + dr[0] = (3,0,0)`, which is not valid, and
returns `false`. -/
theorem multi_makeMoveAndCheckKokkos_reads_walker_row :
    Scenario.walkerBoxed.R = Scenario.twoBoxed.R ∧
    Scenario.walkerBoxed.UseBoundBox = Scenario.twoBoxed.UseBoundBox ∧
    readAt Scenario.twoBoxed.R 1 = some (TinyVector.mk3 1 0 0) ∧
    multi_makeMoveAndCheckKokkos Scenario.cell [Scenario.walkerBoxed]
        [TinyVector.mk3 2 0 0] 1 [0] =
      some ([{ Scenario.walkerBoxed with
                 activePtcl := 1, activePos := TinyVector.mk3 2 0 0,
                 LikeDT := ⟨[DTCall.move (TinyVector.mk3 2 0 0)]⟩,
                 UnlikeDT := ⟨[DTCall.move (TinyVector.mk3 2 0 0)]⟩ }], [1]) ∧
    makeMoveAndCheck Scenario.cell Scenario.twoBoxed 1 (TinyVector.mk3 2 0 0) =
      Outcome.ok false
        { Scenario.twoBoxed with
            activePos := TinyVector.mk3 3 0 0, newRedPos := TinyVector.mk3 3 0 0 } := by
  decide

/-- The flag stored by a team is 0 or 1, and a walker flagged 0 has received
no `LikeMove` / `UnlikeMove`. -/
theorem makeMoveAndCheckTeam_flag [Add T] (Lattice : ParticleLayout_t T) (locIel : Int)
    (i : Nat) (pset q : pskType T) (dr_i : SingleParticlePos_t T) (flag : Int)
    (h : makeMoveAndCheckTeam Lattice locIel i pset dr_i = some (q, flag)) :
    (flag = 0 ∨ flag = 1) ∧
    (flag = 0 → q.LikeDT = pset.LikeDT ∧ q.UnlikeDT = pset.UnlikeDT) := by
  unfold makeMoveAndCheckTeam at h
  cases hr : pset.R[i]? with
  | none => rw [hr] at h; exact Option.noConfusion h
  | some r =>
    rw [hr] at h
    simp only at h
    split at h
    · split at h
      · injection h with h
        injection h with hq hf
        subst hq hf
        exact ⟨Or.inl rfl, fun _ => ⟨rfl, rfl⟩⟩
      · split at h
        · injection h with h
          injection h with hq hf
          subst hf
          exact ⟨Or.inr rfl, fun h0 => absurd h0 (by decide)⟩
        · injection h with h
          injection h with hq hf
          subst hq hf
          exact ⟨Or.inl rfl, fun _ => ⟨rfl, rfl⟩⟩
    · injection h with h
      injection h with hq hf
      subst hf
      exact ⟨Or.inr rfl, fun h0 => absurd h0 (by decide)⟩

/-- C11 fails on the code: a walker flagged invalid by the reduced-position
test keeps `activePtcl = iel`. For walker 0 with `R[0] = (0,0,0)`, `iel = 0`
and `dr[0] = (-1,0,0)`, the displacement is in bound and the new position
`(-1,0,0)` is not valid: the kernel stores `isValidList(0) = 0`, calls no
`LikeMove` / `UnlikeMove`, but leaves `activePtcl = 0`, where
`makeMoveAndCheck(0, (-1,0,0))` on the same configuration returns `false`
with `activePtcl = -1`. -/
theorem multi_makeMoveAndCheckKokkos_invalid_keeps_active :
    multi_makeMoveAndCheckKokkos Scenario.cell [Scenario.walkerBoxed]
        [TinyVector.mk3 (-1) 0 0] 0 [1] =
      some ([{ Scenario.walkerBoxed with
                 activePtcl := 0, activePos := TinyVector.mk3 (-1) 0 0 }], [0]) ∧
    makeMoveAndCheck Scenario.cell Scenario.twoBoxed 0 (TinyVector.mk3 (-1) 0 0) =
      Outcome.ok false
        { Scenario.twoBoxed with
            activePtcl := -1, activePos := TinyVector.mk3 (-1) 0 0,
            newRedPos := TinyVector.mk3 (-1) 0 0 } := by
  decide

/-! ## The batched accept / reject against `acceptMove` and `rejectMove` -/

/-- Result of the accept statements on a walker in which `locIel` is a row
of `R` and of `RSoA`. -/
theorem acceptWalker_valid (locIel : Int) (w : pskType T) (h0 : 0 ≤ locIel)
    (hR : locIel.toNat < w.R.length) (hS : locIel.toNat < w.RSoA.length) :
    acceptWalker locIel w = some
      { w with LikeDT := w.LikeDT.update locIel, UnlikeDT := w.UnlikeDT.update locIel,
               R := w.R.set locIel.toNat w.activePos,
               RSoA := w.RSoA.set locIel.toNat w.activePos } := by
  have hw1 : writeAt w.R locIel w.activePos = some (w.R.set locIel.toNat w.activePos) :=
    (writeAt_eq_some_iff _ _ _ _).2 ⟨⟨h0, hR⟩, rfl⟩
  have hw2 : writeAt w.RSoA locIel w.activePos = some (w.RSoA.set locIel.toNat w.activePos) :=
    (writeAt_eq_some_iff _ _ _ _).2 ⟨⟨h0, hS⟩, rfl⟩
  simp only [acceptWalker, hw1, hw2]

/-- On a walker with `activePtcl = iel`, the accept statements followed by
`activePtcl(0) = -1` leave the data `acceptMove(iel)` leaves. -/
theorem acceptMove_toParticleSet (w : pskType T) (nrp : SingleParticlePos_t T) (iel : Int)
    (hact : w.activePtcl = iel) (h0 : 0 ≤ iel)
    (hR : iel.toNat < w.R.length) (hS : iel.toNat < w.RSoA.length) :
    ∃ p1, acceptWalker iel w = some p1 ∧
      acceptMove (w.toParticleSet nrp) iel =
        Outcome.ok () (pskType.toParticleSet { p1 with activePtcl := -1 } nrp) := by
  refine ⟨_, acceptWalker_valid iel w h0 hR hS, ?_⟩
  rw [acceptMove_active (w.toParticleSet nrp) iel hact h0 hR hS]
  rfl

/-- The teams of the flag-based overload against the single-configuration
calls, walker by walker. -/
theorem acceptRejectTeams_refines (iel : Int) (nrp : SingleParticlePos_t T)
    (isAccepted : List Bool) (ws : List (pskType T)) (i : Nat)
    (hlen : i + ws.length ≤ isAccepted.length)
    (hprop : ∀ w ∈ ws, w.activePtcl = iel ∧ 0 ≤ iel ∧
      iel.toNat < w.R.length ∧ iel.toNat < w.RSoA.length) :
    ∃ out, acceptRejectTeams iel isAccepted i ws = some out ∧
      out.map (fun w => Outcome.ok () (w.toParticleSet nrp)) =
        List.zipWith (fun w a => if a = true then acceptMove (w.toParticleSet nrp) iel
          else rejectMove (w.toParticleSet nrp) iel) ws (isAccepted.drop i) := by
  induction ws generalizing i with
  | nil => exact ⟨[], rfl, by simp⟩
  | cons w rest ih =>
    have hi : i < isAccepted.length := by
      simp only [List.length_cons] at hlen
      omega
    have hdrop : isAccepted.drop i = isAccepted[i] :: isAccepted.drop (i + 1) :=
      List.drop_eq_getElem_cons hi
    have hget : isAccepted[i]? = some isAccepted[i] := List.getElem?_eq_getElem hi
    obtain ⟨hact, h0, hR, hS⟩ := hprop w (List.mem_cons_self _ _)
    obtain ⟨more, hmore, hmap⟩ := ih (i + 1)
      (by simp only [List.length_cons] at hlen; omega)
      (fun w2 h2 => hprop w2 (List.mem_cons_of_mem _ h2))
    cases ha : isAccepted[i] with
    | true =>
      obtain ⟨p1, hp1, hacc⟩ := acceptMove_toParticleSet w nrp iel hact h0 hR hS
      refine ⟨{ p1 with activePtcl := -1 } :: more, ?_, ?_⟩
      · simp only [acceptRejectTeams, hget, ha, if_true, hp1, hmore]
      · rw [hdrop, ha]
        simp only [List.map_cons, List.zipWith_cons_cons, if_true, hmap, hacc]
    | false =>
      refine ⟨{ w with activePtcl := -1 } :: more, ?_, ?_⟩
      · simp only [acceptRejectTeams, hget, ha, Bool.false_eq_true, if_false, hmore]
      · rw [hdrop, ha]
        simp only [List.map_cons, List.zipWith_cons_cons, Bool.false_eq_true, if_false, hmap]
        rfl

/-- C12: for walkers that are all in the Proposed state with `activePtcl = iel`
(`iel` a row of `R` and `RSoA`) and a flag vector of the same length, the
flag-based `multi_acceptRejectMoveKokkos` returns, and leaves walker `w` with
the data `acceptMove(iel)` leaves when `isAccepted[w]` is true and the data
`rejectMove(iel)` leaves otherwise. -/
theorem multi_acceptRejectMoveKokkos_refines (psets : List (pskType T))
    (isAccepted : List Bool) (iel : Int) (nrp : SingleParticlePos_t T)
    (hlen : isAccepted.length = psets.length)
    (hprop : ∀ w ∈ psets, w.activePtcl = iel ∧ 0 ≤ iel ∧
      iel.toNat < w.R.length ∧ iel.toNat < w.RSoA.length) :
    ∃ out, multi_acceptRejectMoveKokkos psets isAccepted iel = some out ∧
      out.map (fun w => Outcome.ok () (w.toParticleSet nrp)) =
        List.zipWith (fun w a => if a = true then acceptMove (w.toParticleSet nrp) iel
          else rejectMove (w.toParticleSet nrp) iel) psets isAccepted := by
  have h := acceptRejectTeams_refines iel nrp isAccepted psets 0 (by omega) hprop
  simpa [multi_acceptRejectMoveKokkos] using h

/-- Instance of C12: two walkers with the move of particle 0 proposed, the
first accepted and the second rejected. -/
theorem multi_acceptRejectMoveKokkos_refines_witness :
    ∃ out, multi_acceptRejectMoveKokkos [Scenario.walkerProposed, Scenario.walkerProposed]
        [true, false] 0 = some out ∧
      out.map (fun w => Outcome.ok () (w.toParticleSet (TinyVector.mk3 0 0 0))) =
        List.zipWith (fun w a =>
            if a = true then acceptMove (w.toParticleSet (TinyVector.mk3 0 0 0)) 0
            else rejectMove (w.toParticleSet (TinyVector.mk3 0 0 0)) 0)
          [Scenario.walkerProposed, Scenario.walkerProposed] [true, false] :=
  multi_acceptRejectMoveKokkos_refines [Scenario.walkerProposed, Scenario.walkerProposed]
    [true, false] 0 (TinyVector.mk3 0 0 0) (by decide) (by decide)

/-! ## The two overloads of the batched accept / reject -/

/-- The selection form only depends on `sel` at the ranks of the walkers. -/
theorem acceptSelected_congr (iel : Int) (sel1 sel2 : Nat → Bool) (ws : List (pskType T))
    (o : Nat) (h : ∀ k, k < ws.length → sel1 (o + k) = sel2 (o + k)) :
    acceptSelected iel sel1 o ws = acceptSelected iel sel2 o ws := by
  induction ws generalizing o with
  | nil => rfl
  | cons w rest ih =>
    have h0 : sel1 o = sel2 o := by
      have := h 0 (by simp)
      simpa using this
    have hrest : acceptSelected iel sel1 (o + 1) rest = acceptSelected iel sel2 (o + 1) rest :=
      ih (o + 1) (fun k hk => by
        have := h (k + 1) (by simp only [List.length_cons]; omega)
        rw [show o + (k + 1) = o + 1 + k by omega] at this
        exact this)
    simp only [acceptSelected, h0, hrest]

/-- With nothing selected the walkers are left as they are. -/
theorem acceptSelected_none (iel : Int) (sel : Nat → Bool) (ws : List (pskType T))
    (o : Nat) (h : ∀ k, k < ws.length → sel (o + k) = false) :
    acceptSelected iel sel o ws = some ws := by
  induction ws generalizing o with
  | nil => rfl
  | cons w rest ih =>
    have h0 : sel o = false := by
      have := h 0 (by simp)
      simpa using this
    have hrest : acceptSelected iel sel (o + 1) rest = some rest :=
      ih (o + 1) (fun k hk => by
        have := h (k + 1) (by simp only [List.length_cons]; omega)
        rw [show o + (k + 1) = o + 1 + k by omega] at this
        exact this)
    simp only [acceptSelected, h0, hrest, Bool.false_eq_true, if_false]

/-- A selected walker on which the accept statements fail makes the batch fail. -/
theorem acceptSelected_fail (iel : Int) (sel : Nat → Bool) (ws : List (pskType T))
    (o j : Nat) (w : pskType T) (hw : ws[j]? = some w) (hsel : sel (o + j) = true)
    (hfail : acceptWalker iel w = none) :
    acceptSelected iel sel o ws = none := by
  induction ws generalizing o j with
  | nil => simp at hw
  | cons x rest ih =>
    cases j with
    | zero =>
      simp only [List.getElem?_cons_zero, Option.some.injEq] at hw
      subst hw
      simp only [Nat.add_zero] at hsel
      simp only [acceptSelected, hsel, if_true, hfail]
    | succ j =>
      simp only [List.getElem?_cons_succ] at hw
      have hrest : acceptSelected iel sel (o + 1) rest = none :=
        ih (o + 1) j hw (by rw [show o + 1 + j = o + (j + 1) by omega]; exact hsel)
      simp only [acceptSelected, hrest]
      split <;> rfl

/-- Running the accept statements on walker `j` first and selecting the
others afterwards is the same as selecting walker `j` with the others. -/
theorem acceptSelected_set (iel : Int) (sel1 sel2 : Nat → Bool) (ws : List (pskType T))
    (o j : Nat) (w p : pskType T) (hw : ws[j]? = some w) (hp : acceptWalker iel w = some p)
    (h1 : sel1 (o + j) = false) (h2 : sel2 (o + j) = true)
    (hother : ∀ i, i ≠ o + j → sel1 i = sel2 i) :
    acceptSelected iel sel1 o (ws.set j p) = acceptSelected iel sel2 o ws := by
  induction ws generalizing o j with
  | nil => simp at hw
  | cons x rest ih =>
    cases j with
    | zero =>
      simp only [List.getElem?_cons_zero, Option.some.injEq] at hw
      subst hw
      simp only [Nat.add_zero] at h1 h2
      have hrest : acceptSelected iel sel1 (o + 1) rest = acceptSelected iel sel2 (o + 1) rest :=
        acceptSelected_congr iel sel1 sel2 rest (o + 1) (fun k _ => hother _ (by omega))
      simp only [List.set_cons_zero, acceptSelected, h1, h2, if_true, Bool.false_eq_true,
        if_false, hp, hrest]
    | succ j =>
      simp only [List.getElem?_cons_succ] at hw
      have hrest : acceptSelected iel sel1 (o + 1) (rest.set j p)
          = acceptSelected iel sel2 (o + 1) rest :=
        ih (o + 1) j hw
          (by rw [show o + 1 + j = o + (j + 1) by omega]; exact h1)
          (by rw [show o + 1 + j = o + (j + 1) by omega]; exact h2)
          (fun i hi => hother i (by omega))
      have h0 : sel1 o = sel2 o := hother o (by omega)
      simp only [List.set_cons_succ, acceptSelected, h0, hrest]

/-- A walker that is not selected is left as it is. -/
theorem acceptSelected_get (iel : Int) (sel : Nat → Bool) (ws out : List (pskType T))
    (o : Nat) (h : acceptSelected iel sel o ws = some out) :
    out.length = ws.length ∧ ∀ j, sel (o + j) = false → out[j]? = ws[j]? := by
  induction ws generalizing o out with
  | nil =>
    simp only [acceptSelected, Option.some.injEq] at h
    subst h
    exact ⟨rfl, fun _ _ => rfl⟩
  | cons x rest ih =>
    simp only [acceptSelected] at h
    cases hx : (if sel o = true then acceptWalker iel x else some x) with
    | none => rw [hx] at h; exact Option.noConfusion h
    | some p1 =>
      rw [hx] at h
      cases hr : acceptSelected iel sel (o + 1) rest with
      | none => rw [hr] at h; exact Option.noConfusion h
      | some more =>
        rw [hr] at h
        simp only [Option.some.injEq] at h
        subst h
        obtain ⟨hl, hg⟩ := ih more (o + 1) hr
        refine ⟨by simp [hl], ?_⟩
        intro j hj
        cases j with
        | zero =>
          simp only [Nat.add_zero] at hj
          simp only [hj, Bool.false_eq_true, if_false, Option.some.injEq] at hx
          simp [hx]
        | succ j =>
          simp only [List.getElem?_cons_succ]
          exact hg j (by rw [show o + 1 + j = o + (j + 1) by omega]; exact hj)

/-- The flag-based teams are the selection by the flags, followed by
`activePtcl(0) = -1` on every walker. -/
theorem acceptRejectTeams_eq_selected (iel : Int) (isAccepted : List Bool)
    (sel : Nat → Bool) (ws : List (pskType T)) (o : Nat)
    (h : ∀ k, k < ws.length → isAccepted[o + k]? = some (sel (o + k))) :
    acceptRejectTeams iel isAccepted o ws =
      (acceptSelected iel sel o ws).map
        (fun l => l.map (fun w => { w with activePtcl := -1 })) := by
  induction ws generalizing o with
  | nil => rfl
  | cons x rest ih =>
    have h0 : isAccepted[o]? = some (sel o) := by
      have := h 0 (by simp)
      simpa using this
    have hrest := ih (o + 1) (fun k hk => by
      have := h (k + 1) (by simp only [List.length_cons]; omega)
      rw [show o + (k + 1) = o + 1 + k by omega] at this
      exact this)
    simp only [acceptRejectTeams, acceptSelected, h0, hrest]
    cases (if sel o = true then acceptWalker iel x else some x) with
    | none => rfl
    | some p1 =>
      cases acceptSelected iel sel (o + 1) rest with
      | none => rfl
      | some more => rfl

/-- The map-based teams are the selection by membership in the map, when
the entries handed over are distinct walker indices. -/
theorem acceptMapTeams_eq_selected (iel : Int) (idxs : List Int) (ws : List (pskType T))
    (hnodup : idxs.Nodup) (hvalid : ∀ i ∈ idxs, 0 ≤ i ∧ i.toNat < ws.length) :
    acceptMapTeams iel idxs ws =
      acceptSelected iel (fun k => decide ((k : Int) ∈ idxs)) 0 ws := by
  induction idxs generalizing ws with
  | nil =>
    rw [acceptSelected_none iel _ ws 0 (fun k _ => by simp)]
    rfl
  | cons i more ih =>
    obtain ⟨h0, hlt⟩ := hvalid i (List.mem_cons_self _ _)
    have hnot : i ∉ more := (List.nodup_cons.1 hnodup).1
    have hnd : more.Nodup := (List.nodup_cons.1 hnodup).2
    have hcast : ((i.toNat : Nat) : Int) = i := Int.toNat_of_nonneg h0
    have hread : readAt ws i = some (ws.get ⟨i.toNat, hlt⟩) := readAt_of_inRange ws i h0 hlt
    have hget : ws[i.toNat]? = some (ws.get ⟨i.toNat, hlt⟩) := by
      rw [List.getElem?_eq_getElem hlt]
      rfl
    cases hacc : acceptWalker iel (ws.get ⟨i.toNat, hlt⟩) with
    | none =>
      rw [acceptSelected_fail iel _ ws 0 i.toNat _ hget (by simp [hcast]) hacc]
      simp only [acceptMapTeams, hread, hacc]
    | some p =>
      have hwrite : writeAt ws i p = some (ws.set i.toNat p) :=
        (writeAt_eq_some_iff _ _ _ _).2 ⟨⟨h0, hlt⟩, rfl⟩
      have hstep : acceptMapTeams iel (i :: more) ws = acceptMapTeams iel more (ws.set i.toNat p) := by
        simp only [acceptMapTeams, hread, hacc, hwrite]
      rw [hstep, ih (ws.set i.toNat p) hnd (fun k hk => by
        rw [List.length_set]
        exact hvalid k (List.mem_cons_of_mem _ hk))]
      apply acceptSelected_set iel _ _ ws 0 i.toNat _ p hget hacc
      · simp [hcast, hnot]
      · simp [hcast]
      · intro k hk
        have hne : (k : Int) ≠ i := by
          intro e
          apply hk
          rw [← e]
          simp
        simp [hne]

/-- The map-based overload as a selection followed by the reset of
`activePtcl` on every walker. -/
theorem multi_acceptRejectMoveKokkos_map_eq (psk : List (pskType T))
    (isAcceptedMap : List Int) (numAccepted iel : Int)
    (hn : 0 ≤ numAccepted ∧ numAccepted.toNat ≤ isAcceptedMap.length) :
    multi_acceptRejectMoveKokkos_map psk isAcceptedMap numAccepted iel =
      (acceptMapTeams iel (isAcceptedMap.take numAccepted.toNat) psk).map
        (fun l => l.map (fun w => { w with activePtcl := -1 })) := by
  simp only [multi_acceptRejectMoveKokkos_map, hn, and_self, if_true]
  cases acceptMapTeams iel (isAcceptedMap.take numAccepted.toNat) psk with
  | none => rfl
  | some l => rfl

/-- C13: when `isAcceptedMap[0..numAccepted)` lists, without repetition,
exactly the walker indices whose flag `isAccepted[w]` is true, the map-based
overload of `multi_acceptRejectMoveKokkos` gives the result of the flag-based
overload (the same walkers, or both out of range), and a walker that is not
listed keeps its data and ends with `activePtcl = -1`. -/
theorem multi_acceptRejectMoveKokkos_overloads_agree (psk : List (pskType T))
    (isAccepted : List Bool) (isAcceptedMap : List Int) (numAccepted iel : Int)
    (hlen : isAccepted.length = psk.length)
    (hn : 0 ≤ numAccepted ∧ numAccepted.toNat ≤ isAcceptedMap.length)
    (hnodup : (isAcceptedMap.take numAccepted.toNat).Nodup)
    (hexact : ∀ w : Int, w ∈ isAcceptedMap.take numAccepted.toNat ↔
      (0 ≤ w ∧ isAccepted[w.toNat]? = some true)) :
    multi_acceptRejectMoveKokkos_map psk isAcceptedMap numAccepted iel =
      multi_acceptRejectMoveKokkos psk isAccepted iel ∧
    ∀ out, multi_acceptRejectMoveKokkos_map psk isAcceptedMap numAccepted iel = some out →
      ∀ j : Nat, (j : Int) ∉ isAcceptedMap.take numAccepted.toNat →
        out[j]? = psk[j]?.map (fun w => { w with activePtcl := -1 }) := by
  have hvalid : ∀ i ∈ isAcceptedMap.take numAccepted.toNat, 0 ≤ i ∧ i.toNat < psk.length := by
    intro i hi
    obtain ⟨h0, hget⟩ := (hexact i).1 hi
    refine ⟨h0, ?_⟩
    rw [← hlen]
    by_contra hge
    rw [List.getElem?_eq_none (Nat.le_of_not_lt hge)] at hget
    exact Option.noConfusion hget
  have hmap := multi_acceptRejectMoveKokkos_map_eq psk isAcceptedMap numAccepted iel hn
  rw [acceptMapTeams_eq_selected iel _ psk hnodup hvalid] at hmap
  have hflag : multi_acceptRejectMoveKokkos psk isAccepted iel =
      (acceptSelected iel
          (fun k => decide ((k : Int) ∈ isAcceptedMap.take numAccepted.toNat)) 0 psk).map
        (fun l => l.map (fun w => { w with activePtcl := -1 })) := by
    apply acceptRejectTeams_eq_selected
    intro k hk
    have hk2 : k < isAccepted.length := by rw [hlen]; exact hk
    simp only [Nat.zero_add]
    rw [List.getElem?_eq_getElem hk2]
    congr 1
    have hiff := hexact (k : Int)
    simp only [Int.toNat_ofNat, Int.ofNat_zero_le, true_and,
      List.getElem?_eq_getElem hk2, Option.some.injEq] at hiff
    cases hb : isAccepted[k] with
    | true => simp [hiff.2 hb]
    | false =>
      have : ¬ (k : Int) ∈ isAcceptedMap.take numAccepted.toNat := by
        intro hmem
        have := hiff.1 hmem
        rw [hb] at this
        exact Bool.noConfusion this
      simp [this]
  refine ⟨hmap.trans hflag.symm, ?_⟩
  intro out hout j hj
  rw [hmap] at hout
  cases hsel : acceptSelected iel
      (fun k => decide ((k : Int) ∈ isAcceptedMap.take numAccepted.toNat)) 0 psk with
  | none => rw [hsel] at hout; exact Option.noConfusion hout
  | some l =>
    rw [hsel] at hout
    simp only [Option.map_some', Option.some.injEq] at hout
    subst hout
    obtain ⟨_, hg⟩ := acceptSelected_get iel _ psk l 0 hsel
    have := hg j (by simp [hj])
    rw [List.getElem?_map, this]

/-- Instance of C13: two proposed walkers, the first accepted; the map
`[0, 7]` with `numAccepted = 1` lists walker 0 only. -/
theorem multi_acceptRejectMoveKokkos_overloads_agree_witness :
    multi_acceptRejectMoveKokkos_map [Scenario.walkerProposed, Scenario.walkerProposed]
        [0, 7] 1 0 =
      multi_acceptRejectMoveKokkos [Scenario.walkerProposed, Scenario.walkerProposed]
        [true, false] 0 ∧
    ∀ out, multi_acceptRejectMoveKokkos_map [Scenario.walkerProposed, Scenario.walkerProposed]
        [0, 7] 1 0 = some out →
      ∀ j : Nat, (j : Int) ∉ List.take (1 : Int).toNat [(0 : Int), 7] →
        out[j]? = [Scenario.walkerProposed, Scenario.walkerProposed][j]?.map
          (fun w => { w with activePtcl := -1 }) :=
  multi_acceptRejectMoveKokkos_overloads_agree
    [Scenario.walkerProposed, Scenario.walkerProposed] [true, false] [0, 7] 1 0
    (by decide) (by decide) (by decide)
    (by
      intro w
      simp only [Int.toNat_one, List.take_succ_cons, List.take_zero, List.mem_singleton]
      constructor
      · intro h
        subst h
        decide
      · rintro ⟨h0, hget⟩
        by_contra hne
        have h1 : 1 ≤ w := by omega
        have h2 : 1 ≤ w.toNat := by omega
        obtain ⟨n, hn⟩ : ∃ n, w.toNat = n + 1 := ⟨w.toNat - 1, by omega⟩
        rw [hn] at hget
        cases n with
        | zero => simp at hget
        | succ n => simp at hget)

/-- C14 fails on the code: neither overload of `multi_acceptRejectMoveKokkos`
compares `activePtcl` with `iel`. A walker left Idle (`activePtcl = -1`) with
the stale `activePos = (5,0,0)` and flagged accepted gets `R[0]` and
`RSoA[0]` overwritten with `(5,0,0)` and an `update(0)` on both tables, in
the flag-based and in the map-based overload, where `acceptMove(0)` on the
same data aborts and changes nothing. -/
theorem multi_acceptRejectMoveKokkos_accepts_idle :
    Scenario.walkerStale.activePtcl = -1 ∧
    multi_acceptRejectMoveKokkos [Scenario.walkerStale] [true] 0 =
      some [{ Scenario.walkerStale with
                R := [TinyVector.mk3 5 0 0, TinyVector.mk3 1 0 0],
                RSoA := [TinyVector.mk3 5 0 0, TinyVector.mk3 1 0 0],
                LikeDT := ⟨[DTCall.update 0]⟩, UnlikeDT := ⟨[DTCall.update 0]⟩ }] ∧
    multi_acceptRejectMoveKokkos_map [Scenario.walkerStale] [0] 1 0 =
      some [{ Scenario.walkerStale with
                R := [TinyVector.mk3 5 0 0, TinyVector.mk3 1 0 0],
                RSoA := [TinyVector.mk3 5 0 0, TinyVector.mk3 1 0 0],
                LikeDT := ⟨[DTCall.update 0]⟩, UnlikeDT := ⟨[DTCall.update 0]⟩ }] ∧
    acceptMove (Scenario.walkerStale.toParticleSet (TinyVector.mk3 0 0 0)) 0 =
      Outcome.abort (AbortMsg.illegalAcceptMove 0 (-1))
        (Scenario.walkerStale.toParticleSet (TinyVector.mk3 0 0 0)) := by
  decide

end ParticleSet

/-! ## Species attributes -/

/-- A loop whose body always succeeds yields the list of its results. -/
theorem allOrNone_eq_map {α β : Type} (f : α → Option β) (g : α → β) (l : List α)
    (h : ∀ a ∈ l, f a = some (g a)) : allOrNone f l = some (l.map g) := by
  induction l with
  | nil => rfl
  | cons a as ih =>
    have ha := h a (List.mem_cons_self _ _)
    have has := ih (fun b hb => h b (List.mem_cons_of_mem _ hb))
    simp only [allOrNone, ha, has, List.map_cons]

theorem attribIndex_some {T : Type} (aname : String) (l : List (String × List T)) (i : Nat)
    (h : attribIndex aname l = some i) : ∃ vals, l[i]? = some (aname, vals) := by
  induction l generalizing i with
  | nil => exact Option.noConfusion h
  | cons a as ih =>
    unfold attribIndex at h
    by_cases ha : a.1 = aname
    · rw [if_pos ha] at h
      injection h with h
      subst h
      exact ⟨a.2, by simp [← ha]⟩
    · rw [if_neg ha] at h
      cases hi : attribIndex aname as with
      | none => rw [hi] at h; exact Option.noConfusion h
      | some k =>
        rw [hi] at h
        injection h with h
        subst h
        obtain ⟨vals, hv⟩ := ih k hi
        exact ⟨vals, by simpa using hv⟩

theorem attribIndex_append_self {T : Type} (aname : String) (l : List (String × List T))
    (v : List T) (h : attribIndex aname l = none) :
    attribIndex aname (l ++ [(aname, v)]) = some l.length := by
  induction l with
  | nil => simp [attribIndex]
  | cons a as ih =>
    unfold attribIndex at h
    by_cases ha : a.1 = aname
    · rw [if_pos ha] at h
      exact Option.noConfusion h
    · rw [if_neg ha] at h
      cases hi : attribIndex aname as with
      | none =>
        have hrec := ih hi
        show attribIndex aname (a :: (as ++ [(aname, v)])) = some (as.length + 1)
        unfold attribIndex
        rw [if_neg ha, hrec]
      | some k =>
        rw [hi] at h
        exact Option.noConfusion h

theorem attribIndex_append_other {T : Type} (aname b : String) (l : List (String × List T))
    (v : List T) (hb : aname ≠ b) :
    attribIndex b (l ++ [(aname, v)]) = attribIndex b l := by
  induction l with
  | nil => simp [attribIndex, hb]
  | cons a as ih =>
    show attribIndex b (a :: (as ++ [(aname, v)])) = attribIndex b (a :: as)
    unfold attribIndex
    rw [ih]

theorem attribIndex_set {T : Type} (b nm : String) (l : List (String × List T)) (i : Nat)
    (old new : List T) (h : l[i]? = some (nm, old)) :
    attribIndex b (l.set i (nm, new)) = attribIndex b l := by
  induction l generalizing i with
  | nil => rfl
  | cons a as ih =>
    cases i with
    | zero =>
      simp only [List.getElem?_cons_zero, Option.some.injEq] at h
      subst h
      simp only [List.set_cons_zero, attribIndex]
    | succ i =>
      simp only [List.getElem?_cons_succ] at h
      simp only [List.set_cons_succ, attribIndex, ih i h]

namespace SpeciesSet

variable {T : Type}

theorem addAttribute_found [Zero T] (s : SpeciesSet T) (aname : String) (i : Nat)
    (h : attribIndex aname s.attribs = some i) : s.addAttribute aname = (i, s) := by
  simp only [addAttribute, h]

theorem addAttribute_new [Zero T] (s : SpeciesSet T) (aname : String)
    (h : attribIndex aname s.attribs = none) :
    s.addAttribute aname = (s.attribs.length,
      { s with attribs := s.attribs ++ [(aname, List.replicate s.TotalNum 0)] }) := by
  simp only [addAttribute, h]

theorem assignAll_full (s : SpeciesSet T) (i : Nat) (nm : String) (old vals : List T)
    (h : s.attribs[i]? = some (nm, old)) (hlen : vals.length = old.length) :
    s.assignAll i vals = some { s with attribs := s.attribs.set i (nm, vals) } := by
  unfold assignAll
  rw [h]
  simp only
  rw [if_pos (Nat.le_of_eq hlen), hlen, List.drop_length, List.append_nil]

/-- The attribute called `aname`, once located at index `i` with values `vals`. -/
theorem lookup_of_index (s : SpeciesSet T) (aname : String) (i : Nat) (vals : List T)
    (hi : attribIndex aname s.attribs = some i) (hv : s.attribs[i]? = some (aname, vals))
    (j : Int) : s.lookup aname j = readAt vals j ∧ s.get i j = readAt vals j := by
  simp only [lookup, hi, get, hv, and_self]

/-- Replacing the values of the attribute `nm`, stored at index `i`: the
attribute reads as the new values and every other attribute is unchanged. -/
theorem lookup_set (s : SpeciesSet T) (nm : String) (i : Nat) (old vals : List T)
    (hi : attribIndex nm s.attribs = some i) (hrow : s.attribs[i]? = some (nm, old)) :
    attribIndex nm (s.attribs.set i (nm, vals)) = some i ∧
    (s.attribs.set i (nm, vals))[i]? = some (nm, vals) ∧
    ∀ b, b ≠ nm → ∀ j,
      lookup { s with attribs := s.attribs.set i (nm, vals) } b j = s.lookup b j := by
  have hlt : i < s.attribs.length := by
    by_contra hge
    rw [List.getElem?_eq_none (Nat.le_of_not_lt hge)] at hrow
    exact Option.noConfusion hrow
  refine ⟨by rw [attribIndex_set nm nm s.attribs i old vals hrow, hi], ?_, ?_⟩
  · rw [List.getElem?_set_self hlt]
  · intro b hb j
    simp only [lookup, attribIndex_set b nm s.attribs i old vals hrow]
    cases hk : attribIndex b s.attribs with
    | none => rfl
    | some k =>
      obtain ⟨bv, hbv⟩ := attribIndex_some b s.attribs k hk
      have hne : i ≠ k := by
        intro e
        subst e
        rw [hrow] at hbv
        injection hbv with hbv
        injection hbv with h1 _
        exact hb h1.symm
      simp only [get, List.getElem?_set_ne hne]

/-- Appending a new attribute `nm`: it sits at the previous end and every
other attribute is unchanged. -/
theorem lookup_append (s : SpeciesSet T) (nm : String) (x : List T)
    (hnew : attribIndex nm s.attribs = none) :
    attribIndex nm (s.attribs ++ [(nm, x)]) = some s.attribs.length ∧
    (s.attribs ++ [(nm, x)])[s.attribs.length]? = some (nm, x) ∧
    ∀ b, b ≠ nm → ∀ j,
      lookup { s with attribs := s.attribs ++ [(nm, x)] } b j = s.lookup b j := by
  refine ⟨attribIndex_append_self nm s.attribs x hnew, by simp, ?_⟩
  intro b hb j
  simp only [lookup, attribIndex_append_other nm b s.attribs x (fun e => hb e.symm)]
  cases hk : attribIndex b s.attribs with
  | none => rfl
  | some k =>
    obtain ⟨bv, hbv⟩ := attribIndex_some b s.attribs k hk
    have hlt : k < s.attribs.length := by
      by_contra hge
      rw [List.getElem?_eq_none (Nat.le_of_not_lt hge)] at hbv
      exact Option.noConfusion hbv
    simp only [get, List.getElem?_append_left hlt]

theorem wellFormed_set (s : SpeciesSet T) (nm : String) (i : Nat) (vals : List T)
    (hwf : s.WellFormed) (hlen : vals.length = s.TotalNum) :
    WellFormed { s with attribs := s.attribs.set i (nm, vals) } := by
  intro a ha
  rcases List.mem_or_eq_of_mem_set ha with h | h
  · exact hwf a h
  · subst h
    exact hlen

theorem wellFormed_append (s : SpeciesSet T) (nm : String) (vals : List T)
    (hwf : s.WellFormed) (hlen : vals.length = s.TotalNum) :
    WellFormed { s with attribs := s.attribs ++ [(nm, vals)] } := by
  intro a ha
  rcases List.mem_append.1 ha with h | h
  · exact hwf a h
  · simp only [List.mem_singleton] at h
    subst h
    exact hlen

theorem wellFormed_row (s : SpeciesSet T) (i : Nat) (nm : String) (vals : List T)
    (hwf : s.WellFormed) (h : s.attribs[i]? = some (nm, vals)) :
    vals.length = s.TotalNum :=
  hwf (nm, vals) (List.getElem?_mem h)

/-- Lines 358-360 (and the shape of lines 318-326, 330-335): after
`addAttribute(nm)` and the loop that stores `vals` in the attribute it
returned, the attribute `nm` reads as `vals` and every other attribute is
unchanged. -/
theorem addAttribute_assignAll [Zero T] (s : SpeciesSet T) (nm : String) (vals : List T)
    (hwf : s.WellFormed) (hlen : vals.length = s.TotalNum) :
    ∃ s2, (s.addAttribute nm).2.assignAll (s.addAttribute nm).1 vals = some s2 ∧
      s2.TotalNum = s.TotalNum ∧ s2.WellFormed ∧
      attribIndex nm s2.attribs = some (s.addAttribute nm).1 ∧
      s2.attribs[(s.addAttribute nm).1]? = some (nm, vals) ∧
      (∀ b, b ≠ nm → ∀ j, s2.lookup b j = s.lookup b j) ∧
      ∀ b, b ≠ nm → attribIndex b s2.attribs = attribIndex b s.attribs := by
  cases hidx : attribIndex nm s.attribs with
  | some i =>
    obtain ⟨old, hrow⟩ := attribIndex_some nm s.attribs i hidx
    have hold : old.length = s.TotalNum := wellFormed_row s i nm old hwf hrow
    rw [addAttribute_found s nm i hidx]
    obtain ⟨h1, h2, h3⟩ := lookup_set s nm i old vals hidx hrow
    exact ⟨_, assignAll_full s i nm old vals hrow (hlen.trans hold.symm), rfl,
      wellFormed_set s nm i vals hwf hlen, h1, h2, h3,
      fun b _ => attribIndex_set b nm s.attribs i old vals hrow⟩
  | none =>
    rw [addAttribute_new s nm hidx]
    obtain ⟨h1, h2, h3⟩ := lookup_append s nm (List.replicate s.TotalNum 0) hidx
    have hwf1 := wellFormed_append s nm (List.replicate s.TotalNum 0) hwf (by simp)
    obtain ⟨g1, g2, g3⟩ := lookup_set
      { s with attribs := s.attribs ++ [(nm, List.replicate s.TotalNum 0)] } nm
      s.attribs.length (List.replicate s.TotalNum 0) vals h1 h2
    refine ⟨_, assignAll_full _ s.attribs.length nm (List.replicate s.TotalNum 0) vals h2
      (by simp [hlen]), rfl, ?_, g1, g2, ?_, ?_⟩
    · exact wellFormed_set _ nm s.attribs.length vals hwf1 hlen
    · intro b hb j
      rw [g3 b hb j, h3 b hb j]
    · intro b hb
      show attribIndex b ((s.attribs ++ [(nm, List.replicate s.TotalNum 0)]).set
        s.attribs.length (nm, vals)) = attribIndex b s.attribs
      rw [attribIndex_set b nm _ s.attribs.length (List.replicate s.TotalNum 0) vals h2,
        attribIndex_append_other nm b s.attribs _ (fun e => hb e.symm)]

/-- Lines 317-326 (charge, fill value 0) and 329-335 (mass, fill value 1):
after `addAttribute(nm)` and the loop that fills a newly created attribute
with `v`, the attribute `nm` exists with one value per species; it holds
`v` everywhere when it was created and the species set is unchanged when
the attribute was already there. -/
theorem addAttribute_fill [Zero T] (s : SpeciesSet T) (nm : String) (v : T)
    (hwf : s.WellFormed) :
    ∃ s2 vals,
      (if s.numAttributes = (s.addAttribute nm).1
        then (s.addAttribute nm).2.assignAll (s.addAttribute nm).1
          (List.replicate s.TotalNum v)
        else some (s.addAttribute nm).2) = some s2 ∧
      s2.TotalNum = s.TotalNum ∧ s2.WellFormed ∧
      attribIndex nm s2.attribs = some (s.addAttribute nm).1 ∧
      s2.attribs[(s.addAttribute nm).1]? = some (nm, vals) ∧
      vals.length = s.TotalNum ∧
      (attribIndex nm s.attribs = none → vals = List.replicate s.TotalNum v) ∧
      (attribIndex nm s.attribs ≠ none → s2 = s) ∧
      (∀ b, b ≠ nm → ∀ j, s2.lookup b j = s.lookup b j) ∧
      ∀ b, b ≠ nm → attribIndex b s2.attribs = attribIndex b s.attribs := by
  cases hidx : attribIndex nm s.attribs with
  | some i =>
    obtain ⟨old, hrow⟩ := attribIndex_some nm s.attribs i hidx
    have hlt : i < s.attribs.length := by
      by_contra hge
      rw [List.getElem?_eq_none (Nat.le_of_not_lt hge)] at hrow
      exact Option.noConfusion hrow
    have hne : ¬ s.numAttributes = i := by
      unfold numAttributes
      omega
    rw [addAttribute_found s nm i hidx]
    refine ⟨s, old, by rw [if_neg hne], rfl, hwf, hidx, hrow,
      wellFormed_row s i nm old hwf hrow, fun h => Option.noConfusion h, fun _ => rfl,
      fun _ _ _ => rfl, fun _ _ => rfl⟩
  | none =>
    obtain ⟨s2, h1, h2, h3, h4, h5, h6, h7⟩ :=
      addAttribute_assignAll s nm (List.replicate s.TotalNum v) hwf (by simp)
    have hq : (s.addAttribute nm).1 = s.attribs.length := by
      rw [addAttribute_new s nm hidx]
    refine ⟨s2, List.replicate s.TotalNum v, ?_, h2, h3, h4, h5, by simp, fun _ => rfl,
      fun h => absurd rfl h, h6, h7⟩
    rw [if_pos (by rw [hq]; rfl)]
    exact h1

end SpeciesSet

namespace ParticleSet

variable {T : Type}

/-! ## The loops of `resetGroups` -/

/-- A loop whose body succeeds on every element yields one result per
element, in order. -/
theorem allOrNone_spec {α β : Type} (f : α → Option β) (l : List α)
    (h : ∀ a ∈ l, ∃ b, f a = some b) :
    ∃ r, allOrNone f l = some r ∧ r.length = l.length ∧
      ∀ (i : Nat) (a : α), l[i]? = some a → r[i]? = f a := by
  induction l with
  | nil => exact ⟨[], rfl, rfl, fun i a hi => by simp at hi⟩
  | cons x xs ih =>
    obtain ⟨b, hb⟩ := h x (List.mem_cons_self _ _)
    obtain ⟨r, hr, hlen, hget⟩ := ih (fun a ha => h a (List.mem_cons_of_mem _ ha))
    refine ⟨b :: r, by simp only [allOrNone, hb, hr], by simp [hlen], ?_⟩
    intro i a hi
    cases i with
    | zero =>
      simp only [List.getElem?_cons_zero, Option.some.injEq] at hi
      subst hi
      simp [hb]
    | succ i =>
      simp only [List.getElem?_cons_succ] at hi
      simp only [List.getElem?_cons_succ]
      exact hget i a hi

/-- Lines 327-328 / 344-345 when the array has one entry per particle and
every group index is a species: entry `i` is the attribute of species
`GroupID[i]`. -/
theorem attribOfGroups_spec (s : SpeciesSet T) (ind : Nat) (nm : String) (vals : List T)
    (GroupID : List Int) (hrow : s.attribs[ind]? = some (nm, vals))
    (hin : ∀ g ∈ GroupID, 0 ≤ g ∧ g.toNat < vals.length) :
    ∃ X, attribOfGroups s ind GroupID GroupID.length = some X ∧
      X.length = GroupID.length ∧
      ∀ (i : Nat) (g : Int), GroupID[i]? = some g →
        X[i]? = readAt vals g ∧ ∃ x, X[i]? = some x := by
  have hf : ∀ g ∈ GroupID, ∃ b, s.get ind g = some b := by
    intro g hg
    obtain ⟨h0, hlt⟩ := hin g hg
    exact ⟨_, by simp only [SpeciesSet.get, hrow]; exact readAt_of_inRange vals g h0 hlt⟩
  obtain ⟨X, hX, hlen, hget⟩ := allOrNone_spec (fun g => s.get ind g) GroupID hf
  refine ⟨X, ?_, hlen, ?_⟩
  · simp only [attribOfGroups, le_refl, if_true, List.take_length, hX]
  · intro i g hi
    have h1 := hget i g hi
    simp only [SpeciesSet.get, hrow] at h1
    obtain ⟨h0, hlt⟩ := hin g (List.getElem?_mem hi)
    exact ⟨h1, _, h1.trans (readAt_of_inRange vals g h0 hlt)⟩

theorem foldl_and_decide [DecidableEq T] (m0 : T) (l : List T) (b : Bool) :
    l.foldl (fun acc m => acc && decide (m = m0)) b = true ↔
      b = true ∧ ∀ m ∈ l, m = m0 := by
  induction l generalizing b with
  | nil => simp
  | cons x xs ih =>
    simp only [List.foldl_cons, ih, Bool.and_eq_true, decide_eq_true_eq, List.mem_cons,
      forall_eq_or_imp]
    constructor
    · rintro ⟨⟨hb, hx⟩, hxs⟩
      exact ⟨hb, hx, hxs⟩
    · rintro ⟨hb, hx, hxs⟩
      exact ⟨⟨hb, hx⟩, hxs⟩

/-- Lines 336-339: `SameMass` is true exactly when every species has the
mass of species 0. -/
theorem sameMassOf_spec [DecidableEq T] (s : SpeciesSet T) (massind : Nat) (nm : String)
    (mv : List T) (nspecies : Nat) (hrow : s.attribs[massind]? = some (nm, mv))
    (hlen : mv.length = nspecies) (hpos : 0 < nspecies) :
    ∃ b, sameMassOf s massind nspecies = some b ∧
      (b = true ↔ ∀ g : Nat, g < nspecies → mv[g]? = mv[0]?) := by
  cases mv with
  | nil => simp at hlen; omega
  | cons m0 rest =>
    have hget0 : s.get massind 0 = some m0 := by
      simp only [SpeciesSet.get, hrow]
      simp [readAt]
    have hrest : rest.length = nspecies - 1 := by
      simp only [List.length_cons] at hlen
      omega
    have hf : ∀ ig ∈ List.range' 1 (nspecies - 1),
        ∃ b, (fun ig : Nat => s.get massind ig) ig = some b := by
      intro ig hig
      simp only [List.mem_range'_1] at hig
      have hlt : ((ig : Int)).toNat < (m0 :: rest).length := by
        simp only [Int.toNat_ofNat, List.length_cons]
        omega
      exact ⟨_, by
        simp only [SpeciesSet.get, hrow]
        exact readAt_of_inRange (m0 :: rest) ig (Int.ofNat_zero_le _) hlt⟩
    obtain ⟨r, hr, hrlen, hrget⟩ := allOrNone_spec _ _ hf
    have hreq : r = rest := by
      apply List.ext_getElem?
      intro k
      by_cases hk : k < nspecies - 1
      · have h1 : (List.range' 1 (nspecies - 1))[k]? = some (1 + k) := by
          rw [List.getElem?_range' 1 1 hk]
          simp
        have h2 := hrget k (1 + k) h1
        simp only [SpeciesSet.get, hrow, readAt, Int.toNat_ofNat, Int.ofNat_zero_le,
          if_true] at h2
        rw [h2, show 1 + k = k + 1 by omega, List.getElem?_cons_succ]
      · rw [List.getElem?_eq_none (by rw [hrlen, List.length_range']; omega),
          List.getElem?_eq_none (by omega)]
    refine ⟨r.foldl (fun acc m => acc && decide (m = m0)) true,
      by simp only [sameMassOf, hget0, hr], ?_⟩
    rw [foldl_and_decide, hreq]
    simp only [true_and, List.getElem?_cons_zero]
    constructor
    · intro h g hg
      cases g with
      | zero => simp
      | succ g =>
        have hlt : g < rest.length := by omega
        rw [List.getElem?_cons_succ, List.getElem?_eq_getElem hlt]
        exact congrArg some (h _ (List.getElem_mem hlt))
    · intro h m hm
      obtain ⟨k, hk, hkm⟩ := List.getElem_of_mem hm
      have := h (k + 1) (by omega)
      rw [List.getElem?_cons_succ, List.getElem?_eq_getElem hk, hkm] at this
      injection this

/-- Lines 368-370 when `IndirectID` and `ID` have the same size: `IsGrouped`
is true exactly when the two arrays are equal. -/
theorem isGroupedOf_spec (X ID : List Int) (hlen : X.length = ID.length) :
    isGroupedOf X ID = some (decide (X = ID)) := by
  have hfold : ∀ (A B : List Int) (b : Bool), A.length = B.length →
      (List.zip A B).foldl (fun acc p => acc && decide (p.1 = p.2)) b
        = (b && decide (A = B)) := by
    intro A
    induction A with
    | nil =>
      intro B b h
      cases B with
      | nil => simp
      | cons y ys => simp at h
    | cons x xs ih =>
      intro B b h
      cases B with
      | nil => simp at h
      | cons y ys =>
        simp only [List.length_cons, Nat.add_right_cancel_iff] at h
        simp only [List.zip_cons_cons, List.foldl_cons, ih ys _ h, List.cons.injEq]
        by_cases hxy : x = y <;> by_cases hxs : xs = ys <;> simp [hxy, hxs]
  simp only [isGroupedOf, hlen, le_refl, if_true, hfold X ID true hlen, Bool.true_and]

/-- The inner loop of lines 365-367 gathers the IDs of the members of the
species, in storage order. -/
theorem gatherIDs_spec (i : Int) (GroupID ID : List Int) (hlen : GroupID.length ≤ ID.length) :
    gatherIDs i GroupID ID = some (memberIDs i GroupID ID) := by
  induction GroupID generalizing ID with
  | nil => rfl
  | cons g gs ih =>
    cases ID with
    | nil => simp at hlen
    | cons id rest =>
      have hrec := ih rest (by simpa using hlen)
      by_cases hg : g = i
      · simp only [gatherIDs, hg, if_true, hrec, memberIDs, List.zip_cons_cons,
          List.filter_cons, decide_True, List.map_cons]
      · simp only [gatherIDs, hg, if_false, List.tail_cons, hrec, memberIDs,
          List.zip_cons_cons, List.filter_cons, decide_False, Bool.false_eq_true]

/-- Lines 363-367: the values written to `IndirectID`, species by species. -/
theorem indirectIDs_spec (nspecies : Nat) (GroupID ID : List Int)
    (hlen : GroupID.length ≤ ID.length) :
    indirectIDs nspecies GroupID ID =
      some ((List.range nspecies).map (fun g : Nat => memberIDs g GroupID ID)).flatten := by
  have h := allOrNone_eq_map (fun i : Nat => gatherIDs i GroupID ID)
    (fun g : Nat => memberIDs g GroupID ID) (List.range nspecies)
    (fun a _ => gatherIDs_spec a GroupID ID hlen)
  simp only [indirectIDs, h]

/-- The loop of lines 347-353 when every remaining group index is a
species: it runs to its end and adds to each counter the number of members
of its species. -/
theorem countGroups_spec (nspecies : Nat) (gs ng : List Int) (hlen : ng.length = nspecies)
    (hin : ∀ g ∈ gs, 0 ≤ g ∧ g < nspecies) :
    ∃ ng1, countGroups nspecies gs ng = GroupCount.counted ng1 ∧ ng1.length = nspecies ∧
      ∀ k : Nat, k < nspecies →
        ng1[k]? = some ((ng[k]?).getD 0 + (memberCount k gs : Int)) := by
  induction gs generalizing ng with
  | nil =>
    refine ⟨ng, rfl, hlen, ?_⟩
    intro k hk
    have hk2 : k < ng.length := by omega
    simp [memberCount, List.getElem?_eq_getElem hk2]
  | cons g gs ih =>
    obtain ⟨h0, hlt⟩ := hin g (List.mem_cons_self _ _)
    have hnat : g.toNat < ng.length := by omega
    have hread := readAt_of_inRange ng g h0 hnat
    have hwrite : writeAt ng g (ng.get ⟨g.toNat, hnat⟩ + 1)
        = some (ng.set g.toNat (ng.get ⟨g.toNat, hnat⟩ + 1)) :=
      (writeAt_eq_some_iff _ _ _ _).2 ⟨⟨h0, hnat⟩, rfl⟩
    obtain ⟨ng1, hrun, hlen1, hget⟩ := ih (ng.set g.toNat (ng.get ⟨g.toNat, hnat⟩ + 1))
      (by simp [hlen]) (fun a ha => hin a (List.mem_cons_of_mem _ ha))
    refine ⟨ng1, ?_, hlen1, ?_⟩
    · simp only [countGroups, hlt, if_true, hread, hwrite, hrun]
    · intro k hk
      have hk2 : k < ng.length := by omega
      rw [hget k hk]
      congr 1
      by_cases hkg : g.toNat = k
      · have hgk : g = (k : Int) := by omega
        have e1 : (ng.set g.toNat (ng.get ⟨g.toNat, hnat⟩ + 1))[k]?
            = some (ng.get ⟨g.toNat, hnat⟩ + 1) := by
          rw [← hkg]
          exact List.getElem?_set_self hnat
        have e2 : ng[k]? = some (ng.get ⟨g.toNat, hnat⟩) := by
          rw [← hkg]
          exact List.getElem?_eq_getElem hnat
        have e3 : memberCount (k : Int) (g :: gs) = memberCount (k : Int) gs + 1 := by
          unfold memberCount
          rw [List.count_cons, if_pos (by rw [hgk]; exact beq_self_eq_true _)]
        rw [e1, e2, e3]
        simp only [Option.getD_some]
        push_cast
        omega
      · have hgk : ¬ g = (k : Int) := by omega
        have e1 : (ng.set g.toNat (ng.get ⟨g.toNat, hnat⟩ + 1))[k]? = ng[k]? :=
          List.getElem?_set_ne hkg
        have e3 : memberCount (k : Int) (g :: gs) = memberCount (k : Int) gs := by
          unfold memberCount
          rw [List.count_cons, if_neg (by simpa using hgk), Nat.add_zero]
        rw [e1, e3]

/-- Lines 346-353 when every group index is a species: the counters end as
the member counts of the species. -/
theorem countGroups_init (nspecies : Nat) (GroupID : List Int)
    (hin : ∀ g ∈ GroupID, 0 ≤ g ∧ g < nspecies) :
    countGroups nspecies GroupID (List.replicate nspecies 0) =
      GroupCount.counted
        ((List.range nspecies).map (fun g : Nat => (memberCount g GroupID : Int))) := by
  obtain ⟨ng1, hrun, hlen1, hget⟩ :=
    countGroups_spec nspecies GroupID (List.replicate nspecies 0) (by simp) hin
  rw [hrun]
  congr 1
  apply List.ext_getElem?
  intro k
  by_cases hk : k < nspecies
  · rw [hget k hk, List.getElem?_map, List.getElem?_range hk,
      List.getElem?_replicate_of_lt hk]
    simp
  · rw [List.getElem?_eq_none (by omega), List.getElem?_eq_none (by simp; omega)]

theorem offsets_length (s : Int) (ns : List Int) : (offsets s ns).length = ns.length + 1 := by
  induction ns generalizing s with
  | nil => rfl
  | cons n ns ih => simp [offsets, ih]

/-- Entry `k` of the offsets is the start value plus the first `k` counters. -/
theorem offsets_getElem? (s : Int) (ns : List Int) (k : Nat) (hk : k ≤ ns.length) :
    (offsets s ns)[k]? = some (s + (ns.take k).sum) := by
  induction ns generalizing s k with
  | nil =>
    have : k = 0 := by simpa using hk
    subst this
    simp [offsets]
  | cons n ns ih =>
    cases k with
    | zero => simp [offsets]
    | succ k =>
      simp only [offsets, List.getElem?_cons_succ, List.take_succ_cons, List.sum_cons]
      rw [ih (s + n) k (by simpa using hk)]
      congr 1
      omega

/-- The particles of a species below `n + 1` are those of a species below
`n` and those of species `n`. -/
theorem membersBelow_succ (n : Int) (t : List Int) :
    membersBelow (n + 1) t = membersBelow n t + memberCount n t := by
  induction t with
  | nil => rfl
  | cons a t iht =>
    unfold membersBelow memberCount at iht ⊢
    rw [List.countP_cons, List.countP_cons, List.count_cons, iht]
    by_cases h1 : a < n
    · have d1 : decide (a < n) = true := decide_eq_true h1
      have d2 : decide (a < n + 1) = true := decide_eq_true (by omega)
      have d3 : (a == n) = false := by
        rw [beq_eq_false_iff_ne]
        omega
      simp only [d1, d2, d3, if_true, if_false, Bool.false_eq_true]
      omega
    · by_cases h3 : a = n
      · have d1 : decide (a < n) = false := decide_eq_false h1
        have d2 : decide (a < n + 1) = true := decide_eq_true (by omega)
        have d3 : (a == n) = true := by
          rw [beq_iff_eq]
          exact h3
        simp only [d1, d2, d3, if_true, if_false, Bool.false_eq_true]
        omega
      · have d1 : decide (a < n) = false := decide_eq_false h1
        have d2 : decide (a < n + 1) = false := decide_eq_false (by omega)
        have d3 : (a == n) = false := by
          rw [beq_eq_false_iff_ne]
          exact h3
        simp only [d1, d2, d3, if_false, Bool.false_eq_true]
        omega

/-- More species below, more particles of a species below. -/
theorem membersBelow_mono (a b : Int) (hab : a ≤ b) (t : List Int) :
    membersBelow a t ≤ membersBelow b t := by
  unfold membersBelow
  apply List.countP_mono_left
  intro x _ hx
  simp only [decide_eq_true_eq] at hx ⊢
  omega

/-- The member counts of the species below `n` add up to the number of
particles of a species below `n`. -/
theorem sum_memberCount_nat (n : Nat) (l : List Int) (h0 : ∀ a ∈ l, 0 ≤ a) :
    ((List.range n).map (fun g : Nat => memberCount g l)).sum = membersBelow n l := by
  induction n with
  | zero =>
    have : membersBelow (0 : Int) l = 0 := by
      unfold membersBelow
      rw [List.countP_eq_zero]
      intro a ha
      have := h0 a ha
      simp only [decide_eq_true_eq]
      omega
    simp [this]
  | succ n ih =>
    rw [List.range_succ, List.map_append, List.sum_append, ih]
    have hcast : ((n + 1 : Nat) : Int) = (n : Int) + 1 := by push_cast; rfl
    rw [hcast, membersBelow_succ]
    simp

theorem sum_map_natCast (l : List Nat) :
    (l.map (fun x : Nat => (x : Int))).sum = ((l.sum : Nat) : Int) := by
  induction l with
  | nil => rfl
  | cons a t ih =>
    simp only [List.map_cons, List.sum_cons, ih]
    push_cast
    rfl

/-- The same sum over the counters, which are of type `int`. -/
theorem sum_memberCount (n : Nat) (l : List Int) (h0 : ∀ a ∈ l, 0 ≤ a) :
    ((List.range n).map (fun g : Nat => (memberCount g l : Int))).sum
      = (membersBelow n l : Int) := by
  have h := sum_map_natCast ((List.range n).map (fun g : Nat => memberCount g l))
  rw [List.map_map] at h
  rw [← sum_memberCount_nat n l h0, ← h]
  rfl

/-- Lines 354-357 on the member counts: `SubPtcl[k]` is the number of
particles of a species below `k`. -/
theorem subPtcl_getElem? (nspecies : Nat) (l : List Int) (h0 : ∀ a ∈ l, 0 ≤ a)
    (k : Nat) (hk : k ≤ nspecies) :
    (offsets 0 ((List.range nspecies).map (fun g : Nat => (memberCount g l : Int))))[k]?
      = some (membersBelow k l : Int) := by
  rw [offsets_getElem? 0 _ k (by simpa using hk), ← List.map_take, List.take_range,
    Nat.min_eq_left hk, sum_memberCount k l h0]
  simp

/-! ## Grouping a list by an integer key -/

/-- The elements with a key below `n + 1` are those with a key below `n`
and those with key `n`, up to order. -/
theorem filter_key_split_perm {α : Type} (key : α → Int) (l : List α) (n : Nat) :
    List.Perm
      (l.filter (fun a => decide (key a < (n : Int))) ++
        l.filter (fun a => decide (key a = (n : Int))))
      (l.filter (fun a => decide (key a < (n : Int) + 1))) := by
  induction l with
  | nil => exact List.Perm.refl _
  | cons a t ih =>
    by_cases h1 : key a < (n : Int)
    · have h2 : key a < (n : Int) + 1 := by omega
      have h3 : ¬ key a = (n : Int) := by omega
      simp only [List.filter_cons, h1, h2, h3, decide_True, decide_False, if_true,
        Bool.false_eq_true, if_false, List.cons_append]
      exact List.Perm.cons a ih
    · by_cases h3 : key a = (n : Int)
      · have d1 : decide (key a < (n : Int)) = false := decide_eq_false h1
        have d2 : decide (key a < (n : Int) + 1) = true := decide_eq_true (by omega)
        have d3 : decide (key a = (n : Int)) = true := decide_eq_true h3
        simp only [List.filter_cons, d1, d2, d3, if_true, Bool.false_eq_true, if_false]
        exact (List.perm_middle).trans (List.Perm.cons a ih)
      · have h2 : ¬ key a < (n : Int) + 1 := by omega
        simp only [List.filter_cons, h1, h2, h3, decide_False, Bool.false_eq_true, if_false]
        exact ih

/-- In a list with non-decreasing keys the same split holds in order. -/
theorem filter_key_split_eq {α : Type} (key : α → Int) (l : List α) (n : Nat)
    (hs : l.Pairwise (fun a b => key a ≤ key b)) :
    l.filter (fun a => decide (key a < (n : Int))) ++
        l.filter (fun a => decide (key a = (n : Int)))
      = l.filter (fun a => decide (key a < (n : Int) + 1)) := by
  induction l with
  | nil => rfl
  | cons a t ih =>
    obtain ⟨hat, ht⟩ := List.pairwise_cons.1 hs
    have iht := ih ht
    by_cases h1 : key a < (n : Int)
    · have h2 : key a < (n : Int) + 1 := by omega
      have h3 : ¬ key a = (n : Int) := by omega
      simp only [List.filter_cons, h1, h2, h3, decide_True, decide_False, if_true,
        Bool.false_eq_true, if_false, List.cons_append, iht]
    · by_cases h3 : key a = (n : Int)
      · have h2 : key a < (n : Int) + 1 := by omega
        have hnil : t.filter (fun b => decide (key b < (n : Int))) = [] := by
          rw [List.filter_eq_nil_iff]
          intro b hb
          have := hat b hb
          simp only [decide_eq_true_eq]
          omega
        rw [hnil, List.nil_append] at iht
        have d1 : decide (key a < (n : Int)) = false := decide_eq_false h1
        have d2 : decide (key a < (n : Int) + 1) = true := decide_eq_true h2
        have d3 : decide (key a = (n : Int)) = true := decide_eq_true h3
        simp only [List.filter_cons, d1, d2, d3, if_true, Bool.false_eq_true, if_false,
          hnil, List.nil_append, iht]
      · have h2 : ¬ key a < (n : Int) + 1 := by omega
        simp only [List.filter_cons, h1, h2, h3, decide_False, Bool.false_eq_true, if_false,
          iht]

/-- The groups of keys `0 .. n-1`, one after the other. -/
theorem groups_succ {α : Type} (key : α → Int) (l : List α) (n : Nat) :
    ((List.range (n + 1)).map
        (fun g : Nat => l.filter (fun a => decide (key a = (g : Int))))).flatten
      = ((List.range n).map
          (fun g : Nat => l.filter (fun a => decide (key a = (g : Int))))).flatten ++
        l.filter (fun a => decide (key a = (n : Int))) := by
  rw [List.range_succ, List.map_append, List.flatten_append]
  simp

/-- Grouping by key keeps exactly the elements with a key below `n`. -/
theorem groups_perm {α : Type} (key : α → Int) (l : List α) (n : Nat)
    (h0 : ∀ a ∈ l, 0 ≤ key a) :
    List.Perm
      ((List.range n).map
        (fun g : Nat => l.filter (fun a => decide (key a = (g : Int))))).flatten
      (l.filter (fun a => decide (key a < (n : Int)))) := by
  induction n with
  | zero =>
    have hnil : l.filter (fun a => decide (key a < ((0 : Nat) : Int))) = [] := by
      rw [List.filter_eq_nil_iff]
      intro a ha
      have := h0 a ha
      simp only [decide_eq_true_eq, Nat.cast_zero]
      omega
    rw [hnil]
    exact List.Perm.refl _
  | succ n ih =>
    rw [groups_succ]
    have hcast : ((n + 1 : Nat) : Int) = (n : Int) + 1 := by push_cast; rfl
    rw [hcast]
    exact (List.Perm.append_right _ ih).trans (filter_key_split_perm key l n)

/-- Grouping a list with non-decreasing keys leaves it in order. -/
theorem groups_eq_of_sorted {α : Type} (key : α → Int) (l : List α) (n : Nat)
    (h0 : ∀ a ∈ l, 0 ≤ key a) (hs : l.Pairwise (fun a b => key a ≤ key b)) :
    ((List.range n).map
        (fun g : Nat => l.filter (fun a => decide (key a = (g : Int))))).flatten
      = l.filter (fun a => decide (key a < (n : Int))) := by
  induction n with
  | zero =>
    have hnil : l.filter (fun a => decide (key a < ((0 : Nat) : Int))) = [] := by
      rw [List.filter_eq_nil_iff]
      intro a ha
      have := h0 a ha
      simp only [decide_eq_true_eq, Nat.cast_zero]
      omega
    rw [hnil]
    rfl
  | succ n ih =>
    rw [groups_succ, ih]
    have hcast : ((n + 1 : Nat) : Int) = (n : Int) + 1 := by push_cast; rfl
    rw [hcast]
    exact filter_key_split_eq key l n hs

/-- The grouped list has non-decreasing keys. -/
theorem groups_sorted {α : Type} (key : α → Int) (l : List α) (n : Nat) :
    (((List.range n).map
        (fun g : Nat => l.filter (fun a => decide (key a = (g : Int))))).flatten).Pairwise
      (fun a b => key a ≤ key b) := by
  induction n with
  | zero => exact List.Pairwise.nil
  | succ n ih =>
    rw [groups_succ, List.pairwise_append]
    refine ⟨ih, ?_, ?_⟩
    · rw [List.pairwise_iff_forall_sublist]
      intro a b hab
      have ha := hab.subset (List.mem_cons_self _ _)
      have hb := hab.subset (List.mem_cons_of_mem _ (List.mem_cons_self _ _))
      simp only [List.mem_filter, decide_eq_true_eq] at ha hb
      omega
    · intro a ha b hb
      simp only [List.mem_flatten, List.mem_map, List.mem_range] at ha
      obtain ⟨part, ⟨g, hg, hpart⟩, hmem⟩ := ha
      subst hpart
      simp only [List.mem_filter, decide_eq_true_eq] at hmem hb
      omega

/-- With every key in `0 .. n-1` nothing is filtered out. -/
theorem filter_key_lt_self {α : Type} (key : α → Int) (l : List α) (n : Nat)
    (hn : ∀ a ∈ l, key a < (n : Int)) :
    l.filter (fun a => decide (key a < (n : Int))) = l := by
  rw [List.filter_eq_self]
  intro a ha
  simpa using hn a ha

/-- The mass test of line 331 compares in the order `massind == natt`. -/
theorem addAttribute_fill_flipped [Zero T] (s : SpeciesSet T) (nm : String) (v : T)
    (hwf : s.WellFormed) :
    ∃ s2 vals,
      (if (s.addAttribute nm).1 = s.numAttributes
        then (s.addAttribute nm).2.assignAll (s.addAttribute nm).1
          (List.replicate s.TotalNum v)
        else some (s.addAttribute nm).2) = some s2 ∧
      s2.TotalNum = s.TotalNum ∧ s2.WellFormed ∧
      attribIndex nm s2.attribs = some (s.addAttribute nm).1 ∧
      s2.attribs[(s.addAttribute nm).1]? = some (nm, vals) ∧
      vals.length = s.TotalNum ∧
      (attribIndex nm s.attribs = none → vals = List.replicate s.TotalNum v) ∧
      (attribIndex nm s.attribs ≠ none → s2 = s) ∧
      (∀ b, b ≠ nm → ∀ j, s2.lookup b j = s.lookup b j) ∧
      ∀ b, b ≠ nm → attribIndex b s2.attribs = attribIndex b s.attribs := by
  obtain ⟨s2, vals, h1, h2⟩ := SpeciesSet.addAttribute_fill s nm v hwf
  refine ⟨s2, vals, ?_, h2⟩
  by_cases hc : s.numAttributes = (s.addAttribute nm).1
  · rw [if_pos hc] at h1
    rw [if_pos hc.symm]
    exact h1
  · rw [if_neg hc] at h1
    rw [if_neg (fun e => hc e.symm)]
    exact h1

/-- The grouped IDs are the grouped (group, ID) pairs without their group. -/
theorem groupedIDs_eq_map (nspecies : Nat) (GroupID ID : List Int) :
    groupedIDs nspecies GroupID ID =
      (((List.range nspecies).map
        (fun g : Nat => (GroupID.zip ID).filter (fun p => decide (p.1 = (g : Int))))).flatten).map
        Prod.snd := by
  simp only [groupedIDs, memberIDs, List.map_flatten, List.map_map, Function.comp_def]

/-- With one ID per particle and every group index a species, the grouped
IDs are a permutation of the IDs. -/
theorem groupedIDs_perm (nspecies : Nat) (GroupID ID : List Int)
    (hlen : ID.length = GroupID.length)
    (hin : ∀ g ∈ GroupID, 0 ≤ g ∧ g < (nspecies : Int)) :
    List.Perm (groupedIDs nspecies GroupID ID) ID := by
  have hkey : ∀ p ∈ GroupID.zip ID, 0 ≤ p.1 ∧ p.1 < (nspecies : Int) := by
    intro p hp
    exact hin p.1 (List.of_mem_zip hp).1
  have h1 := groups_perm Prod.fst (GroupID.zip ID) nspecies (fun p hp => (hkey p hp).1)
  rw [filter_key_lt_self Prod.fst (GroupID.zip ID) nspecies (fun p hp => (hkey p hp).2)] at h1
  have h2 := h1.map Prod.snd
  rw [← groupedIDs_eq_map, List.map_snd_zip GroupID ID (Nat.le_of_eq hlen)] at h2
  exact h2

/-! ## `resetGroups` on a consistent particle set -/

set_option maxRecDepth 8000 in
/-- On a particle set with at least one species, arrays of consistent sizes
and every group index a species, `resetGroups` returns. The state it leaves
is described member by member: `cv` and `mv` are the charge and mass values
of the species after the call. -/
theorem resetGroups_ok [Zero T] [One T] [IntCast T] [DecidableEq T] (P : ParticleGroups T)
    (hpos : 0 < P.mySpecies.TotalNum) (hs : P.Sized) (hin : P.GroupsInRange) :
    ∃ (sp : SpeciesSet T) (cv mv Z1 Mass1 : List T) (sameMass : Bool),
      resetGroups P = Outcome.ok ()
        { P with mySpecies := sp, Z := Z1, SameMass := sameMass, Mass := Mass1,
                 SubPtcl := offsets 0 (memberCounts P.mySpecies.TotalNum P.GroupID),
                 IndirectID := groupedIDs P.mySpecies.TotalNum P.GroupID P.ID,
                 IsGrouped :=
                   decide (groupedIDs P.mySpecies.TotalNum P.GroupID P.ID = P.ID) } ∧
      (cv.length = P.mySpecies.TotalNum ∧ (∀ j, sp.lookup "charge" j = readAt cv j) ∧
        (attribIndex "charge" P.mySpecies.attribs = none →
          cv = List.replicate P.mySpecies.TotalNum 0) ∧
        (attribIndex "charge" P.mySpecies.attribs ≠ none →
          ∀ j, P.mySpecies.lookup "charge" j = readAt cv j)) ∧
      (mv.length = P.mySpecies.TotalNum ∧ (∀ j, sp.lookup "mass" j = readAt mv j) ∧
        (attribIndex "mass" P.mySpecies.attribs = none →
          mv = List.replicate P.mySpecies.TotalNum 1) ∧
        (attribIndex "mass" P.mySpecies.attribs ≠ none →
          ∀ j, P.mySpecies.lookup "mass" j = readAt mv j)) ∧
      (Z1.length = P.GroupID.length ∧
        ∀ (i : Nat) (g : Int), P.GroupID[i]? = some g →
          Z1[i]? = readAt cv g ∧ ∃ x, Z1[i]? = some x) ∧
      (Mass1.length = P.GroupID.length ∧
        ∀ (i : Nat) (g : Int), P.GroupID[i]? = some g →
          Mass1[i]? = readAt mv g ∧ ∃ x, Mass1[i]? = some x) ∧
      (sameMass = true ↔ ∀ g : Nat, g < P.mySpecies.TotalNum → mv[g]? = mv[0]?) ∧
      (∀ j, sp.lookup "membersize" j =
        readAt ((memberCounts P.mySpecies.TotalNum P.GroupID).map (fun c : Int => (c : T))) j) := by
  obtain ⟨hID, hInd, hZ, hM, hwf⟩ := hs
  -- charge
  obtain ⟨sp2, cv, e1, t1, wf1, i1, r1, l1, n1, k1, o1, x1⟩ :=
    SpeciesSet.addAttribute_fill P.mySpecies "charge" 0 hwf
  have hin1 : ∀ g ∈ P.GroupID, 0 ≤ g ∧ g.toNat < cv.length := by
    intro g hg
    obtain ⟨h0, hlt⟩ := hin g hg
    rw [l1]
    omega
  obtain ⟨Z1, eZ, lz, gz⟩ :=
    attribOfGroups_spec sp2 (P.mySpecies.addAttribute "charge").1 "charge" cv P.GroupID r1 hin1
  -- mass
  obtain ⟨sp4, mv, e2, t2, wf2, i2, r2, l2, n2, k2, o2, x2⟩ :=
    addAttribute_fill_flipped sp2 "mass" 1 wf1
  rw [t1] at e2 l2 n2
  have hin2 : ∀ g ∈ P.GroupID, 0 ≤ g ∧ g.toNat < mv.length := by
    intro g hg
    obtain ⟨h0, hlt⟩ := hin g hg
    rw [l2]
    omega
  obtain ⟨sm, eS, hS⟩ :=
    sameMassOf_spec sp4 (sp2.addAttribute "mass").1 "mass" mv P.mySpecies.TotalNum r2 l2 hpos
  obtain ⟨Mass1, eM, lm, gm⟩ :=
    attribOfGroups_spec sp4 (sp2.addAttribute "mass").1 "mass" mv P.GroupID r2 hin2
  -- counts, membersize
  have eC := countGroups_init P.mySpecies.TotalNum P.GroupID hin
  have hcl : ((memberCounts P.mySpecies.TotalNum P.GroupID).map (fun c : Int => (c : T))).length
      = sp4.TotalNum := by
    rw [List.length_map]
    unfold memberCounts
    rw [List.length_map, List.length_range, t2, t1]
  obtain ⟨sp6, e3, t3, wf3, i3, r3, o3, x3⟩ :=
    SpeciesSet.addAttribute_assignAll sp4 "membersize"
      ((memberCounts P.mySpecies.TotalNum P.GroupID).map (fun c : Int => (c : T))) wf2 hcl
  -- IndirectID, IsGrouped
  have eI := indirectIDs_spec P.mySpecies.TotalNum P.GroupID P.ID (Nat.le_of_eq hID.symm)
  have hperm := groupedIDs_perm P.mySpecies.TotalNum P.GroupID P.ID hID hin
  have hglen : (groupedIDs P.mySpecies.TotalNum P.GroupID P.ID).length = P.IndirectID.length := by
    rw [hperm.length_eq, hID, hInd]
  have eG := isGroupedOf_spec (groupedIDs P.mySpecies.TotalNum P.GroupID P.ID) P.ID
    (by rw [hperm.length_eq])
  have hdrop : (groupedIDs P.mySpecies.TotalNum P.GroupID P.ID) ++
      P.IndirectID.drop (groupedIDs P.mySpecies.TotalNum P.GroupID P.ID).length
        = groupedIDs P.mySpecies.TotalNum P.GroupID P.ID := by
    rw [hglen, List.drop_length, List.append_nil]
  refine ⟨sp6, cv, mv, Z1, Mass1, sm, ?_, ⟨l1, ?_, n1, ?_⟩, ⟨l2, ?_, ?_, ?_⟩, ⟨lz, gz⟩,
    ⟨lm, gm⟩, hS, ?_⟩
  · unfold resetGroups
    have hne : ¬ P.mySpecies.getTotalNum = 0 := by
      unfold SpeciesSet.getTotalNum
      omega
    rw [if_neg hne]
    simp only [SpeciesSet.getTotalNum]
    rw [e1]
    simp only
    rw [hZ, eZ]
    simp only
    rw [e2]
    simp only
    rw [eS]
    simp only
    rw [hM, eM]
    simp only
    rw [eC]
    simp only
    rw [show (List.range P.mySpecies.TotalNum).map
        (fun g : Nat => (memberCount g P.GroupID : Int))
        = memberCounts P.mySpecies.TotalNum P.GroupID from rfl, e3]
    simp only
    rw [eI]
    simp only
    rw [show ((List.range P.mySpecies.TotalNum).map
        (fun g : Nat => memberIDs g P.GroupID P.ID)).flatten
        = groupedIDs P.mySpecies.TotalNum P.GroupID P.ID from rfl]
    rw [if_pos (Nat.le_of_eq hglen), hdrop, eG]
  · intro j
    rw [o3 "charge" (by decide) j, o2 "charge" (by decide) j]
    exact (SpeciesSet.lookup_of_index sp2 "charge" _ cv i1 r1 j).1
  · intro hq j
    rw [← k1 hq]
    exact (SpeciesSet.lookup_of_index sp2 "charge" _ cv i1 r1 j).1
  · intro j
    rw [o3 "mass" (by decide) j]
    exact (SpeciesSet.lookup_of_index sp4 "mass" _ mv i2 r2 j).1
  · intro hm
    apply n2
    rw [x1 "mass" (by decide)]
    exact hm
  · intro hm j
    have hm2 : attribIndex "mass" sp2.attribs ≠ none := by
      rw [x1 "mass" (by decide)]
      exact hm
    rw [← o1 "mass" (by decide) j, ← k2 hm2]
    exact (SpeciesSet.lookup_of_index sp4 "mass" _ mv i2 r2 j).1
  · intro j
    exact (SpeciesSet.lookup_of_index sp6 "membersize" _ _ i3 r3 j).1

/-- C20: `resetGroups` on a particle set without species ends in the
"No species exisits" abort, in the state in which it was entered: `Z`,
`Mass`, `SubPtcl`, `IndirectID`, `IsGrouped`, `SameMass` and the species set
keep their values. -/
theorem resetGroups_noSpecies [Zero T] [One T] [IntCast T] [DecidableEq T]
    (P : ParticleGroups T) (h : P.mySpecies.getTotalNum = 0) :
    resetGroups P = Outcome.abort AbortMsg.noSpecies P := by
  unfold resetGroups
  exact if_pos h

/-- Instance of C20: three particles and an empty species set. -/
theorem resetGroups_noSpecies_witness :
    resetGroups Scenario.noSpeciesGroups =
      Outcome.abort AbortMsg.noSpecies Scenario.noSpeciesGroups :=
  resetGroups_noSpecies Scenario.noSpeciesGroups (by decide)

/-- Read at an index that is a natural number. -/
theorem readAt_natCast {α : Type} (v : List α) (k : Nat) : readAt v (k : Int) = v[k]? := by
  simp [readAt]

/-- `SubPtcl[k]` after `resetGroups`, for `k` up to the number of species. -/
theorem memberCounts_offsets (nspecies : Nat) (GroupID : List Int)
    (hin : ∀ g ∈ GroupID, 0 ≤ g ∧ g < (nspecies : Int)) (k : Nat) (hk : k ≤ nspecies) :
    (offsets 0 (memberCounts nspecies GroupID))[k]? = some (membersBelow k GroupID : Int) :=
  subPtcl_getElem? nspecies GroupID (fun a ha => (hin a ha).1) k hk

/-- C15: after `resetGroups` on a set with at least one species and every
`GroupID` in `[0, nspecies)`: `SubPtcl` has length `nspecies + 1`,
`SubPtcl[0] = 0`, `SubPtcl[g+1] - SubPtcl[g]` is the number of particles with
`GroupID = g`, `SubPtcl` is non-decreasing, `SubPtcl[nspecies]` is the number
of particles, and the attribute `membersize` of species `g` is that same
count. -/
theorem resetGroups_subPtcl [Zero T] [One T] [IntCast T] [DecidableEq T]
    (P : ParticleGroups T) (hpos : 0 < P.mySpecies.TotalNum) (hs : P.Sized)
    (hin : P.GroupsInRange) :
    ∃ Q, resetGroups P = Outcome.ok () Q ∧
      Q.SubPtcl.length = P.mySpecies.TotalNum + 1 ∧
      Q.SubPtcl[0]? = some 0 ∧
      (∀ g : Nat, g < P.mySpecies.TotalNum →
        ∃ a b : Int, Q.SubPtcl[g]? = some a ∧ Q.SubPtcl[g + 1]? = some b ∧
          b - a = (memberCount g P.GroupID : Int) ∧ a ≤ b) ∧
      Q.SubPtcl[P.mySpecies.TotalNum]? = some (P.GroupID.length : Int) ∧
      (∀ g : Nat, g < P.mySpecies.TotalNum →
        Q.mySpecies.lookup "membersize" g
          = some (((memberCount g P.GroupID : Nat) : Int) : T)) := by
  obtain ⟨sp, cv, mv, Z1, Mass1, sm, hrun, _, _, _, _, _, hN⟩ := resetGroups_ok P hpos hs hin
  refine ⟨_, hrun, ?_, ?_, ?_, ?_, ?_⟩
  · show (offsets 0 (memberCounts P.mySpecies.TotalNum P.GroupID)).length = _
    rw [offsets_length]
    simp [memberCounts]
  · show (offsets 0 (memberCounts P.mySpecies.TotalNum P.GroupID))[0]? = _
    rw [offsets_getElem? 0 _ 0 (Nat.zero_le _)]
    simp
  · intro g hg
    refine ⟨(membersBelow g P.GroupID : Int), (membersBelow ((g : Int) + 1) P.GroupID : Int),
      memberCounts_offsets _ _ hin g (Nat.le_of_lt hg), ?_, ?_, ?_⟩
    · have h := memberCounts_offsets _ _ hin (g + 1) hg
      have hcast : ((g + 1 : Nat) : Int) = (g : Int) + 1 := by push_cast; rfl
      rw [hcast] at h
      exact h
    · rw [membersBelow_succ]
      push_cast
      omega
    · rw [membersBelow_succ]
      push_cast
      omega
  · have h := memberCounts_offsets _ _ hin P.mySpecies.TotalNum (Nat.le_refl _)
    have hall : membersBelow (P.mySpecies.TotalNum : Int) P.GroupID = P.GroupID.length := by
      unfold membersBelow
      rw [List.countP_eq_length]
      intro a ha
      simpa using (hin a ha).2
    rw [hall] at h
    exact h
  · intro g hg
    show sp.lookup "membersize" (g : Int) = _
    rw [hN, readAt_natCast, List.getElem?_map]
    unfold memberCounts
    rw [List.getElem?_map, List.getElem?_range hg]
    rfl

/-- Instance of C15: the three particles with `GroupID = [1, 0, 1]` and two
species; `SubPtcl` becomes `[0, 1, 3]`. -/
theorem resetGroups_subPtcl_witness :
    ∃ Q, resetGroups Scenario.mixedGroups = Outcome.ok () Q ∧
      Q.SubPtcl.length = 2 + 1 ∧ Q.SubPtcl[0]? = some 0 ∧
      Q.SubPtcl[2]? = some 3 ∧ Q.SubPtcl = [0, 1, 3] :=
  match resetGroups_subPtcl Scenario.mixedGroups (by decide)
      (by unfold ParticleGroups.Sized SpeciesSet.WellFormed; decide)
      (by unfold ParticleGroups.GroupsInRange; decide) with
  | ⟨Q, hrun, hlen, hzero, _, hlast, _⟩ =>
    ⟨Q, hrun, hlen, hzero, hlast, by
      have h : resetGroups Scenario.mixedGroups = Outcome.ok ()
          { Scenario.mixedGroups with
              mySpecies := { TotalNum := 2, attribs :=
                [("charge", [-1, 3]), ("mass", [1, 1]), ("membersize", [1, 2])] },
              Z := [3, -1, 3], Mass := [1, 1, 1], SameMass := true,
              SubPtcl := [0, 1, 3], IndirectID := [1, 0, 2], IsGrouped := false } := by
        decide
      rw [h] at hrun
      injection hrun with _ hQ
      rw [← hQ]⟩

/-- Entries read from a table filled with `v` are `v`. -/
theorem mem_of_replicate_reads (X : List T) (GroupID : List Int) (n : Nat) (v : T)
    (hlen : X.length = GroupID.length)
    (hget : ∀ (i : Nat) (g : Int), GroupID[i]? = some g →
      X[i]? = readAt (List.replicate n v) g ∧ ∃ x, X[i]? = some x) :
    ∀ x ∈ X, x = v := by
  intro x hx
  obtain ⟨i, hi⟩ := List.mem_iff_getElem?.1 hx
  have hlt : i < GroupID.length := by
    rw [← hlen]
    by_contra hge
    rw [List.getElem?_eq_none (Nat.le_of_not_lt hge)] at hi
    exact Option.noConfusion hi
  obtain ⟨h1, _⟩ := hget i _ (List.getElem?_eq_getElem hlt)
  rw [hi] at h1
  have hmem : x ∈ List.replicate n v := by
    unfold readAt at h1
    split at h1
    · exact List.getElem?_mem h1.symm
    · exact Option.noConfusion h1
  exact List.eq_of_mem_replicate hmem

/-- C19: after `resetGroups` with every `GroupID` in `[0, nspecies)`: `Z[i]`
is the attribute `charge` and `Mass[i]` the attribute `mass` of species
`GroupID[i]`; when the species set had no `charge` attribute every `Z[i]` is
0 and when it had no `mass` attribute every `Mass[i]` is 1 (an attribute that
was there is left as it was); `SameMass` is true exactly when all species
have the same `mass` attribute. -/
theorem resetGroups_attributes [Zero T] [One T] [IntCast T] [DecidableEq T]
    (P : ParticleGroups T) (hpos : 0 < P.mySpecies.TotalNum) (hs : P.Sized)
    (hin : P.GroupsInRange) :
    ∃ Q, resetGroups P = Outcome.ok () Q ∧
      Q.Z.length = P.GroupID.length ∧ Q.Mass.length = P.GroupID.length ∧
      (∀ (i : Nat) (g : Int), P.GroupID[i]? = some g →
        ∃ z m, Q.Z[i]? = some z ∧ Q.mySpecies.lookup "charge" g = some z ∧
          Q.Mass[i]? = some m ∧ Q.mySpecies.lookup "mass" g = some m) ∧
      (attribIndex "charge" P.mySpecies.attribs = none → ∀ z ∈ Q.Z, z = 0) ∧
      (attribIndex "mass" P.mySpecies.attribs = none → ∀ m ∈ Q.Mass, m = 1) ∧
      (attribIndex "charge" P.mySpecies.attribs ≠ none →
        ∀ j, Q.mySpecies.lookup "charge" j = P.mySpecies.lookup "charge" j) ∧
      (attribIndex "mass" P.mySpecies.attribs ≠ none →
        ∀ j, Q.mySpecies.lookup "mass" j = P.mySpecies.lookup "mass" j) ∧
      (Q.SameMass = true ↔
        ∀ g1 g2 : Nat, g1 < P.mySpecies.TotalNum → g2 < P.mySpecies.TotalNum →
          Q.mySpecies.lookup "mass" g1 = Q.mySpecies.lookup "mass" g2) := by
  obtain ⟨sp, cv, mv, Z1, Mass1, sm, hrun, ⟨_, hc, hc0, hcOld⟩, ⟨_, hm, hm1, hmOld⟩,
    ⟨lz, gz⟩, ⟨lm, gm⟩, hS, _⟩ := resetGroups_ok P hpos hs hin
  refine ⟨_, hrun, lz, lm, ?_, ?_, ?_, ?_, ?_, ?_⟩
  · intro i g hg
    obtain ⟨hz1, z, hz2⟩ := gz i g hg
    obtain ⟨hm1a, m, hm2⟩ := gm i g hg
    refine ⟨z, m, hz2, ?_, hm2, ?_⟩
    · show sp.lookup "charge" g = some z
      rw [hc, ← hz1, hz2]
    · show sp.lookup "mass" g = some m
      rw [hm, ← hm1a, hm2]
  · intro hnone
    have hcv := hc0 hnone
    subst hcv
    exact mem_of_replicate_reads Z1 P.GroupID _ 0 lz gz
  · intro hnone
    have hmv := hm1 hnone
    subst hmv
    exact mem_of_replicate_reads Mass1 P.GroupID _ 1 lm gm
  · intro hsome j
    show sp.lookup "charge" j = _
    rw [hc, hcOld hsome]
  · intro hsome j
    show sp.lookup "mass" j = _
    rw [hm, hmOld hsome]
  · show sm = true ↔ _
    rw [hS]
    constructor
    · intro h g1 g2 h1 h2
      show sp.lookup "mass" (g1 : Int) = sp.lookup "mass" (g2 : Int)
      rw [hm, hm, readAt_natCast, readAt_natCast, h g1 h1, h g2 h2]
    · intro h g hg
      have := h g 0 hg hpos
      change sp.lookup "mass" (g : Int) = sp.lookup "mass" ((0 : Nat) : Int) at this
      rw [hm, hm, readAt_natCast, readAt_natCast] at this
      exact this

/-- Instance of C19: the three particles with `GroupID = [1, 0, 1]`, two
species with charges `-1` and `3` and no `mass` attribute. -/
theorem resetGroups_attributes_witness :
    ∃ Q, resetGroups Scenario.mixedGroups = Outcome.ok () Q ∧
      Q.Z.length = 3 ∧ Q.Mass.length = 3 ∧ (∀ m ∈ Q.Mass, m = 1) :=
  match resetGroups_attributes Scenario.mixedGroups (by decide)
      (by unfold ParticleGroups.Sized SpeciesSet.WellFormed; decide)
      (by unfold ParticleGroups.GroupsInRange; decide) with
  | ⟨Q, hrun, hz, hm, _, _, hone, _⟩ => ⟨Q, hrun, hz, hm, hone (by decide)⟩

/-- With one ID per particle, species `g` has as many member IDs as members. -/
theorem memberIDs_length (g : Int) (GroupID ID : List Int) (hlen : ID.length = GroupID.length) :
    (memberIDs g GroupID ID).length = memberCount g GroupID := by
  unfold memberIDs memberCount
  rw [List.length_map, ← List.countP_eq_length_filter, List.count_eq_countP]
  have h := List.countP_map (fun a : Int => decide (a = g)) Prod.fst (GroupID.zip ID)
  rw [List.map_fst_zip GroupID ID (Nat.le_of_eq hlen.symm)] at h
  rw [show (fun p : Int × Int => decide (p.1 = g))
      = (fun a : Int => decide (a = g)) ∘ Prod.fst from rfl, ← h]
  apply List.countP_congr
  intro x _
  simp

/-- The member IDs of a species keep the storage order of the IDs. -/
theorem memberIDs_sublist (g : Int) (GroupID ID : List Int) (hlen : ID.length = GroupID.length) :
    (memberIDs g GroupID ID).Sublist ID := by
  have h := (List.filter_sublist (p := fun p : Int × Int => decide (p.1 = g))
    (GroupID.zip ID)).map Prod.snd
  rw [List.map_snd_zip GroupID ID (Nat.le_of_eq hlen)] at h
  exact h

/-- The slice of the grouped IDs that belongs to species `g`. -/
theorem groupedIDs_slice (nspecies : Nat) (GroupID ID : List Int)
    (hlen : ID.length = GroupID.length) (h0 : ∀ a ∈ GroupID, 0 ≤ a)
    (g : Nat) (hg : g < nspecies) :
    ((groupedIDs nspecies GroupID ID).take (membersBelow ((g : Int) + 1) GroupID)).drop
        (membersBelow (g : Int) GroupID)
      = memberIDs g GroupID ID := by
  have hL : g < ((List.range nspecies).map (fun k : Nat => memberIDs k GroupID ID)).length := by
    simpa using hg
  have h := List.drop_take_succ_flatten_eq_getElem
    ((List.range nspecies).map (fun k : Nat => memberIDs k GroupID ID)) g hL
  have hlens : ((List.range nspecies).map (fun k : Nat => memberIDs k GroupID ID)).map
      List.length = (List.range nspecies).map (fun k : Nat => memberCount k GroupID) := by
    rw [List.map_map]
    apply List.map_congr_left
    intro k _
    exact memberIDs_length k GroupID ID hlen
  have hsum : ∀ k : Nat, k ≤ nspecies →
      (((List.range nspecies).map (fun k : Nat => memberCount k GroupID)).take k).sum
        = membersBelow (k : Int) GroupID := by
    intro k hk
    rw [← List.map_take, List.take_range, Nat.min_eq_left hk, sum_memberCount_nat k GroupID h0]
  rw [hlens, hsum g (Nat.le_of_lt hg), hsum (g + 1) hg] at h
  have hcast : ((g + 1 : Nat) : Int) = (g : Int) + 1 := by push_cast; rfl
  rw [hcast] at h
  simp only [List.getElem_map, List.getElem_range] at h
  exact h

/-- C17: after `resetGroups` with every `GroupID` in `[0, nspecies)`,
`IndirectID` is a permutation of `ID` that fills `IndirectID` entirely; it
lists the IDs species by species in increasing species index, the entries
at positions `SubPtcl[g] .. SubPtcl[g+1]-1` being the IDs of the particles
with `GroupID = g`, in the order these particles are stored. -/
theorem resetGroups_indirectID [Zero T] [One T] [IntCast T] [DecidableEq T]
    (P : ParticleGroups T) (hpos : 0 < P.mySpecies.TotalNum) (hs : P.Sized)
    (hin : P.GroupsInRange) :
    ∃ Q, resetGroups P = Outcome.ok () Q ∧
      Q.IndirectID.Perm P.ID ∧ Q.IndirectID.length = P.IndirectID.length ∧
      Q.IndirectID = groupedIDs P.mySpecies.TotalNum P.GroupID P.ID ∧
      ∀ g : Nat, g < P.mySpecies.TotalNum →
        ∃ a b : Nat, Q.SubPtcl[g]? = some (a : Int) ∧ Q.SubPtcl[g + 1]? = some (b : Int) ∧
          (Q.IndirectID.take b).drop a = memberIDs g P.GroupID P.ID ∧
          (memberIDs g P.GroupID P.ID).Sublist P.ID := by
  obtain ⟨sp, cv, mv, Z1, Mass1, sm, hrun, _⟩ := resetGroups_ok P hpos hs hin
  have hID := hs.1
  have hInd := hs.2.1
  have hperm := groupedIDs_perm P.mySpecies.TotalNum P.GroupID P.ID hID hin
  refine ⟨_, hrun, hperm, ?_, rfl, ?_⟩
  · show (groupedIDs P.mySpecies.TotalNum P.GroupID P.ID).length = _
    rw [hperm.length_eq, hID, hInd]
  · intro g hg
    refine ⟨membersBelow (g : Int) P.GroupID, membersBelow ((g : Int) + 1) P.GroupID,
      memberCounts_offsets _ _ hin g (Nat.le_of_lt hg), ?_,
      groupedIDs_slice _ _ _ hID (fun a ha => (hin a ha).1) g hg,
      memberIDs_sublist _ _ _ hID⟩
    have h := memberCounts_offsets _ _ hin (g + 1) hg
    have hcast : ((g + 1 : Nat) : Int) = (g : Int) + 1 := by push_cast; rfl
    rw [hcast] at h
    exact h

/-- Instance of C17: `ID = [0, 1, 2]` with `GroupID = [1, 0, 1]` gives
`IndirectID = [1, 0, 2]`. -/
theorem resetGroups_indirectID_witness :
    ∃ Q, resetGroups Scenario.mixedGroups = Outcome.ok () Q ∧
      Q.IndirectID.Perm Scenario.mixedGroups.ID ∧
      Q.IndirectID = [1, 0, 2] :=
  match resetGroups_indirectID Scenario.mixedGroups (by decide)
      (by unfold ParticleGroups.Sized SpeciesSet.WellFormed; decide)
      (by unfold ParticleGroups.GroupsInRange; decide) with
  | ⟨Q, hrun, hperm, _, heq, _⟩ => ⟨Q, hrun, hperm, heq.trans (by decide)⟩

/-! ## Group order and index ranges -/

/-- In a list of group indices in non-decreasing order, particle `i` lies in
the index range of its species. -/
theorem ranges_of_sorted (l : List Int) (hs : l.Pairwise (fun a b => a ≤ b))
    (i : Nat) (g : Int) (hg : l[i]? = some g) :
    membersBelow g l ≤ i ∧ i < membersBelow (g + 1) l := by
  obtain ⟨hi, hgi⟩ := List.getElem?_eq_some_iff.1 hg
  have hord := List.pairwise_iff_getElem.1 hs
  constructor
  · have hsplit : membersBelow g l
        = List.countP (fun a => decide (a < g)) (l.take i)
          + List.countP (fun a => decide (a < g)) (l.drop i) := by
      unfold membersBelow
      rw [← List.countP_append, List.take_append_drop]
    have hzero : List.countP (fun a => decide (a < g)) (l.drop i) = 0 := by
      rw [List.countP_eq_zero]
      intro x hx
      obtain ⟨k, hk, hkx⟩ := List.getElem_of_mem hx
      rw [List.getElem_drop] at hkx
      have hk2 : i + k < l.length := by
        rw [List.length_drop] at hk
        omega
      simp only [decide_eq_true_eq]
      rcases Nat.eq_zero_or_pos k with h0 | hpos
      · subst h0
        have : l[i] = x := by simpa using hkx
        omega
      · have := hord i (i + k) hi hk2 (by omega)
        omega
    have hle : List.countP (fun a => decide (a < g)) (l.take i) ≤ i := by
      have h1 := List.countP_le_length (p := fun a => decide (a < g)) (l := l.take i)
      rw [List.length_take] at h1
      omega
    omega
  · have hsplit : membersBelow (g + 1) l
        = List.countP (fun a => decide (a < g + 1)) (l.take (i + 1))
          + List.countP (fun a => decide (a < g + 1)) (l.drop (i + 1)) := by
      unfold membersBelow
      rw [← List.countP_append, List.take_append_drop]
    have hall : List.countP (fun a => decide (a < g + 1)) (l.take (i + 1))
        = (l.take (i + 1)).length := by
      rw [List.countP_eq_length]
      intro x hx
      obtain ⟨k, hk, hkx⟩ := List.getElem_of_mem hx
      rw [List.getElem_take] at hkx
      rw [List.length_take] at hk
      have hk2 : k < l.length := by omega
      simp only [decide_eq_true_eq]
      rcases Nat.lt_or_ge k i with hlt | hge
      · have := hord k i hk2 hi hlt
        omega
      · have hki : k = i := by omega
        subst hki
        omega
    rw [List.length_take] at hall
    omega

/-- Conversely, when every particle lies in the index range of its species
the group indices are in non-decreasing order. -/
theorem sorted_of_ranges (l : List Int)
    (h : ∀ (i : Nat) (g : Int), l[i]? = some g →
      membersBelow g l ≤ i ∧ i < membersBelow (g + 1) l) :
    l.Pairwise (fun a b => a ≤ b) := by
  rw [List.pairwise_iff_getElem]
  intro i j hi hj hij
  by_contra hgt
  have h1 := (h i l[i] (List.getElem?_eq_getElem hi)).1
  have h2 := (h j l[j] (List.getElem?_eq_getElem hj)).2
  have hmono := membersBelow_mono (l[j] + 1) l[i] (by omega) l
  omega

/-- Two lists with the same elements and the same images under a map that is
injective on them are equal. -/
theorem eq_of_perm_of_map_eq {α β : Type} (f : α → β) (l1 l2 : List α)
    (hp : List.Perm l1 l2) (hnd : (l2.map f).Nodup) (hm : l1.map f = l2.map f) :
    l1 = l2 := by
  have hinj := List.inj_on_of_nodup_map hnd
  apply List.ext_getElem (hp.length_eq)
  intro n h1 h2
  have hmem : l1[n] ∈ l2 := hp.subset (List.getElem_mem h1)
  have hf : f l1[n] = f l2[n] := by
    have e1 : (l1.map f)[n]? = some (f l1[n]) := by
      rw [List.getElem?_map, List.getElem?_eq_getElem h1]
      rfl
    have e2 : (l2.map f)[n]? = some (f l2[n]) := by
      rw [List.getElem?_map, List.getElem?_eq_getElem h2]
      rfl
    rw [hm, e2] at e1
    injection e1 with e1
    exact e1.symm
  exact hinj hmem (List.getElem_mem h2) hf

/-- With distinct IDs, the grouped IDs are the IDs exactly when the group
indices are in non-decreasing order. -/
theorem groupedIDs_eq_iff_sorted (nspecies : Nat) (GroupID ID : List Int)
    (hlen : ID.length = GroupID.length)
    (hin : ∀ g ∈ GroupID, 0 ≤ g ∧ g < (nspecies : Int)) (hnd : ID.Nodup) :
    groupedIDs nspecies GroupID ID = ID ↔ GroupID.Pairwise (fun a b => a ≤ b) := by
  have hkey : ∀ p ∈ GroupID.zip ID, 0 ≤ p.1 ∧ p.1 < (nspecies : Int) := by
    intro p hp
    exact hin p.1 (List.of_mem_zip hp).1
  have hfst : (GroupID.zip ID).map Prod.fst = GroupID :=
    List.map_fst_zip GroupID ID (Nat.le_of_eq hlen.symm)
  have hsnd : (GroupID.zip ID).map Prod.snd = ID :=
    List.map_snd_zip GroupID ID (Nat.le_of_eq hlen)
  have hpair : GroupID.Pairwise (fun a b => a ≤ b) ↔
      (GroupID.zip ID).Pairwise (fun p q => p.1 ≤ q.1) := by
    rw [← List.pairwise_map (f := Prod.fst) (R := fun a b : Int => a ≤ b), hfst]
  have hfull := filter_key_lt_self Prod.fst (GroupID.zip ID) nspecies
    (fun p hp => (hkey p hp).2)
  constructor
  · intro heq
    rw [hpair]
    have hperm := groups_perm Prod.fst (GroupID.zip ID) nspecies (fun p hp => (hkey p hp).1)
    rw [hfull] at hperm
    have hmap : (((List.range nspecies).map
        (fun g : Nat => (GroupID.zip ID).filter
          (fun p => decide (p.1 = (g : Int))))).flatten).map Prod.snd
        = (GroupID.zip ID).map Prod.snd := by
      rw [← groupedIDs_eq_map, heq, hsnd]
    have hsame := eq_of_perm_of_map_eq Prod.snd _ _ hperm (by rw [hsnd]; exact hnd) hmap
    have hsorted := groups_sorted Prod.fst (GroupID.zip ID) nspecies
    rw [hsame] at hsorted
    exact hsorted
  · intro hs
    rw [groupedIDs_eq_map,
      groups_eq_of_sorted Prod.fst (GroupID.zip ID) nspecies (fun p hp => (hkey p hp).1)
        (hpair.1 hs), hfull, hsnd]

/-- `SubPtcl[g]` after `resetGroups`, read with an `int` species index. -/
theorem memberCounts_readAt (nspecies : Nat) (GroupID : List Int)
    (hin : ∀ g ∈ GroupID, 0 ≤ g ∧ g < (nspecies : Int)) (g : Int) (h0 : 0 ≤ g)
    (hg : g ≤ (nspecies : Int)) :
    readAt (offsets 0 (memberCounts nspecies GroupID)) g
      = some (membersBelow g GroupID : Int) := by
  have hcast : ((g.toNat : Nat) : Int) = g := Int.toNat_of_nonneg h0
  have h := memberCounts_offsets nspecies GroupID hin g.toNat (by omega)
  rw [hcast] at h
  rw [← hcast, readAt_natCast, hcast]
  exact h

/-- The index ranges read off `SubPtcl` are those counted on `GroupID`. -/
theorem ranges_iff (nspecies : Nat) (GroupID : List Int)
    (hin : ∀ g ∈ GroupID, 0 ≤ g ∧ g < (nspecies : Int)) (i : Nat) (g : Int)
    (hg : GroupID[i]? = some g) :
    (∃ a b : Int, readAt (offsets 0 (memberCounts nspecies GroupID)) g = some a ∧
        readAt (offsets 0 (memberCounts nspecies GroupID)) (g + 1) = some b ∧
        a ≤ (i : Int) ∧ (i : Int) < b) ↔
      (membersBelow g GroupID ≤ i ∧ i < membersBelow (g + 1) GroupID) := by
  obtain ⟨h0, hlt⟩ := hin g (List.getElem?_mem hg)
  have e1 := memberCounts_readAt nspecies GroupID hin g h0 (by omega)
  have e2 := memberCounts_readAt nspecies GroupID hin (g + 1) (by omega) (by omega)
  constructor
  · rintro ⟨a, b, ha, hb, hai, hib⟩
    rw [e1] at ha
    rw [e2] at hb
    injection ha with ha
    injection hb with hb
    omega
  · rintro ⟨h1, h2⟩
    exact ⟨_, _, e1, e2, by omega, by omega⟩

/-- What `resetGroups` leaves for three particles with `GroupID = [1, 0, 1]`. -/
theorem resetGroups_mixedGroups :
    resetGroups Scenario.mixedGroups = Outcome.ok ()
      { Scenario.mixedGroups with
          mySpecies := { TotalNum := 2, attribs :=
            [("charge", [-1, 3]), ("mass", [1, 1]), ("membersize", [1, 2])] },
          Z := [3, -1, 3], Mass := [1, 1, 1], SameMass := true,
          SubPtcl := [0, 1, 3], IndirectID := [1, 0, 2], IsGrouped := false } := by
  decide

/-- C16, as the code behaves: `resetGroups` does not reorder the particles.
When the particles are already stored species by species (`GroupID`
non-decreasing in the particle index), every particle `i` satisfies
`SubPtcl[GroupID[i]] <= i < SubPtcl[GroupID[i] + 1]` after the call. -/
theorem resetGroups_ranges_of_sorted [Zero T] [One T] [IntCast T] [DecidableEq T]
    (P : ParticleGroups T) (hpos : 0 < P.mySpecies.TotalNum) (hs : P.Sized)
    (hin : P.GroupsInRange) (hsorted : P.GroupID.Pairwise (fun a b => a ≤ b)) :
    ∃ Q, resetGroups P = Outcome.ok () Q ∧ Q.GroupID = P.GroupID ∧
      ∀ (i : Nat) (g : Int), Q.GroupID[i]? = some g →
        ∃ a b : Int, readAt Q.SubPtcl g = some a ∧ readAt Q.SubPtcl (g + 1) = some b ∧
          a ≤ (i : Int) ∧ (i : Int) < b := by
  obtain ⟨sp, cv, mv, Z1, Mass1, sm, hrun, _⟩ := resetGroups_ok P hpos hs hin
  refine ⟨_, hrun, rfl, ?_⟩
  intro i g hg
  exact (ranges_iff P.mySpecies.TotalNum P.GroupID hin i g hg).2
    (ranges_of_sorted P.GroupID hsorted i g hg)

/-- Instance of C16 as amended: three particles with `GroupID = [0, 1, 1]`. -/
theorem resetGroups_ranges_of_sorted_witness :
    ∃ Q, resetGroups Scenario.sortedGroups = Outcome.ok () Q ∧
      Q.GroupID = Scenario.sortedGroups.GroupID ∧
      ∀ (i : Nat) (g : Int), Q.GroupID[i]? = some g →
        ∃ a b : Int, readAt Q.SubPtcl g = some a ∧ readAt Q.SubPtcl (g + 1) = some b ∧
          a ≤ (i : Int) ∧ (i : Int) < b :=
  resetGroups_ranges_of_sorted Scenario.sortedGroups (by decide)
    (by unfold ParticleGroups.Sized SpeciesSet.WellFormed; decide)
    (by unfold ParticleGroups.GroupsInRange; decide) (by decide)

/-- C16 fails as stated: with `GroupID = [1, 0, 1]` and two species,
`resetGroups` returns with `GroupID` unchanged and `SubPtcl = [0, 1, 3]`, and
particle 0, of species 1, is not in the range that starts at
`SubPtcl[1] = 1`. -/
theorem resetGroups_ranges_fail_unsorted :
    ∃ Q, resetGroups Scenario.mixedGroups = Outcome.ok () Q ∧
      Q.GroupID = [1, 0, 1] ∧ Q.SubPtcl = [0, 1, 3] ∧
      ¬ (∀ (i : Nat) (g : Int), Q.GroupID[i]? = some g →
        ∃ a b : Int, readAt Q.SubPtcl g = some a ∧ readAt Q.SubPtcl (g + 1) = some b ∧
          a ≤ (i : Int) ∧ (i : Int) < b) := by
  refine ⟨_, resetGroups_mixedGroups, rfl, rfl, ?_⟩
  intro h
  obtain ⟨a, b, ha, _, hai, _⟩ := h 0 1 (by decide)
  have h1 : readAt ([0, 1, 3] : List Int) 1 = some 1 := by decide
  have ha2 : readAt ([0, 1, 3] : List Int) 1 = some a := ha
  rw [h1] at ha2
  injection ha2 with ha2
  rw [← ha2] at hai
  exact absurd hai (by decide)

/-- C18: after `resetGroups` on a set with pairwise distinct IDs and every
`GroupID` in `[0, nspecies)`, `IsGrouped` is true exactly when `IndirectID`
equals `ID` (identity order is group order), which holds exactly when
`GroupID` is non-decreasing in the particle index, which in turn holds
exactly when every `i` satisfies
`SubPtcl[GroupID[i]] <= i < SubPtcl[GroupID[i] + 1]`. -/
theorem resetGroups_isGrouped_iff [Zero T] [One T] [IntCast T] [DecidableEq T]
    (P : ParticleGroups T) (hpos : 0 < P.mySpecies.TotalNum) (hs : P.Sized)
    (hin : P.GroupsInRange) (hnd : P.ID.Nodup) :
    ∃ Q, resetGroups P = Outcome.ok () Q ∧
      (Q.IsGrouped = true ↔ Q.IndirectID = Q.ID) ∧
      (Q.IsGrouped = true ↔ P.GroupID.Pairwise (fun a b => a ≤ b)) ∧
      (P.GroupID.Pairwise (fun a b => a ≤ b) ↔
        ∀ (i : Nat) (g : Int), P.GroupID[i]? = some g →
          ∃ a b : Int, readAt Q.SubPtcl g = some a ∧ readAt Q.SubPtcl (g + 1) = some b ∧
            a ≤ (i : Int) ∧ (i : Int) < b) := by
  obtain ⟨sp, cv, mv, Z1, Mass1, sm, hrun, _⟩ := resetGroups_ok P hpos hs hin
  have hiff := groupedIDs_eq_iff_sorted P.mySpecies.TotalNum P.GroupID P.ID hs.1 hin hnd
  refine ⟨_, hrun, ?_, ?_, ?_⟩
  · show decide (groupedIDs P.mySpecies.TotalNum P.GroupID P.ID = P.ID) = true ↔
      groupedIDs P.mySpecies.TotalNum P.GroupID P.ID = P.ID
    exact decide_eq_true_iff
  · show decide (groupedIDs P.mySpecies.TotalNum P.GroupID P.ID = P.ID) = true ↔ _
    rw [decide_eq_true_iff]
    exact hiff
  · constructor
    · intro hsorted i g hg
      exact (ranges_iff P.mySpecies.TotalNum P.GroupID hin i g hg).2
        (ranges_of_sorted P.GroupID hsorted i g hg)
    · intro h
      apply sorted_of_ranges
      intro i g hg
      exact (ranges_iff P.mySpecies.TotalNum P.GroupID hin i g hg).1 (h i g hg)

/-- Instance of C18: three particles with `ID = [0, 1, 2]` and
`GroupID = [0, 1, 1]`; `IsGrouped` is true. -/
theorem resetGroups_isGrouped_iff_witness :
    ∃ Q, resetGroups Scenario.sortedGroups = Outcome.ok () Q ∧ Q.IsGrouped = true :=
  match resetGroups_isGrouped_iff Scenario.sortedGroups (by decide)
      (by unfold ParticleGroups.Sized SpeciesSet.WellFormed; decide)
      (by unfold ParticleGroups.GroupsInRange; decide) (by decide) with
  | ⟨Q, hrun, _, hsorted, _⟩ => ⟨Q, hrun, hsorted.2 (by decide)⟩

end ParticleSet

end qmcplusplus

/-! ## The structure-of-arrays copy of the positions -/

namespace qmcplusplus

namespace ParticleSet

variable {T : Type}

/-- A state whose two position containers are the same list is in step. -/
theorem positionsInStep_of_eq (P : ParticleSet T) (h : P.RSoA = P.R) : positionsInStep P := by
  intro i r hi
  rw [h]
  exact hi

/-- Writing the same position at the same index of `R` and of `RSoA` keeps
the two containers in step. -/
theorem positionsInStep_writeAt (P Q : ParticleSet T) (iat : Int) (x : SingleParticlePos_t T)
    (hstep : positionsInStep P) (hR : writeAt P.R iat x = some Q.R)
    (hS : writeAt P.RSoA iat x = some Q.RSoA) : positionsInStep Q := by
  intro i r hi
  by_cases hii : i = iat
  · subst hii
    rw [readAt_writeAt_same _ _ _ _ hR] at hi
    rw [readAt_writeAt_same _ _ _ _ hS]
    exact hi
  · rw [readAt_writeAt_other _ _ _ _ _ hR hii] at hi
    rw [readAt_writeAt_other _ _ _ _ _ hS hii]
    exact hstep i r hi

/-- A valid index of `R` is a valid index of `RSoA` when the two are in step. -/
theorem positionsInStep_inRange (P : ParticleSet T) (iat : Int) (r : SingleParticlePos_t T)
    (hstep : positionsInStep P) (hr : readAt P.R iat = some r) :
    0 ≤ iat ∧ iat.toNat < P.R.length ∧ iat.toNat < P.RSoA.length :=
  ⟨(readAt_inRange _ _ _ hr).1, (readAt_inRange _ _ _ hr).2,
    (readAt_inRange _ _ _ (hstep iat r hr)).2⟩

/-- The proposal `makeMoveAndCheck` returns for a valid index and writes
neither `R` nor `RSoA`. -/
theorem makeMoveAndCheck_keeps_positions [Add T] (Lattice : ParticleLayout_t T)
    (P : ParticleSet T) (iat : Int) (displ r : SingleParticlePos_t T)
    (hr : readAt P.R iat = some r) :
    ∃ b P1, makeMoveAndCheck Lattice P iat displ = Outcome.ok b P1 ∧
      P1.R = P.R ∧ P1.RSoA = P.RSoA := by
  cases hbox : P.UseBoundBox with
  | false => exact ⟨_, _, makeMoveAndCheck_open Lattice P iat displ r hr hbox, rfl, rfl⟩
  | true =>
    cases hout : Lattice.outOfBound (Lattice.toUnit displ) with
    | true =>
      exact ⟨_, _, makeMoveAndCheck_outOfBound Lattice P iat displ r hr hbox hout, rfl, rfl⟩
    | false =>
      cases hval : Lattice.isValid (Lattice.toUnit (r + displ)) with
      | true =>
        exact ⟨_, _, makeMoveAndCheck_inside Lattice P iat displ r hr hbox hout hval, rfl, rfl⟩
      | false =>
        exact ⟨_, _, makeMoveAndCheck_invalid Lattice P iat displ r hr hbox hout hval, rfl, rfl⟩

/-- Outcome of `makeMoveOnSphere(iat, displ)` for a valid index. -/
theorem makeMoveOnSphere_valid [Add T] (P : ParticleSet T) (iat : Int)
    (displ r : SingleParticlePos_t T) (hr : readAt P.R iat = some r) :
    makeMoveOnSphere P iat displ = Outcome.ok ()
      { P with activePtcl := iat, activePos := r + displ,
               DistTables :=
                 P.DistTables.map (fun t => t.record (DTCall.moveOnSphere (r + displ))) } := by
  simp only [makeMoveOnSphere, hr]

/-- C28: `RSoA` stays in step with `R`. The member `copyIn` of the
container of `RSoA` is a parameter of which only this is assumed: on a
container of the size of its source it leaves the positions of the source.
`RSoA` has one entry per particle (it is sized with `TotalNum`, line 99), as
`R` has. From any such state `Q`, whatever `RSoA` holds, `update` returns
with `R` unchanged and `RSoA` equal to it, and `loadWalker` of a walker with
as many particles returns with `R` and `RSoA` equal to the walker's
positions. From such a state `P` in which `RSoA[i] = R[i]` holds for every
particle, with `iat` a particle index, `makeMoveAndCheck`,
`makeMoveOnSphere`, `rejectMove` and `donePbyP` return without writing `R` or
`RSoA`, and `acceptMove(iat)` writes `activePos` at `iat` in both when `iat`
is the active particle and otherwise aborts in the unchanged state; in every
case `RSoA[i] = R[i]` holds for every particle after the call. -/
theorem positionsInStep_preserved [Add T] (Lattice : ParticleLayout_t T)
    (copyIn : List (SingleParticlePos_t T) → List (SingleParticlePos_t T) →
      List (SingleParticlePos_t T))
    (Need_full_table_loadWalker : DistanceTableData T → Bool)
    (P Q : ParticleSet T) (iat : Int) (displ r : SingleParticlePos_t T)
    (awalker : Walker_t T) (skipSK pbyp : Bool)
    (hcopy : ∀ soa src, soa.length = src.length → copyIn soa src = src)
    (hQ : Q.RSoA.length = Q.R.length) (hW : awalker.R.length = Q.R.length)
    (hP : P.RSoA.length = P.R.length)
    (hstep : positionsInStep P) (hr : readAt P.R iat = some r) :
    (update copyIn Q skipSK = Outcome.ok ()
        { Q with RSoA := Q.R,
                 DistTables := Q.DistTables.map (fun t => t.record DTCall.evaluate),
                 activePtcl := -1 } ∧
      update copyIn P skipSK = Outcome.ok ()
        { P with RSoA := P.R,
                 DistTables := P.DistTables.map (fun t => t.record DTCall.evaluate),
                 activePtcl := -1 }) ∧
    (loadWalker copyIn Need_full_table_loadWalker Q awalker pbyp = Outcome.ok ()
        { Q with R := awalker.R, RSoA := awalker.R,
                 DistTables := Q.DistTables.map (fun t =>
                   if pbyp = true ∧ Need_full_table_loadWalker t = true then
                     t.record DTCall.evaluate else t) }) ∧
    (∃ b P1, makeMoveAndCheck Lattice P iat displ = Outcome.ok b P1 ∧
      P1.R = P.R ∧ P1.RSoA = P.RSoA ∧ positionsInStep P1) ∧
    (makeMoveOnSphere P iat displ = Outcome.ok ()
        { P with activePtcl := iat, activePos := r + displ,
                 DistTables :=
                   P.DistTables.map (fun t => t.record (DTCall.moveOnSphere (r + displ))) }) ∧
    (P.activePtcl = iat →
      acceptMove P iat = Outcome.ok ()
        { P with DistTables := P.DistTables.map (fun t => t.update iat),
                 R := P.R.set iat.toNat P.activePos,
                 RSoA := P.RSoA.set iat.toNat P.activePos,
                 activePtcl := -1 } ∧
      positionsInStep
        { P with DistTables := P.DistTables.map (fun t => t.update iat),
                 R := P.R.set iat.toNat P.activePos,
                 RSoA := P.RSoA.set iat.toNat P.activePos,
                 activePtcl := -1 }) ∧
    (P.activePtcl ≠ iat →
      acceptMove P iat = Outcome.abort (AbortMsg.illegalAcceptMove iat P.activePtcl) P) ∧
    rejectMove P iat = Outcome.ok () { P with activePtcl := -1 } ∧
    donePbyP P skipSK = Outcome.ok () { P with activePtcl := -1 } := by
  refine ⟨⟨?_, ?_⟩, ?_, ?_, ?_, ?_, ?_, rfl, rfl⟩
  · unfold update
    rw [hcopy Q.RSoA Q.R hQ]
  · unfold update
    rw [hcopy P.RSoA P.R hP]
  · unfold loadWalker
    simp only
    rw [hcopy Q.RSoA awalker.R (by rw [hQ, hW])]
    cases pbyp with
    | true => simp
    | false => simp
  · obtain ⟨b, P1, h, hR, hS⟩ := makeMoveAndCheck_keeps_positions Lattice P iat displ r hr
    refine ⟨b, P1, h, hR, hS, ?_⟩
    intro i x hi
    rw [hR] at hi
    rw [hS]
    exact hstep i x hi
  · exact makeMoveOnSphere_valid P iat displ r hr
  · intro hact
    obtain ⟨h0, hR, hS⟩ := positionsInStep_inRange P iat r hstep hr
    refine ⟨acceptMove_active P iat hact h0 hR hS, ?_⟩
    refine positionsInStep_writeAt P _ iat P.activePos hstep ?_ ?_
    · exact (writeAt_eq_some_iff _ _ _ _).2 ⟨⟨h0, hR⟩, rfl⟩
    · exact (writeAt_eq_some_iff _ _ _ _).2 ⟨⟨h0, hS⟩, rfl⟩
  · exact fun hne => acceptMove_mismatch P iat hne

end ParticleSet

end qmcplusplus

namespace qmcplusplus

namespace ParticleSet

/-- The statement of C28 at the two-particle configuration `twoOpen`, with
the out-of-step state `twoOutOfStep` for `update` and `loadWalker` and a
`copyIn` that keeps the size of the container. -/
theorem positionsInStep_preserved_witness :
    (update Scenario.copyPrefix Scenario.twoOutOfStep true = Outcome.ok ()
        { Scenario.twoOutOfStep with
            RSoA := [TinyVector.mk3 0 0 0, TinyVector.mk3 1 0 0],
            DistTables := [⟨[DTCall.evaluate]⟩, ⟨[DTCall.evaluate]⟩],
            activePtcl := -1 } ∧
      update Scenario.copyPrefix Scenario.twoOpen true = Outcome.ok ()
        { Scenario.twoOpen with
            DistTables := [⟨[DTCall.evaluate]⟩, ⟨[DTCall.evaluate]⟩] }) ∧
    (loadWalker Scenario.copyPrefix (fun _ => true) Scenario.twoOutOfStep
        (Walker_t.mk [TinyVector.mk3 4 0 0, TinyVector.mk3 5 0 0]) true = Outcome.ok ()
        { Scenario.twoOutOfStep with
            R := [TinyVector.mk3 4 0 0, TinyVector.mk3 5 0 0],
            RSoA := [TinyVector.mk3 4 0 0, TinyVector.mk3 5 0 0],
            DistTables := [⟨[DTCall.evaluate]⟩, ⟨[DTCall.evaluate]⟩] }) ∧
    (∃ b P1, makeMoveAndCheck Scenario.cell Scenario.twoOpen 1 (TinyVector.mk3 1 0 0) =
        Outcome.ok b P1 ∧ P1.R = Scenario.twoOpen.R ∧ P1.RSoA = Scenario.twoOpen.RSoA ∧
      positionsInStep P1) ∧
    (makeMoveOnSphere Scenario.twoOpen 1 (TinyVector.mk3 1 0 0) = Outcome.ok ()
        { Scenario.twoOpen with
            activePtcl := 1, activePos := TinyVector.mk3 2 0 0,
            DistTables := [⟨[DTCall.moveOnSphere (TinyVector.mk3 2 0 0)]⟩,
              ⟨[DTCall.moveOnSphere (TinyVector.mk3 2 0 0)]⟩] }) ∧
    (acceptMove Scenario.twoPending 1 = Outcome.ok ()
        { Scenario.twoPending with
            DistTables := [⟨[DTCall.update 1]⟩, ⟨[DTCall.update 1]⟩],
            R := [TinyVector.mk3 0 0 0, TinyVector.mk3 5 0 0],
            RSoA := [TinyVector.mk3 0 0 0, TinyVector.mk3 5 0 0],
            activePtcl := -1 } ∧
      positionsInStep
        { Scenario.twoPending with
            DistTables := [⟨[DTCall.update 1]⟩, ⟨[DTCall.update 1]⟩],
            R := [TinyVector.mk3 0 0 0, TinyVector.mk3 5 0 0],
            RSoA := [TinyVector.mk3 0 0 0, TinyVector.mk3 5 0 0],
            activePtcl := -1 }) ∧
    acceptMove Scenario.twoOpen 1 =
      Outcome.abort (AbortMsg.illegalAcceptMove 1 (-1)) Scenario.twoOpen ∧
    rejectMove Scenario.twoOpen 1 = Outcome.ok () Scenario.twoOpen ∧
    donePbyP Scenario.twoOpen true = Outcome.ok () Scenario.twoOpen :=
  have hcopy : ∀ soa src : List (SingleParticlePos_t Int), soa.length = src.length →
      Scenario.copyPrefix soa src = src := fun soa src h => by
    unfold Scenario.copyPrefix
    rw [List.take_of_length_le (Nat.le_of_eq h.symm), List.drop_of_length_le (Nat.le_of_eq h),
      List.append_nil]
  have hopen := positionsInStep_preserved Scenario.cell Scenario.copyPrefix (fun _ => true)
    Scenario.twoOpen Scenario.twoOutOfStep 1 (TinyVector.mk3 1 0 0) (TinyVector.mk3 1 0 0)
    (Walker_t.mk [TinyVector.mk3 4 0 0, TinyVector.mk3 5 0 0]) true true hcopy rfl rfl rfl
    (positionsInStep_of_eq _ rfl) (by decide)
  have hpend := positionsInStep_preserved Scenario.cell Scenario.copyPrefix (fun _ => true)
    Scenario.twoPending Scenario.twoOutOfStep 1 (TinyVector.mk3 1 0 0) (TinyVector.mk3 1 0 0)
    (Walker_t.mk [TinyVector.mk3 4 0 0, TinyVector.mk3 5 0 0]) true true hcopy rfl rfl rfl
    (positionsInStep_of_eq _ rfl) (by decide)
  ⟨hopen.1, hopen.2.1, hopen.2.2.1, hopen.2.2.2.1, hpend.2.2.2.2.1 rfl,
    hopen.2.2.2.2.2.1 (by decide), hopen.2.2.2.2.2.2.1, hopen.2.2.2.2.2.2.2⟩

end ParticleSet

end qmcplusplus

/-! ## Group indices outside the species table -/

namespace qmcplusplus

namespace ParticleSet

/-- C30: `resetGroups` on three particles of two species. With
`GroupID = [1, 2, 1]` the charge loop of lines 327-328 reads
`mySpecies(qind, 2)`, outside the two species, before the test of line 349 is
reached, so the call does not end in the "GroupID is out of bound" abort;
run on its own, the counting loop of lines 347-353 does reach that abort.
With `GroupID = [1, -1, 1]` the same early read is out of range, and the
counting loop on its own passes the test `GroupID[iat] < nspecies` and
accesses `ng[-1]` instead of aborting. -/
theorem resetGroups_reads_before_check :
    resetGroups Scenario.groupTooLarge = Outcome.undefined ∧
    attribOfGroups Scenario.twoSpecies 0 Scenario.groupTooLarge.GroupID 3 = none ∧
    countGroups 2 Scenario.groupTooLarge.GroupID [0, 0] = GroupCount.outOfBound ∧
    resetGroups Scenario.groupNegative = Outcome.undefined ∧
    attribOfGroups Scenario.twoSpecies 0 Scenario.groupNegative.GroupID 3 = none ∧
    countGroups 2 Scenario.groupNegative.GroupID [0, 0] = GroupCount.undefined := by
  decide

end ParticleSet

end qmcplusplus

/-! ## Group ranges set up by `create` -/

namespace qmcplusplus

namespace ParticleSet

/-- The inner loop of `create` writes `n` entries from `loc = k` on. -/
theorem fillGroup_eq (i : Int) (n k : Nat) (G : List Int) (h : k + n ≤ G.length) :
    fillGroup i n (k : Int) G =
      some (((k + n : Nat) : Int), G.take k ++ List.replicate n i ++ G.drop (k + n)) := by
  induction n generalizing k G with
  | zero => simp [fillGroup]
  | succ n ih =>
    have hk : k < G.length := by omega
    have hw : writeAt G (k : Int) i = some (G.set k i) :=
      (writeAt_eq_some_iff _ _ _ _).2 ⟨⟨by omega, by simpa using hk⟩, by simp⟩
    have hcast : ((k : Int) + 1) = ((k + 1 : Nat) : Int) := by push_cast; rfl
    simp only [fillGroup, hw]
    rw [hcast, ih (k + 1) (G.set k i) (by simp; omega)]
    have e1 : (G.set k i).take (k + 1) = G.take k ++ [i] := by
      rw [List.set_eq_take_append_cons_drop, if_pos hk, List.take_append_eq_append_take]
      have hl : (List.take k G).length = k := by simp; omega
      rw [hl, List.take_of_length_le (by omega)]
      simp
    have e2 : (G.set k i).drop (k + 1 + n) = G.drop (k + (n + 1)) := by
      rw [List.drop_set_of_lt _ _ (by omega)]
      congr 1
      omega
    rw [e1, e2]
    have e3 : k + 1 + n = k + (n + 1) := by omega
    rw [e3]
    simp [List.replicate_succ]

/-- The sum of non-negative counts is non-negative. -/
theorem sum_nonneg_of_nonneg (as : List Int) (hnn : ∀ a ∈ as, 0 ≤ a) : 0 ≤ as.sum := by
  induction as with
  | nil => simp
  | cons a as ih =>
    have h1 := hnn a (List.mem_cons_self _ _)
    have h2 := ih (fun x hx => hnn x (List.mem_cons_of_mem _ hx))
    simp only [List.sum_cons]
    omega

/-- The number of group indices written for the counts `as`. -/
theorem groupBlocks_length (i : Int) (as : List Int) (hnn : ∀ a ∈ as, 0 ≤ a) :
    ((groupBlocks i as).length : Int) = as.sum := by
  induction as generalizing i with
  | nil => simp [groupBlocks]
  | cons a as ih =>
    have h1 := hnn a (List.mem_cons_self _ _)
    have h2 := ih (i + 1) (fun x hx => hnn x (List.mem_cons_of_mem _ hx))
    simp only [groupBlocks, List.length_append, List.length_replicate, List.sum_cons]
    push_cast
    rw [h2, Int.toNat_of_nonneg h1]

/-- The outer loop of `create` writes the blocks of group indices from
`loc = k` on. -/
theorem fillGroups_eq (i : Int) (k : Nat) (as : List Int) (G : List Int)
    (hnn : ∀ a ∈ as, 0 ≤ a) (h : k + (groupBlocks i as).length ≤ G.length) :
    fillGroups i (k : Int) as G =
      some (G.take k ++ groupBlocks i as ++ G.drop (k + (groupBlocks i as).length)) := by
  induction as generalizing i k G with
  | nil => simp [fillGroups, groupBlocks]
  | cons a as ih =>
    have hnn2 : ∀ x ∈ as, 0 ≤ x := fun x hx => hnn x (List.mem_cons_of_mem _ hx)
    have hlen : (groupBlocks i (a :: as)).length =
        a.toNat + (groupBlocks (i + 1) as).length := by
      simp [groupBlocks]
    rw [hlen] at h
    have hfg := fillGroup_eq i a.toNat k G (by omega)
    simp only [fillGroups, hfg]
    rw [ih (i + 1) (k + a.toNat) _ hnn2 (by simp; omega)]
    rw [hlen]
    congr 1
    have hk : (List.take k G).length = k := by simp; omega
    have e1 : List.take (k + a.toNat)
        (List.take k G ++ List.replicate a.toNat i ++ List.drop (k + a.toNat) G) =
        List.take k G ++ List.replicate a.toNat i := by
      rw [List.take_append_eq_append_take, List.take_of_length_le (by simp)]
      simp [hk]
    have e2 : List.drop (k + a.toNat + (groupBlocks (i + 1) as).length)
        (List.take k G ++ List.replicate a.toNat i ++ List.drop (k + a.toNat) G) =
        List.drop (k + (a.toNat + (groupBlocks (i + 1) as).length)) G := by
      rw [List.drop_append_eq_append_drop, List.drop_of_length_le (by simp; omega)]
      simp only [List.length_append, List.length_replicate, hk, List.nil_append,
        List.drop_drop]
      congr 1
      omega
    rw [e1, e2]
    simp [groupBlocks, List.append_assoc]

/-- Every group index written for the groups `i, i + 1, ...` is at least `i`. -/
theorem groupBlocks_ge (i : Int) (as : List Int) : ∀ x ∈ groupBlocks i as, i ≤ x := by
  induction as generalizing i with
  | nil => simp [groupBlocks]
  | cons a as ih =>
    intro x hx
    simp only [groupBlocks, List.mem_append, List.mem_replicate] at hx
    rcases hx with ⟨_, rfl⟩ | hx
    · exact Int.le_refl _
    · have := ih (i + 1) x hx
      omega

/-- The group indices written by `create` never decrease. -/
theorem groupBlocks_sorted (i : Int) (as : List Int) :
    (groupBlocks i as).Pairwise (fun a b => a ≤ b) := by
  induction as generalizing i with
  | nil => simp [groupBlocks]
  | cons a as ih =>
    simp only [groupBlocks]
    rw [List.pairwise_append]
    refine ⟨List.pairwise_replicate.2 (Or.inr (Int.le_refl _)), ih (i + 1), ?_⟩
    intro x hx y hy
    rw [List.mem_replicate] at hx
    have := groupBlocks_ge (i + 1) as y hy
    omega

/-- The sum of the first counts is non-negative. -/
theorem sum_take_nonneg (as : List Int) (hnn : ∀ a ∈ as, 0 ≤ a) (j : Nat) :
    0 ≤ (as.take j).sum :=
  sum_nonneg_of_nonneg _ (fun x hx => hnn x (List.mem_of_mem_take hx))

/-- Position `p` of the blocks holds the group `i + j` exactly when `p` lies
between the sum of the first `j` counts and the sum of the first `j + 1`. -/
theorem groupBlocks_getElem?_iff (i : Int) (as : List Int) (hnn : ∀ a ∈ as, 0 ≤ a)
    (p j : Nat) :
    (groupBlocks i as)[p]? = some (i + (j : Int)) ↔
      j < as.length ∧ (as.take j).sum ≤ (p : Int) ∧ (p : Int) < (as.take (j + 1)).sum := by
  induction as generalizing i p j with
  | nil => simp [groupBlocks]
  | cons a as ih =>
    have ha := hnn a (List.mem_cons_self _ _)
    have hnn2 : ∀ x ∈ as, 0 ≤ x := fun x hx => hnn x (List.mem_cons_of_mem _ hx)
    simp only [groupBlocks]
    by_cases hp : p < a.toNat
    · rw [List.getElem?_append_left (by simpa using hp), List.getElem?_replicate, if_pos hp]
      cases j with
      | zero =>
        simp only [List.take_zero, List.sum_nil, List.take_succ_cons, List.sum_cons]
        constructor
        · intro _
          refine ⟨by simp, by omega, by omega⟩
        · intro _
          simp
      | succ j =>
        have hs := sum_take_nonneg as hnn2 j
        simp only [List.take_succ_cons, List.sum_cons]
        constructor
        · intro h
          injection h with h
          push_cast at h
          omega
        · rintro ⟨_, h1, _⟩
          omega
    · rw [List.getElem?_append_right (by simpa using Nat.le_of_not_lt hp)]
      simp only [List.length_replicate]
      cases j with
      | zero =>
        simp only [List.take_zero, List.sum_nil, List.take_succ_cons, List.sum_cons]
        constructor
        · intro h
          have := groupBlocks_ge (i + 1) as _ (List.getElem?_mem h)
          simp at this
        · rintro ⟨_, _, h2⟩
          omega
      | succ j =>
        have e : i + ((j + 1 : Nat) : Int) = (i + 1) + (j : Int) := by push_cast; omega
        rw [e, ih (i + 1) hnn2 (p - a.toNat) j]
        simp only [List.take_succ_cons, List.sum_cons, List.length_cons]
        have hc : ((p - a.toNat : Nat) : Int) = (p : Int) - a := by omega
        rw [hc]
        constructor
        · rintro ⟨h0, h1, h2⟩
          exact ⟨by omega, by omega, by omega⟩
        · rintro ⟨h0, h1, h2⟩
          exact ⟨by omega, by omega, by omega⟩

/-- Every group index written for `as` is below `i + as.length`. -/
theorem groupBlocks_lt (i : Int) (as : List Int) :
    ∀ x ∈ groupBlocks i as, x < i + (as.length : Int) := by
  induction as generalizing i with
  | nil => simp [groupBlocks]
  | cons a as ih =>
    intro x hx
    simp only [groupBlocks, List.mem_append, List.mem_replicate] at hx
    simp only [List.length_cons]
    push_cast
    rcases hx with ⟨_, rfl⟩ | hx
    · omega
    · have := ih (i + 1) x hx
      omega

/-- What `create(agroup)` leaves for non-negative counts, when `resize(n)`
gives `GroupID` the size `n`. -/
theorem create_eq (resize : Nat → List Int → List Int)
    (hres : ∀ n v, (resize n v).length = n) (P : ParticleRanges) (agroup : List Int)
    (hnn : ∀ a ∈ agroup, 0 ≤ a) :
    create resize P agroup = Outcome.ok ()
      { P with SubPtcl := offsets 0 agroup, TotalNum := agroup.sum,
               GroupID := groupBlocks 0 agroup } := by
  have hsum : readAt (offsets 0 agroup) (agroup.length : Int) = some agroup.sum := by
    rw [readAt_natCast, offsets_getElem? 0 agroup agroup.length (Nat.le_refl _)]
    simp
  have h0 := sum_nonneg_of_nonneg agroup hnn
  have hlen := groupBlocks_length 0 agroup hnn
  have hl : (groupBlocks 0 agroup).length = agroup.sum.toNat := by omega
  have hfill := fillGroups_eq 0 0 agroup (resize agroup.sum.toNat P.GroupID) hnn
    (by rw [hres]; omega)
  have hdrop : List.drop (0 + (groupBlocks 0 agroup).length)
      (resize agroup.sum.toNat P.GroupID) = [] := by
    apply List.drop_of_length_le
    rw [hres]
    omega
  rw [hdrop] at hfill
  simp only [List.take_zero, List.nil_append, List.append_nil, Nat.cast_zero] at hfill
  unfold create
  simp only [hsum, if_neg (not_lt.2 h0), hfill]

/-- C26: for non-negative counts `agroup`, and `resize(n)` giving `GroupID`
the size `n`, `create(agroup)` returns; `SubPtcl` has `|agroup| + 1` entries
with `SubPtcl[0] = 0` and `SubPtcl[k+1] = SubPtcl[k] + agroup[k]`, `TotalNum`
is the sum of `agroup` and the size of `GroupID`, and `GroupID[p] = k` holds
exactly when `k` is a group with `SubPtcl[k] <= p < SubPtcl[k+1]`; `GroupID`
never decreases and every particle has a group. -/
theorem create_ranges (resize : Nat → List Int → List Int)
    (hres : ∀ n v, (resize n v).length = n) (P : ParticleRanges) (agroup : List Int)
    (hnn : ∀ a ∈ agroup, 0 ≤ a) :
    ∃ Q, create resize P agroup = Outcome.ok () Q ∧
      Q.SubPtcl.length = agroup.length + 1 ∧
      readAt Q.SubPtcl 0 = some 0 ∧
      (∀ k : Nat, k < agroup.length → ∃ a g : Int, readAt Q.SubPtcl (k : Int) = some a ∧
        readAt agroup (k : Int) = some g ∧ readAt Q.SubPtcl ((k : Int) + 1) = some (a + g)) ∧
      Q.TotalNum = agroup.sum ∧
      (Q.GroupID.length : Int) = Q.TotalNum ∧
      (∀ p k : Nat, readAt Q.GroupID (p : Int) = some (k : Int) ↔
        k < agroup.length ∧ ∃ a b : Int, readAt Q.SubPtcl (k : Int) = some a ∧
          readAt Q.SubPtcl ((k : Int) + 1) = some b ∧ a ≤ (p : Int) ∧ (p : Int) < b) ∧
      Q.GroupID.Pairwise (fun a b => a ≤ b) ∧
      (∀ p : Nat, p < Q.GroupID.length →
        ∃ k : Nat, k < agroup.length ∧ readAt Q.GroupID (p : Int) = some (k : Int)) := by
  refine ⟨_, create_eq resize hres P agroup hnn, ?_, ?_, ?_, rfl, ?_, ?_, ?_, ?_⟩
  · exact offsets_length 0 agroup
  · show readAt (offsets 0 agroup) 0 = some 0
    have := offsets_getElem? 0 agroup 0 (Nat.zero_le _)
    simpa [readAt] using this
  · intro k hk
    show ∃ a g : Int, readAt (offsets 0 agroup) (k : Int) = some a ∧
      readAt agroup (k : Int) = some g ∧ readAt (offsets 0 agroup) ((k : Int) + 1) = some (a + g)
    have hc : ((k : Int) + 1) = ((k + 1 : Nat) : Int) := by push_cast; rfl
    refine ⟨0 + (agroup.take k).sum, agroup[k], ?_, ?_, ?_⟩
    · rw [readAt_natCast, offsets_getElem? 0 agroup k (Nat.le_of_lt hk)]
    · rw [readAt_natCast, List.getElem?_eq_getElem hk]
    · rw [hc, readAt_natCast, offsets_getElem? 0 agroup (k + 1) hk,
        List.sum_take_succ agroup k hk, Int.add_assoc]
  · exact groupBlocks_length 0 agroup hnn
  · intro p k
    show readAt (groupBlocks 0 agroup) (p : Int) = some (k : Int) ↔
      k < agroup.length ∧ ∃ a b : Int, readAt (offsets 0 agroup) (k : Int) = some a ∧
        readAt (offsets 0 agroup) ((k : Int) + 1) = some b ∧ a ≤ (p : Int) ∧ (p : Int) < b
    have hc : ((k : Int) + 1) = ((k + 1 : Nat) : Int) := by push_cast; rfl
    have hiff := groupBlocks_getElem?_iff 0 agroup hnn p k
    rw [Int.zero_add] at hiff
    rw [readAt_natCast, hiff, hc]
    constructor
    · rintro ⟨hk, h1, h2⟩
      refine ⟨hk, 0 + (agroup.take k).sum, 0 + (agroup.take (k + 1)).sum, ?_, ?_, ?_, ?_⟩
      · rw [readAt_natCast, offsets_getElem? 0 agroup k (Nat.le_of_lt hk)]
      · rw [readAt_natCast, offsets_getElem? 0 agroup (k + 1) hk]
      · omega
      · omega
    · rintro ⟨hk, a, b, ha, hb, h1, h2⟩
      rw [readAt_natCast, offsets_getElem? 0 agroup k (Nat.le_of_lt hk)] at ha
      rw [readAt_natCast, offsets_getElem? 0 agroup (k + 1) hk] at hb
      injection ha with ha
      injection hb with hb
      exact ⟨hk, by omega, by omega⟩
  · exact groupBlocks_sorted 0 agroup
  · intro p hp
    show ∃ k : Nat, k < agroup.length ∧ readAt (groupBlocks 0 agroup) (p : Int) = some (k : Int)
    have hp2 : p < (groupBlocks 0 agroup).length := hp
    have hmem : (groupBlocks 0 agroup)[p] ∈ groupBlocks 0 agroup := List.getElem_mem _
    have h1 := groupBlocks_ge 0 agroup _ hmem
    have h2 := groupBlocks_lt 0 agroup _ hmem
    refine ⟨((groupBlocks 0 agroup)[p]).toNat, by omega, ?_⟩
    rw [readAt_natCast, List.getElem?_eq_getElem hp2, Int.toNat_of_nonneg h1]

/-- The statement of C26 for the counts `[2, 0, 1]`, with a `resize` that
keeps the old entries and appends zeros. -/
theorem create_ranges_witness :
    (∀ a ∈ [(2 : Int), 0, 1], 0 ≤ a) ∧
    ∃ Q, create (fun n v => v.take n ++ List.replicate (n - v.length) 0)
        (ParticleRanges.mk 0 [] [7]) [2, 0, 1] = Outcome.ok () Q ∧
      Q.SubPtcl.length = [(2 : Int), 0, 1].length + 1 ∧
      readAt Q.SubPtcl 0 = some 0 ∧
      (∀ k : Nat, k < [(2 : Int), 0, 1].length → ∃ a g : Int,
        readAt Q.SubPtcl (k : Int) = some a ∧
        readAt [(2 : Int), 0, 1] (k : Int) = some g ∧
        readAt Q.SubPtcl ((k : Int) + 1) = some (a + g)) ∧
      Q.TotalNum = [(2 : Int), 0, 1].sum ∧
      (Q.GroupID.length : Int) = Q.TotalNum ∧
      (∀ p k : Nat, readAt Q.GroupID (p : Int) = some (k : Int) ↔
        k < [(2 : Int), 0, 1].length ∧ ∃ a b : Int, readAt Q.SubPtcl (k : Int) = some a ∧
          readAt Q.SubPtcl ((k : Int) + 1) = some b ∧ a ≤ (p : Int) ∧ (p : Int) < b) ∧
      Q.GroupID.Pairwise (fun a b => a ≤ b) ∧
      (∀ p : Nat, p < Q.GroupID.length →
        ∃ k : Nat, k < [(2 : Int), 0, 1].length ∧
          readAt Q.GroupID (p : Int) = some (k : Int)) :=
  ⟨by decide,
    create_ranges (fun n v => v.take n ++ List.replicate (n - v.length) 0)
      (fun n v => by simp; omega) (ParticleRanges.mk 0 [] [7]) [2, 0, 1] (by decide)⟩

end ParticleSet

end qmcplusplus

/-! ## The flat work-item indices of the batched Jastrow kernels -/

namespace qmcplusplus

/-- The three-way work item of a non-negative flat index, in terms of the
quotients and remainders of the index. -/
theorem evalRatioItem_eq (W K idx : Int) (hW : 0 < W) (hK : 0 < K) (h0 : 0 ≤ idx) :
    evalRatioItem W K idx = (idx / W / K, (idx / W) % K, idx % W) := by
  have hq : W * (idx / W) + idx % W = idx := Int.ediv_add_emod idx W
  have hw0 : 0 ≤ idx % W := Int.emod_nonneg idx (ne_of_gt hW)
  have hw1 : idx % W < W := Int.emod_lt_of_pos idx hW
  have hq0 : 0 ≤ idx / W := Int.ediv_nonneg h0 (le_of_lt hW)
  have hq2 : K * (idx / W / K) + (idx / W) % K = idx / W := Int.ediv_add_emod (idx / W) K
  have hk0 : 0 ≤ (idx / W) % K := Int.emod_nonneg _ (ne_of_gt hK)
  have hrest : idx - idx / W / K * W * K = idx % W + (idx / W) % K * W := by
    linear_combination (-1 : Int) * hq - W * hq2
  have hrest0 : 0 ≤ idx % W + (idx / W) % K * W :=
    Int.add_nonneg hw0 (Int.mul_nonneg hk0 (le_of_lt hW))
  have hknot : (idx % W + (idx / W) % K * W) / W = (idx / W) % K := by
    rw [Int.add_mul_ediv_right _ _ (ne_of_gt hW), Int.ediv_eq_zero_of_lt hw0 hw1,
      Int.zero_add]
  unfold evalRatioItem
  simp only
  rw [Int.tdiv_eq_ediv h0 (le_of_lt hW), Int.tdiv_eq_ediv hq0 (le_of_lt hK), hrest,
    Int.tdiv_eq_ediv hrest0 (le_of_lt hW), hknot]
  congr 2
  omega

/-- The two-way work item of a non-negative flat index. -/
theorem ratioGradItem_eq (E idx : Int) (hE : 0 < E) (h0 : 0 ≤ idx) :
    ratioGradItem E idx = (idx / E, idx % E) := by
  unfold ratioGradItem
  rw [Int.tdiv_eq_ediv h0 (le_of_lt hE), Int.tmod_eq_emod h0 (le_of_lt hE)]

/-- A flat index below `W * K * E` gives a work item within the three
ranges, and is recovered from it. -/
theorem evalRatioItem_inRange (W K E idx : Int) (hW : 0 < W) (hK : 0 < K)
    (h0 : 0 ≤ idx) (hlt : idx < W * K * E) :
    (0 ≤ (evalRatioItem W K idx).1 ∧ (evalRatioItem W K idx).1 < E) ∧
    (0 ≤ (evalRatioItem W K idx).2.1 ∧ (evalRatioItem W K idx).2.1 < K) ∧
    (0 ≤ (evalRatioItem W K idx).2.2 ∧ (evalRatioItem W K idx).2.2 < W) ∧
    idx = (evalRatioItem W K idx).1 * W * K + (evalRatioItem W K idx).2.1 * W +
      (evalRatioItem W K idx).2.2 := by
  rw [evalRatioItem_eq W K idx hW hK h0]
  have hq : W * (idx / W) + idx % W = idx := Int.ediv_add_emod idx W
  have hq0 : 0 ≤ idx / W := Int.ediv_nonneg h0 (le_of_lt hW)
  have hq2 : K * (idx / W / K) + (idx / W) % K = idx / W := Int.ediv_add_emod (idx / W) K
  have h1 : idx / W < K * E := by
    apply Int.ediv_lt_of_lt_mul hW
    calc idx < W * K * E := hlt
      _ = K * E * W := by ring
  have h2 : idx / W / K < E := by
    apply Int.ediv_lt_of_lt_mul hK
    calc idx / W < K * E := h1
      _ = E * K := by ring
  refine ⟨⟨Int.ediv_nonneg hq0 (le_of_lt hK), h2⟩,
    ⟨Int.emod_nonneg _ (ne_of_gt hK), Int.emod_lt_of_pos _ hK⟩,
    ⟨Int.emod_nonneg _ (ne_of_gt hW), Int.emod_lt_of_pos _ hW⟩, ?_⟩
  show idx = idx / W / K * W * K + (idx / W) % K * W + idx % W
  linear_combination (-1 : Int) * hq - W * hq2

/-- The flat index `e * W * K + k * W + w` of a work item within the three
ranges lies below `W * K * E` and gives that work item back. -/
theorem evalRatioItem_flat (W K E e k w : Int) (hW : 0 < W) (hK : 0 < K)
    (he : 0 ≤ e ∧ e < E) (hk : 0 ≤ k ∧ k < K) (hw : 0 ≤ w ∧ w < W) :
    (0 ≤ e * W * K + k * W + w ∧ e * W * K + k * W + w < W * K * E) ∧
    evalRatioItem W K (e * W * K + k * W + w) = (e, k, w) := by
  have hkW : 0 ≤ k * W := Int.mul_nonneg hk.1 (le_of_lt hW)
  have heWK : 0 ≤ e * W * K :=
    Int.mul_nonneg (Int.mul_nonneg he.1 (le_of_lt hW)) (le_of_lt hK)
  have h0 : 0 ≤ e * W * K + k * W + w := by omega
  have hlt : e * W * K + k * W + w < W * K * E := by
    have a1 : k * W + w < K * W := by nlinarith
    have a2 : (e + 1) * (W * K) ≤ E * (W * K) :=
      Int.mul_le_mul_of_nonneg_right (by omega) (le_of_lt (Int.mul_pos hW hK))
    nlinarith
  refine ⟨⟨h0, hlt⟩, ?_⟩
  rw [evalRatioItem_eq W K _ hW hK h0]
  have hdiv : (e * W * K + k * W + w) / W = e * K + k := by
    have : e * W * K + k * W + w = w + (e * K + k) * W := by ring
    rw [this, Int.add_mul_ediv_right _ _ (ne_of_gt hW), Int.ediv_eq_zero_of_lt hw.1 hw.2,
      Int.zero_add]
  have hmod : (e * W * K + k * W + w) % W = w := by
    have : e * W * K + k * W + w = w + (e * K + k) * W := by ring
    rw [this, Int.add_mul_emod_self, Int.emod_eq_of_lt hw.1 hw.2]
  have hdiv2 : (e * K + k) / K = e := by
    have : e * K + k = k + e * K := by ring
    rw [this, Int.add_mul_ediv_right _ _ (ne_of_gt hK), Int.ediv_eq_zero_of_lt hk.1 hk.2,
      Int.zero_add]
  have hmod2 : (e * K + k) % K = k := by
    have : e * K + k = k + e * K := by ring
    rw [this, Int.add_mul_emod_self, Int.emod_eq_of_lt hk.1 hk.2]
  rw [hdiv, hmod, hdiv2, hmod2]

/-- A flat index below `W * E` gives a work item within the two ranges, and
is recovered from it. -/
theorem ratioGradItem_inRange (W E idx : Int) (hE : 0 < E) (h0 : 0 ≤ idx)
    (hlt : idx < W * E) :
    (0 ≤ (ratioGradItem E idx).1 ∧ (ratioGradItem E idx).1 < W) ∧
    (0 ≤ (ratioGradItem E idx).2 ∧ (ratioGradItem E idx).2 < E) ∧
    idx = (ratioGradItem E idx).1 * E + (ratioGradItem E idx).2 := by
  rw [ratioGradItem_eq E idx hE h0]
  have hq : E * (idx / E) + idx % E = idx := Int.ediv_add_emod idx E
  refine ⟨⟨Int.ediv_nonneg h0 (le_of_lt hE), Int.ediv_lt_of_lt_mul hE hlt⟩,
    ⟨Int.emod_nonneg _ (ne_of_gt hE), Int.emod_lt_of_pos _ hE⟩, ?_⟩
  show idx = idx / E * E + idx % E
  linear_combination (-1 : Int) * hq

/-- The flat index `i * E + el` of a work item within the two ranges lies
below `W * E` and gives that work item back. -/
theorem ratioGradItem_flat (W E i el : Int) (hE : 0 < E)
    (hi : 0 ≤ i ∧ i < W) (hel : 0 ≤ el ∧ el < E) :
    (0 ≤ i * E + el ∧ i * E + el < W * E) ∧ ratioGradItem E (i * E + el) = (i, el) := by
  have hiE : 0 ≤ i * E := Int.mul_nonneg hi.1 (le_of_lt hE)
  have h0 : 0 ≤ i * E + el := by omega
  have hlt : i * E + el < W * E := by
    have a2 : (i + 1) * E ≤ W * E := Int.mul_le_mul_of_nonneg_right (by omega) (le_of_lt hE)
    nlinarith
  refine ⟨⟨h0, hlt⟩, ?_⟩
  rw [ratioGradItem_eq E _ hE h0]
  have hdiv : (i * E + el) / E = i := by
    have : i * E + el = el + i * E := by ring
    rw [this, Int.add_mul_ediv_right _ _ (ne_of_gt hE), Int.ediv_eq_zero_of_lt hel.1 hel.2,
      Int.zero_add]
  have hmod : (i * E + el) % E = el := by
    have : i * E + el = el + i * E := by ring
    rw [this, Int.add_mul_emod_self, Int.emod_eq_of_lt hel.1 hel.2]
  rw [hdiv, hmod]

/-- C23: for positive `W`, `K`, `E` the decomposition of
`doTwoBodyJastrowMultiEvalRatio` is a bijection from the flat indices
`[0, W*K*E)` onto the work items `[0,E) x [0,K) x [0,W)`, with
`idx = workingElecNum*W*K + knotNum*W + walkerIdx`; and `(idx / E, idx % E)`
of `doTwoBodyJastrowMultiRatioGrad` is a bijection from `[0, W*E)` onto
`[0,W) x [0,E)`, with `idx = walkerIdx*E + workingElNum`. -/
theorem workItems_bijective (W K E : Int) (hW : 0 < W) (hK : 0 < K) (hE : 0 < E) :
    (Set.BijOn (evalRatioItem W K) (Set.Ico 0 (W * K * E))
        {t | (0 ≤ t.1 ∧ t.1 < E) ∧ (0 ≤ t.2.1 ∧ t.2.1 < K) ∧ (0 ≤ t.2.2 ∧ t.2.2 < W)} ∧
      ∀ idx ∈ Set.Ico 0 (W * K * E),
        idx = (evalRatioItem W K idx).1 * W * K + (evalRatioItem W K idx).2.1 * W +
          (evalRatioItem W K idx).2.2) ∧
    (Set.BijOn (ratioGradItem E) (Set.Ico 0 (W * E))
        {t | (0 ≤ t.1 ∧ t.1 < W) ∧ (0 ≤ t.2 ∧ t.2 < E)} ∧
      ∀ idx ∈ Set.Ico 0 (W * E),
        idx = (ratioGradItem E idx).1 * E + (ratioGradItem E idx).2) := by
  refine ⟨⟨⟨?_, ?_, ?_⟩, ?_⟩, ⟨⟨?_, ?_, ?_⟩, ?_⟩⟩
  · intro idx hidx
    obtain ⟨h1, h2, h3, _⟩ := evalRatioItem_inRange W K E idx hW hK hidx.1 hidx.2
    exact ⟨h1, h2, h3⟩
  · intro a ha b hb hab
    have e1 := (evalRatioItem_inRange W K E a hW hK ha.1 ha.2).2.2.2
    have e2 := (evalRatioItem_inRange W K E b hW hK hb.1 hb.2).2.2.2
    rw [e1, e2, hab]
  · rintro ⟨e, k, w⟩ ⟨he, hk, hw⟩
    obtain ⟨hr, hi⟩ := evalRatioItem_flat W K E e k w hW hK he hk hw
    exact ⟨e * W * K + k * W + w, hr, hi⟩
  · intro idx hidx
    exact (evalRatioItem_inRange W K E idx hW hK hidx.1 hidx.2).2.2.2
  · intro idx hidx
    obtain ⟨h1, h2, _⟩ := ratioGradItem_inRange W E idx hE hidx.1 hidx.2
    exact ⟨h1, h2⟩
  · intro a ha b hb hab
    have e1 := (ratioGradItem_inRange W E a hE ha.1 ha.2).2.2
    have e2 := (ratioGradItem_inRange W E b hE hb.1 hb.2).2.2
    rw [e1, e2, hab]
  · rintro ⟨i, el⟩ ⟨hi, hel⟩
    obtain ⟨hr, hitem⟩ := ratioGradItem_flat W E i el hE hi hel
    exact ⟨i * E + el, hr, hitem⟩
  · intro idx hidx
    exact (ratioGradItem_inRange W E idx hE hidx.1 hidx.2).2.2

/-- The statement of C23 for two walkers, three knots and two electrons;
the flat index 7 of the twelve is the work item (electron 1, knot 0,
walker 1). -/
theorem workItems_bijective_witness :
    evalRatioItem 2 3 7 = (1, 0, 1) ∧ ratioGradItem 2 3 = (1, 1) ∧
    (Set.BijOn (evalRatioItem 2 3) (Set.Ico 0 (2 * 3 * 2))
        {t | (0 ≤ t.1 ∧ t.1 < 2) ∧ (0 ≤ t.2.1 ∧ t.2.1 < 3) ∧ (0 ≤ t.2.2 ∧ t.2.2 < 2)} ∧
      ∀ idx ∈ Set.Ico 0 ((2 : Int) * 3 * 2),
        idx = (evalRatioItem 2 3 idx).1 * 2 * 3 + (evalRatioItem 2 3 idx).2.1 * 2 +
          (evalRatioItem 2 3 idx).2.2) ∧
    (Set.BijOn (ratioGradItem 2) (Set.Ico 0 (2 * 2))
        {t | (0 ≤ t.1 ∧ t.1 < 2) ∧ (0 ≤ t.2 ∧ t.2 < 2)} ∧
      ∀ idx ∈ Set.Ico 0 ((2 : Int) * 2),
        idx = (ratioGradItem 2 idx).1 * 2 + (ratioGradItem 2 idx).2) :=
  ⟨by decide, by decide, workItems_bijective 2 3 2 (by decide) (by decide) (by decide)⟩

end qmcplusplus

/-! ## Pair slots written by `addFunc` -/

namespace qmcplusplus

namespace TwoBodyJastrow

/-- C27: `addFunc(0, 1, f)` for four electrons in two groups, on the factor
as `initializeJastrowKokkos` leaves it. The pair slot `0*2 + 1 = 1` receives
the cutoff radius 5, `DeltaRInv` 2 and the coefficients of `f`; the pair slot
`1*2 + 0 = 2` of the other ordering is not written and keeps its zeros. After
`addFunc(0, 0, g)` the slot 2 holds the values of the like-spin functor `g`,
and `addFunc(0, 1, f)` leaves them there. -/
theorem addFunc_one_ordering :
    (∀ hostMirror : Bool, ∃ J1, addFunc hostMirror Scenario.jastrowFresh 0 1
        Scenario.unlikeFunc = some J1 ∧
      readAt J1.jasData.cutoff_radius 1 = some 5 ∧ readAt J1.jasData.DeltaRInv 1 = some 2 ∧
      readAt J1.jasData.SplineCoefs 1 = some [1, 2, 3] ∧
      readAt J1.jasData.cutoff_radius 2 = some 0 ∧ readAt J1.jasData.DeltaRInv 2 = some 0 ∧
      readAt J1.jasData.SplineCoefs 2 = some [0, 0, 0]) ∧
    (∃ J1 J2, addFunc false Scenario.jastrowFresh 0 0 Scenario.likeFunc = some J1 ∧
      addFunc false J1 0 1 Scenario.unlikeFunc = some J2 ∧
      readAt J2.jasData.cutoff_radius 1 = some 5 ∧ readAt J2.jasData.DeltaRInv 1 = some 2 ∧
      readAt J2.jasData.SplineCoefs 1 = some [1, 2, 3] ∧
      readAt J2.jasData.cutoff_radius 2 = some 4 ∧ readAt J2.jasData.DeltaRInv 2 = some 3 ∧
      readAt J2.jasData.SplineCoefs 2 = some [7, 8, 9]) := by
  refine ⟨?_, ?_⟩
  · intro hostMirror
    refine ⟨_, rfl, ?_⟩
    decide
  · refine ⟨_, _, rfl, rfl, ?_⟩
    decide

end TwoBodyJastrow

end qmcplusplus

/-! ## The B-spline coefficient tables -/

namespace qmcplusplus

namespace TwoBodyJastrow

open Polynomial

/-- The table `A` of lines 651-654 as fractions in lowest terms. -/
theorem initializeJastrowKokkos_A (J : TwoBodyJastrow ℚ) :
    (initializeJastrowKokkos J).jasData.A =
      [-1/6, 1/2, -1/2, 1/6, 1/2, -1, 0, 2/3, -1/2, 1/2, 1/2, 1/6, 1/6, 0, 0, 0] := by
  norm_num [initializeJastrowKokkos]

/-- The table `dA` of lines 655-658 as fractions in lowest terms. -/
theorem initializeJastrowKokkos_dA (J : TwoBodyJastrow ℚ) :
    (initializeJastrowKokkos J).jasData.dA =
      [0, -1/2, 1, -1/2, 0, 3/2, -2, 0, 0, -3/2, 1, 1/2, 0, 1/2, 0, 0] := by
  norm_num [initializeJastrowKokkos]

/-- The table `d2A` of lines 659-662. -/
theorem initializeJastrowKokkos_d2A (J : TwoBodyJastrow ℚ) :
    (initializeJastrowKokkos J).jasData.d2A =
      [0, 0, -1, 1, 0, 0, 3, -2, 0, 0, -3, 1, 0, 0, 1, 0] := by
  norm_num [initializeJastrowKokkos]

/-- The sum of four cubic rows has the sums of their coefficients. -/
theorem sum_four_rows (a0 b0 c0 d0 a1 b1 c1 d1 a2 b2 c2 d2 a3 b3 c3 d3 : ℚ) :
    (C a0 * X ^ 3 + C b0 * X ^ 2 + C c0 * X + C d0) +
      (C a1 * X ^ 3 + C b1 * X ^ 2 + C c1 * X + C d1) +
      (C a2 * X ^ 3 + C b2 * X ^ 2 + C c2 * X + C d2) +
      (C a3 * X ^ 3 + C b3 * X ^ 2 + C c3 * X + C d3) =
    C (a0 + a1 + a2 + a3) * X ^ 3 + C (b0 + b1 + b2 + b3) * X ^ 2 +
      C (c0 + c1 + c2 + c3) * X + C (d0 + d1 + d2 + d3) := by
  simp only [C_add]
  ring

/-- C29: in the Jastrow data `jd` left by `initializeJastrowKokkos`, over the
rationals, the tables `A`, `dA` and `d2A` have sixteen entries each; reading
row `r` of a table as the polynomial with the coefficients `tbl[4r]`,
`tbl[4r+1]`, `tbl[4r+2]`, `tbl[4r+3]` of `t^3`, `t^2`, `t`, `1`, row `r` of
`dA` is the derivative of row `r` of `A` and row `r` of `d2A` is the
derivative of row `r` of `dA`; the four rows of `A` sum to the constant 1,
those of `dA` and of `d2A` to the zero polynomial. -/
theorem bspline_tables_consistent (J : TwoBodyJastrow ℚ) (jd : TwoBodyJastrowKokkos ℚ)
    (hjd : jd = (initializeJastrowKokkos J).jasData) :
    (jd.A.length = 16 ∧ jd.dA.length = 16 ∧ jd.d2A.length = 16) ∧
    (∀ r : Nat, r < 4 →
      derivative (C (tableEntry jd.A r 0) * X ^ 3 + C (tableEntry jd.A r 1) * X ^ 2 +
          C (tableEntry jd.A r 2) * X + C (tableEntry jd.A r 3)) =
        C (tableEntry jd.dA r 0) * X ^ 3 + C (tableEntry jd.dA r 1) * X ^ 2 +
          C (tableEntry jd.dA r 2) * X + C (tableEntry jd.dA r 3) ∧
      derivative (C (tableEntry jd.dA r 0) * X ^ 3 + C (tableEntry jd.dA r 1) * X ^ 2 +
          C (tableEntry jd.dA r 2) * X + C (tableEntry jd.dA r 3)) =
        C (tableEntry jd.d2A r 0) * X ^ 3 + C (tableEntry jd.d2A r 1) * X ^ 2 +
          C (tableEntry jd.d2A r 2) * X + C (tableEntry jd.d2A r 3)) ∧
    (∑ r ∈ Finset.range 4,
        (C (tableEntry jd.A r 0) * X ^ 3 + C (tableEntry jd.A r 1) * X ^ 2 +
          C (tableEntry jd.A r 2) * X + C (tableEntry jd.A r 3)) = (1 : Polynomial ℚ)) ∧
    (∑ r ∈ Finset.range 4,
        (C (tableEntry jd.dA r 0) * X ^ 3 + C (tableEntry jd.dA r 1) * X ^ 2 +
          C (tableEntry jd.dA r 2) * X + C (tableEntry jd.dA r 3)) = (0 : Polynomial ℚ)) ∧
    (∑ r ∈ Finset.range 4,
        (C (tableEntry jd.d2A r 0) * X ^ 3 + C (tableEntry jd.d2A r 1) * X ^ 2 +
          C (tableEntry jd.d2A r 2) * X + C (tableEntry jd.d2A r 3)) = (0 : Polynomial ℚ)) := by
  subst hjd
  rw [initializeJastrowKokkos_A, initializeJastrowKokkos_dA, initializeJastrowKokkos_d2A]
  refine ⟨⟨rfl, rfl, rfl⟩, ?_, ?_, ?_, ?_⟩
  · intro r hr
    interval_cases r <;>
      simp only [tableEntry, List.getD_cons_zero, List.getD_cons_succ, derivative_add,
        derivative_mul, derivative_C, derivative_X_pow, derivative_X, derivative_X_sq] <;>
      simp <;> simp only [← mul_assoc, ← C_mul] <;> norm_num
  · simp only [Finset.sum_range_succ, Finset.sum_range_zero, tableEntry,
      List.getD_cons_zero, List.getD_cons_succ, zero_add]
    rw [sum_four_rows]
    norm_num
  · simp only [Finset.sum_range_succ, Finset.sum_range_zero, tableEntry,
      List.getD_cons_zero, List.getD_cons_succ, zero_add]
    rw [sum_four_rows]
    norm_num
  · simp only [Finset.sum_range_succ, Finset.sum_range_zero, tableEntry,
      List.getD_cons_zero, List.getD_cons_succ, zero_add]
    rw [sum_four_rows]
    norm_num

end TwoBodyJastrow

end qmcplusplus

namespace qmcplusplus

namespace TwoBodyJastrow

open Polynomial

/-- The statement of C29 for the Jastrow factor of four electrons in two
groups. -/
theorem bspline_tables_consistent_witness :
    Scenario.jastrowFresh.jasData = (initializeJastrowKokkos Scenario.jastrowBlank).jasData ∧
    ((Scenario.jastrowFresh.jasData.A.length = 16 ∧
      Scenario.jastrowFresh.jasData.dA.length = 16 ∧
      Scenario.jastrowFresh.jasData.d2A.length = 16) ∧
    (∀ r : Nat, r < 4 →
      derivative (C (tableEntry Scenario.jastrowFresh.jasData.A r 0) * X ^ 3 +
          C (tableEntry Scenario.jastrowFresh.jasData.A r 1) * X ^ 2 +
          C (tableEntry Scenario.jastrowFresh.jasData.A r 2) * X +
          C (tableEntry Scenario.jastrowFresh.jasData.A r 3)) =
        C (tableEntry Scenario.jastrowFresh.jasData.dA r 0) * X ^ 3 +
          C (tableEntry Scenario.jastrowFresh.jasData.dA r 1) * X ^ 2 +
          C (tableEntry Scenario.jastrowFresh.jasData.dA r 2) * X +
          C (tableEntry Scenario.jastrowFresh.jasData.dA r 3) ∧
      derivative (C (tableEntry Scenario.jastrowFresh.jasData.dA r 0) * X ^ 3 +
          C (tableEntry Scenario.jastrowFresh.jasData.dA r 1) * X ^ 2 +
          C (tableEntry Scenario.jastrowFresh.jasData.dA r 2) * X +
          C (tableEntry Scenario.jastrowFresh.jasData.dA r 3)) =
        C (tableEntry Scenario.jastrowFresh.jasData.d2A r 0) * X ^ 3 +
          C (tableEntry Scenario.jastrowFresh.jasData.d2A r 1) * X ^ 2 +
          C (tableEntry Scenario.jastrowFresh.jasData.d2A r 2) * X +
          C (tableEntry Scenario.jastrowFresh.jasData.d2A r 3)) ∧
    (∑ r ∈ Finset.range 4,
        (C (tableEntry Scenario.jastrowFresh.jasData.A r 0) * X ^ 3 +
          C (tableEntry Scenario.jastrowFresh.jasData.A r 1) * X ^ 2 +
          C (tableEntry Scenario.jastrowFresh.jasData.A r 2) * X +
          C (tableEntry Scenario.jastrowFresh.jasData.A r 3)) = (1 : Polynomial ℚ)) ∧
    (∑ r ∈ Finset.range 4,
        (C (tableEntry Scenario.jastrowFresh.jasData.dA r 0) * X ^ 3 +
          C (tableEntry Scenario.jastrowFresh.jasData.dA r 1) * X ^ 2 +
          C (tableEntry Scenario.jastrowFresh.jasData.dA r 2) * X +
          C (tableEntry Scenario.jastrowFresh.jasData.dA r 3)) = (0 : Polynomial ℚ)) ∧
    (∑ r ∈ Finset.range 4,
        (C (tableEntry Scenario.jastrowFresh.jasData.d2A r 0) * X ^ 3 +
          C (tableEntry Scenario.jastrowFresh.jasData.d2A r 1) * X ^ 2 +
          C (tableEntry Scenario.jastrowFresh.jasData.d2A r 2) * X +
          C (tableEntry Scenario.jastrowFresh.jasData.d2A r 3)) = (0 : Polynomial ℚ))) :=
  ⟨rfl, bspline_tables_consistent Scenario.jastrowBlank Scenario.jastrowFresh.jasData rfl⟩

end TwoBodyJastrow

end qmcplusplus

/-! ## The gather step of the accepted walkers -/

namespace qmcplusplus

namespace TwoBodyJastrow

variable {T : Type}

/-- The first `k + 1` entries after a write at `k`. -/
theorem take_succ_set {α : Type} (v : List α) (k : Nat) (x : α) (hk : k < v.length) :
    (v.set k x).take (k + 1) = v.take k ++ [x] := by
  rw [List.set_eq_take_append_cons_drop, if_pos hk, List.take_append_eq_append_take]
  have hl : (List.take k v).length = k := by simp; omega
  rw [hl, List.take_of_length_le (by omega)]
  simp

/-- The entries from `m > k` on are not changed by a write at `k`. -/
theorem drop_set_succ {α : Type} (v : List α) (k m : Nat) (x : α) (hm : k < m) :
    (v.set k x).drop m = v.drop m :=
  List.drop_set_of_lt _ _ hm

/-- The accepted items of a list whose first flag is true. -/
theorem acceptedOf_cons_true {α : Type} (x : α) (xs : List α) (fs : List Bool) :
    acceptedOf (x :: xs) (true :: fs) = x :: acceptedOf xs fs := by
  simp [acceptedOf]

/-- The accepted items of a list whose first flag is false. -/
theorem acceptedOf_cons_false {α : Type} (x : α) (xs : List α) (fs : List Bool) :
    acceptedOf (x :: xs) (false :: fs) = acceptedOf xs fs := by
  simp [acceptedOf]

/-- As many items are accepted as there are true flags. -/
theorem acceptedOf_length {α : Type} (xs : List α) (fs : List Bool)
    (h : xs.length = fs.length) : (acceptedOf xs fs).length = fs.count true := by
  induction xs generalizing fs with
  | nil =>
    cases fs with
    | nil => simp [acceptedOf]
    | cons f fs => simp at h
  | cons x xs ih =>
    cases fs with
    | nil => simp at h
    | cons f fs =>
      have h2 : xs.length = fs.length := by simpa using h
      cases f with
      | true => simp [acceptedOf_cons_true, ih fs h2]
      | false => simp [acceptedOf_cons_false, ih fs h2]

/-- The loop of the gather step, started at the slot `n`: the slots below
`n` are kept, the accepted walkers follow in order, and the slots after them
are kept. -/
theorem gatherAccepted_eq (n : Nat) (wfcs : List (TwoBodyJastrow T)) (ps : List (pskType T))
    (flags : List Bool) (mj : List (TwoBodyJastrowKokkos T)) (mp : List (pskType T))
    (hW : wfcs.length = flags.length) (hP : ps.length = flags.length)
    (hj : n + flags.count true ≤ mj.length) (hp : n + flags.count true ≤ mp.length) :
    gatherAccepted (n : Int) wfcs ps flags (mj, mp) =
      some (mj.take n ++ acceptedOf (wfcs.map (fun w => w.jasData)) flags ++
              mj.drop (n + flags.count true),
            mp.take n ++ acceptedOf ps flags ++ mp.drop (n + flags.count true)) := by
  induction wfcs generalizing n ps flags mj mp with
  | nil =>
    cases flags with
    | nil =>
      cases ps with
      | nil => simp [gatherAccepted, acceptedOf]
      | cons p ps => simp at hP
    | cons f fs => simp at hW
  | cons w ws ih =>
    cases flags with
    | nil => simp at hW
    | cons f fs =>
      cases ps with
      | nil => simp at hP
      | cons p ps =>
        have hW2 : ws.length = fs.length := by simpa using hW
        have hP2 : ps.length = fs.length := by simpa using hP
        cases f with
        | false =>
          have hc : (false :: fs).count true = fs.count true := by simp
          rw [hc] at hj hp ⊢
          simp only [gatherAccepted, List.tail_cons, List.map_cons, acceptedOf_cons_false]
          exact ih n ps fs mj mp hW2 hP2 hj hp
        | true =>
          have hc : (true :: fs).count true = fs.count true + 1 := by simp
          rw [hc] at hj hp ⊢
          have hnj : n < mj.length := by omega
          have hnp : n < mp.length := by omega
          have hwj : writeAt mj (n : Int) w.jasData = some (mj.set n w.jasData) :=
            (writeAt_eq_some_iff _ _ _ _).2 ⟨⟨by omega, by simpa using hnj⟩, by simp⟩
          have hwp : writeAt mp (n : Int) p = some (mp.set n p) :=
            (writeAt_eq_some_iff _ _ _ _).2 ⟨⟨by omega, by simpa using hnp⟩, by simp⟩
          have hcast : ((n : Int) + 1) = ((n + 1 : Nat) : Int) := by push_cast; rfl
          simp only [gatherAccepted, hwj, hwp, List.tail_cons, List.map_cons,
            acceptedOf_cons_true, if_true]
          rw [hcast, ih (n + 1) ps fs (mj.set n w.jasData) (mp.set n p) hW2 hP2
            (by simp; omega) (by simp; omega)]
          rw [take_succ_set mj n _ hnj, take_succ_set mp n _ hnp,
            drop_set_succ mj n _ _ (by omega), drop_set_succ mp n _ _ (by omega)]
          have e : n + 1 + fs.count true = n + (fs.count true + 1) := by omega
          rw [e]
          simp [List.append_assoc]

/-- C24 fails where the mirror is a new view: three walkers with the flags
true, false, true and views of three slots in a memory space that is not
host-accessible. The slots 0 and 1 receive the walkers 0 and 2; the slot 2 of
`atbjd` and of `apsd` is overwritten by the final `deep_copy` with the
element of the new mirror and no longer holds what it held before. -/
theorem populateCollectiveViews_overwrites_rest :
    populateCollectiveViews (Scenario.deviceSpace (Scenario.jasDataOf 7))
        (Scenario.deviceSpace Scenario.walkerStale)
        [Scenario.jasDataOf 9, Scenario.jasDataOf 9, Scenario.jasDataOf 9]
        [Scenario.walkerBoxed, Scenario.walkerBoxed, Scenario.walkerBoxed]
        [Scenario.jastrowOf 0, Scenario.jastrowOf 1, Scenario.jastrowOf 2]
        [Scenario.walkerBoxed, Scenario.walkerStale, Scenario.walkerProposed]
        [true, false, true] =
      some ([Scenario.jasDataOf 0, Scenario.jasDataOf 2, Scenario.jasDataOf 7],
            [Scenario.walkerBoxed, Scenario.walkerProposed, Scenario.walkerStale]) ∧
    Scenario.jasDataOf 7 ≠ Scenario.jasDataOf 9 ∧
    Scenario.walkerStale ≠ Scenario.walkerBoxed := by
  decide

/-- C24, as the code behaves: for walker lists and a flag vector of the same
length, with `k` the number of true flags and output views of at least `k`
slots, `populateCollectiveViews` returns; the first `k` slots of `atbjd` and
of `apsd` hold the Jastrow data and the walker data of the walkers whose flag
is true, in increasing walker index; the loop writes no slot from `k` on of
the mirrors, so that after the copy of the whole mirror every such slot
holds what the mirror of the view held when it was created: the previous
content of the slot where the mirror is the view itself. -/
theorem populateCollectiveViews_compacts (jastrowSpace : MirrorSpace (TwoBodyJastrowKokkos T))
    (particleSpace : MirrorSpace (pskType T))
    (atbjd : List (TwoBodyJastrowKokkos T)) (apsd : List (pskType T))
    (WFC_list : List (TwoBodyJastrow T)) (P_list : List (pskType T))
    (isAccepted : List Bool)
    (hW : WFC_list.length = isAccepted.length) (hP : P_list.length = isAccepted.length)
    (hj : isAccepted.count true ≤ atbjd.length) (hp : isAccepted.count true ≤ apsd.length) :
    ∃ out, populateCollectiveViews jastrowSpace particleSpace atbjd apsd WFC_list P_list
        isAccepted = some out ∧
      (acceptedOf (WFC_list.map (fun w => w.jasData)) isAccepted).length =
        isAccepted.count true ∧
      (acceptedOf P_list isAccepted).length = isAccepted.count true ∧
      out.1.take (isAccepted.count true) =
        acceptedOf (WFC_list.map (fun w => w.jasData)) isAccepted ∧
      out.2.take (isAccepted.count true) = acceptedOf P_list isAccepted ∧
      out.1.drop (isAccepted.count true) =
        (jastrowSpace.create_mirror_view atbjd).drop (isAccepted.count true) ∧
      out.2.drop (isAccepted.count true) =
        (particleSpace.create_mirror_view apsd).drop (isAccepted.count true) ∧
      out.1.length = atbjd.length ∧ out.2.length = apsd.length ∧
      (jastrowSpace.create_mirror_view atbjd = atbjd →
        out.1.drop (isAccepted.count true) = atbjd.drop (isAccepted.count true)) ∧
      (particleSpace.create_mirror_view apsd = apsd →
        out.2.drop (isAccepted.count true) = apsd.drop (isAccepted.count true)) := by
  have hl1 : (acceptedOf (WFC_list.map (fun w => w.jasData)) isAccepted).length =
      isAccepted.count true := acceptedOf_length _ _ (by simpa using hW)
  have hl2 : (acceptedOf P_list isAccepted).length = isAccepted.count true :=
    acceptedOf_length _ _ hP
  have hrun := gatherAccepted_eq 0 WFC_list P_list isAccepted
    (jastrowSpace.create_mirror_view atbjd) (particleSpace.create_mirror_view apsd) hW hP
    (by rw [jastrowSpace.extent_eq]; omega) (by rw [particleSpace.extent_eq]; omega)
  simp only [List.take_zero, List.nil_append, Nat.zero_add, Nat.cast_zero] at hrun
  have hd1 : (acceptedOf (WFC_list.map (fun w => w.jasData)) isAccepted ++
      (jastrowSpace.create_mirror_view atbjd).drop (isAccepted.count true)).drop
        (isAccepted.count true) =
      (jastrowSpace.create_mirror_view atbjd).drop (isAccepted.count true) := by
    rw [List.drop_append_of_le_length (by omega), List.drop_of_length_le (by omega),
      List.nil_append]
  have hd2 : (acceptedOf P_list isAccepted ++
      (particleSpace.create_mirror_view apsd).drop (isAccepted.count true)).drop
        (isAccepted.count true) =
      (particleSpace.create_mirror_view apsd).drop (isAccepted.count true) := by
    rw [List.drop_append_of_le_length (by omega), List.drop_of_length_le (by omega),
      List.nil_append]
  refine ⟨_, hrun, hl1, hl2, ?_, ?_, hd1, hd2, ?_, ?_, ?_, ?_⟩
  · rw [List.take_append_of_le_length (by omega), List.take_of_length_le (by omega)]
  · rw [List.take_append_of_le_length (by omega), List.take_of_length_le (by omega)]
  · simp only [List.length_append, List.length_drop, hl1, jastrowSpace.extent_eq]
    omega
  · simp only [List.length_append, List.length_drop, hl2, particleSpace.extent_eq]
    omega
  · intro h
    rw [hd1, h]
  · intro h
    rw [hd2, h]

end TwoBodyJastrow

end qmcplusplus

namespace qmcplusplus

namespace TwoBodyJastrow

/-- The statement of C24 as amended for three walkers with the flags true,
false, true and views of three slots in a host-accessible memory space: the
slots 0 and 1 receive the walkers 0 and 2, the slot 2 keeps its content. -/
theorem populateCollectiveViews_compacts_witness :
    populateCollectiveViews (Scenario.hostSpace _) (Scenario.hostSpace _)
        [Scenario.jasDataOf 9, Scenario.jasDataOf 9, Scenario.jasDataOf 9]
        [Scenario.walkerStale, Scenario.walkerStale, Scenario.walkerStale]
        [Scenario.jastrowOf 0, Scenario.jastrowOf 1, Scenario.jastrowOf 2]
        [Scenario.walkerBoxed, Scenario.walkerStale, Scenario.walkerProposed]
        [true, false, true] =
      some ([Scenario.jasDataOf 0, Scenario.jasDataOf 2, Scenario.jasDataOf 9],
            [Scenario.walkerBoxed, Scenario.walkerProposed, Scenario.walkerStale]) ∧
    ∃ out, populateCollectiveViews (Scenario.hostSpace _) (Scenario.hostSpace _)
        [Scenario.jasDataOf 9, Scenario.jasDataOf 9, Scenario.jasDataOf 9]
        [Scenario.walkerStale, Scenario.walkerStale, Scenario.walkerStale]
        [Scenario.jastrowOf 0, Scenario.jastrowOf 1, Scenario.jastrowOf 2]
        [Scenario.walkerBoxed, Scenario.walkerStale, Scenario.walkerProposed]
        [true, false, true] = some out ∧
      (acceptedOf ([Scenario.jastrowOf 0, Scenario.jastrowOf 1, Scenario.jastrowOf 2].map
        (fun w => w.jasData)) [true, false, true]).length = [true, false, true].count true ∧
      (acceptedOf [Scenario.walkerBoxed, Scenario.walkerStale, Scenario.walkerProposed]
        [true, false, true]).length = [true, false, true].count true ∧
      out.1.take ([true, false, true].count true) =
        acceptedOf ([Scenario.jastrowOf 0, Scenario.jastrowOf 1, Scenario.jastrowOf 2].map
          (fun w => w.jasData)) [true, false, true] ∧
      out.2.take ([true, false, true].count true) =
        acceptedOf [Scenario.walkerBoxed, Scenario.walkerStale, Scenario.walkerProposed]
          [true, false, true] ∧
      out.1.drop ([true, false, true].count true) =
        ((Scenario.hostSpace _).create_mirror_view
          [Scenario.jasDataOf 9, Scenario.jasDataOf 9, Scenario.jasDataOf 9]).drop
            ([true, false, true].count true) ∧
      out.2.drop ([true, false, true].count true) =
        ((Scenario.hostSpace _).create_mirror_view
          [Scenario.walkerStale, Scenario.walkerStale, Scenario.walkerStale]).drop
            ([true, false, true].count true) ∧
      out.1.length =
        [Scenario.jasDataOf 9, Scenario.jasDataOf 9, Scenario.jasDataOf 9].length ∧
      out.2.length =
        [Scenario.walkerStale, Scenario.walkerStale, Scenario.walkerStale].length ∧
      ((Scenario.hostSpace _).create_mirror_view
          [Scenario.jasDataOf 9, Scenario.jasDataOf 9, Scenario.jasDataOf 9] =
          [Scenario.jasDataOf 9, Scenario.jasDataOf 9, Scenario.jasDataOf 9] →
        out.1.drop ([true, false, true].count true) =
          [Scenario.jasDataOf 9, Scenario.jasDataOf 9, Scenario.jasDataOf 9].drop
            ([true, false, true].count true)) ∧
      ((Scenario.hostSpace _).create_mirror_view
          [Scenario.walkerStale, Scenario.walkerStale, Scenario.walkerStale] =
          [Scenario.walkerStale, Scenario.walkerStale, Scenario.walkerStale] →
        out.2.drop ([true, false, true].count true) =
          [Scenario.walkerStale, Scenario.walkerStale, Scenario.walkerStale].drop
            ([true, false, true].count true)) :=
  ⟨by decide,
    populateCollectiveViews_compacts (Scenario.hostSpace _) (Scenario.hostSpace _)
      [Scenario.jasDataOf 9, Scenario.jasDataOf 9, Scenario.jasDataOf 9]
      [Scenario.walkerStale, Scenario.walkerStale, Scenario.walkerStale]
      [Scenario.jastrowOf 0, Scenario.jastrowOf 1, Scenario.jastrowOf 2]
      [Scenario.walkerBoxed, Scenario.walkerStale, Scenario.walkerProposed]
      [true, false, true] rfl rfl (by decide) (by decide)⟩

end TwoBodyJastrow

end qmcplusplus

/-! ## The walkers reached by the batched Jastrow kernels -/

namespace qmcplusplus

/-- C25: two walkers, the map `[1, 0]` with one listed entry
(`numAccepted = numValid = 1`), one electron. The default overloads call
the Jastrow data of walker 1 only and write slot 0 of `ratiosView` only. The
`HostSpace` overloads run over `atbjd.extent(0) = 2` league ranks: they read
the map at position 1 and also call the Jastrow data of walker 0, which is
not listed, and write slot 1 of `ratiosView`. -/
theorem hostSpace_overloads_reach_unlisted :
    doTwoBodyJastrowMultiAcceptRestoreMove
        [Scenario.jasDataOf 0, Scenario.jasDataOf 1] [1, 0] 1 0 1 =
      some [Scenario.jasDataOf 0,
        { Scenario.jasDataOf 1 with
          calls := [JastrowCall.acceptMove_part1 0 0, JastrowCall.acceptMove_part2 0 0,
            JastrowCall.acceptMove_part3 0] }] ∧
    doTwoBodyJastrowMultiAcceptRestoreMove_HostSpace
        [Scenario.jasDataOf 0, Scenario.jasDataOf 1] [1, 0] 1 0 1 =
      some [{ Scenario.jasDataOf 0 with calls := [JastrowCall.acceptMove 0] },
        { Scenario.jasDataOf 1 with calls := [JastrowCall.acceptMove 0] }] ∧
    doTwoBodyJastrowMultiRatioGrad (fun jd _ => (jd.updateMode + 10, [1, 1, 1]))
        { atbjd := [Scenario.jasDataOf 0, Scenario.jasDataOf 1],
          gradNowView := [[0, 0, 0], [0, 0, 0]], ratiosView := [0, 0] } [1, 0] 1 0 =
      some { atbjd := [Scenario.jasDataOf 0,
               { Scenario.jasDataOf 1 with
                 calls := [JastrowCall.ratioGrad_part1 0 0, JastrowCall.ratioGrad_part2 0 0,
                   JastrowCall.ratioGrad_part3 0] }],
             gradNowView := [[1, 1, 1], [0, 0, 0]], ratiosView := [11, 0] } ∧
    doTwoBodyJastrowMultiRatioGrad_HostSpace (fun jd _ => (jd.updateMode + 10, [1, 1, 1]))
        { atbjd := [Scenario.jasDataOf 0, Scenario.jasDataOf 1],
          gradNowView := [[0, 0, 0], [0, 0, 0]], ratiosView := [0, 0] } [1, 0] 1 0 =
      some { atbjd := [{ Scenario.jasDataOf 0 with calls := [JastrowCall.ratioGrad 0] },
               { Scenario.jasDataOf 1 with calls := [JastrowCall.ratioGrad 0] }],
             gradNowView := [[1, 1, 1], [1, 1, 1]], ratiosView := [11, 10] } := by
  decide

end qmcplusplus

/-! ## The registry of distance tables -/

namespace qmcplusplus

namespace ParticleSet

/-- An entry found by `find` is an entry of the map. -/
theorem lookup_mem (m : List (String × Int)) (n : String) (v : Int)
    (h : m.lookup n = some v) : (n, v) ∈ m := by
  induction m with
  | nil => simp at h
  | cons e es ih =>
    obtain ⟨k, b⟩ := e
    rw [List.lookup_cons] at h
    by_cases hk : n = k
    · subst hk
      simp at h
      subst h
      exact List.mem_cons_self _ _
    · have : (n == k) = false := by simp [hk]
      rw [this] at h
      exact List.mem_cons_of_mem _ (ih h)

/-- The function `find` fails exactly on the names that are not keys. -/
theorem lookup_eq_none_iff_not_key (m : List (String × Int)) (n : String) :
    m.lookup n = none ↔ n ∉ m.map Prod.fst := by
  induction m with
  | nil => simp
  | cons e es ih =>
    obtain ⟨k, b⟩ := e
    rw [List.lookup_cons]
    by_cases hk : n = k
    · subst hk
      simp
    · have : (n == k) = false := by simp [hk]
      rw [this]
      simp only [List.map_cons, List.mem_cons, not_or]
      rw [ih]
      exact ⟨fun h => ⟨hk, h⟩, fun h => h.2⟩

/-- An entry of the map stays the one found after a new entry is added. -/
theorem lookup_append_of_some (m e : List (String × Int)) (n : String) (v : Int)
    (h : m.lookup n = some v) : (m ++ e).lookup n = some v := by
  rw [List.lookup_append, h]
  rfl

/-- A name that is not a key is found at the entry added for it. -/
theorem lookup_append_new (m : List (String × Int)) (n : String) (v : Int)
    (h : m.lookup n = none) : (m ++ [(n, v)]).lookup n = some v := by
  rw [List.lookup_append, h]
  simp [List.lookup_cons]

/-- Assigning a name that is not a key adds an entry. -/
theorem mapAssign_new (m : List (String × Int)) (n : String) (v : Int)
    (h : m.lookup n = none) : mapAssign m n v = m ++ [(n, v)] := by
  unfold mapAssign
  rw [h]
  rfl

/-- In a registry the own name is found at index 0. -/
theorem Registered.lookup_self {DT : Type} {P : ParticleTables DT} {names : List String}
    (h : Registered P names) : P.myDistTableMap.lookup P.myName = some 0 := by
  obtain ⟨hk, hv, _, _⟩ := h
  cases hm : P.myDistTableMap with
  | nil =>
    rw [hm] at hk
    simp at hk
  | cons e es =>
    obtain ⟨k, b⟩ := e
    rw [hm] at hk hv
    simp only [List.map_cons, List.cons.injEq] at hk
    rw [List.range_succ_eq_map] at hv
    simp only [List.map_cons, List.cons.injEq, Nat.cast_zero] at hv
    rw [List.lookup_cons, ← hk.1, hv.1]
    simp

/-- In a registry a name found at index 0 is the own name. -/
theorem Registered.eq_self_of_lookup_zero {DT : Type} {P : ParticleTables DT}
    {names : List String} (h : Registered P names) (n : String)
    (hn : P.myDistTableMap.lookup n = some 0) : n = P.myName := by
  have h1 := lookup_mem _ _ _ hn
  have h2 := lookup_mem _ _ _ h.lookup_self
  have hnd : (P.myDistTableMap.map Prod.snd).Nodup := by
    rw [h.2.1]
    exact (List.nodup_range _).map (fun a b hab => by exact_mod_cast hab)
  have := List.inj_on_of_nodup_map hnd h1 h2 rfl
  exact congrArg Prod.fst this

/-- In a registry every index found is a position of `DistTables`. -/
theorem Registered.lookup_inRange {DT : Type} {P : ParticleTables DT} {names : List String}
    (h : Registered P names) (n : String) (v : Int)
    (hn : P.myDistTableMap.lookup n = some v) : 0 ≤ v ∧ v < (P.DistTables.length : Int) := by
  have h1 := lookup_mem _ _ _ hn
  have h2 : v ∈ P.myDistTableMap.map Prod.snd := List.mem_map.2 ⟨_, h1, rfl⟩
  rw [h.2.1, List.mem_map] at h2
  obtain ⟨k, hk, rfl⟩ := h2
  rw [List.mem_range] at hk
  rw [h.2.2.1]
  exact ⟨by omega, by exact_mod_cast hk⟩

/-- C21 fails for the self table and for `DT_SOA_PREFERRED`: the electrons
hold the tables 0 (self) and 1 (ions), both of layout 1. A request for the
self table with layout 0, for which `is_same_type` is false, returns 0; a
request for the ion table with `DT_SOA_PREFERRED = 3`, for which
`is_same_type` is false too, returns 1. -/
theorem addTable_reuses_self_table :
    Scenario.layoutKinds.is_same_type 1 0 = false ∧
    addTable Scenario.layoutKinds Scenario.electrons Scenario.electrons 0 =
      Outcome.ok 0 Scenario.electrons ∧
    Scenario.layoutKinds.is_same_type 1 3 = false ∧
    addTable Scenario.layoutKinds Scenario.electrons Scenario.ions 3 =
      Outcome.ok 1 Scenario.electrons := by
  decide

/-- C21, as the code behaves: on a particle set named other than "none"
that holds tables, a request for a registered partner other than the set
itself, with a `dt_type` other than `DT_SOA_PREFERRED` for which the
partner's table says `is_same_type(dt_type)` is false, aborts with "Cannot
mix AoS and SoA distance tables" in the unchanged state; a request with
`DT_SOA_PREFERRED`, or with a matching type, returns the index of the
existing table, and a request for the set itself returns 0 whatever the type
of the self table. -/
theorem addTable_mismatch {DT : Type} (kinds : DistanceTableKinds DT)
    (P psrc : ParticleTables DT) (dt_type tid : Int) (table : DT)
    (hname : P.myName ≠ "none") (hne : P.DistTables ≠ [])
    (hreg : psrc.myName ≠ P.myName → P.myDistTableMap.lookup psrc.myName = some tid)
    (htab : psrc.myName ≠ P.myName → readAt P.DistTables tid = some table) :
    (psrc.myName = P.myName → addTable kinds P psrc dt_type = Outcome.ok 0 P) ∧
    (psrc.myName ≠ P.myName → dt_type ≠ kinds.DT_SOA_PREFERRED →
      kinds.is_same_type table dt_type = false →
      addTable kinds P psrc dt_type = Outcome.abort AbortMsg.cannotMixTables P) ∧
    (psrc.myName ≠ P.myName →
      dt_type = kinds.DT_SOA_PREFERRED ∨ kinds.is_same_type table dt_type = true →
      addTable kinds P psrc dt_type = Outcome.ok tid P) := by
  have hemp : P.DistTables.isEmpty = false := by
    cases h : P.DistTables with
    | nil => exact absurd h hne
    | cons a as => rfl
  refine ⟨?_, ?_, ?_⟩
  · intro hself
    unfold addTable
    simp [hname, hemp, hself]
  · intro hself hpref hdiff
    unfold addTable
    simp [hname, hemp, hself, hreg hself, htab hself, hpref, hdiff]
  · intro hself hok
    unfold addTable
    rcases hok with h | h <;> simp [hname, hemp, hself, hreg hself, htab hself, h]

/-- The statement of C21 as amended, for the electrons and the ions: the
request for the self table returns 0, the request for the ion table with
the other layout aborts, and the one with `DT_SOA_PREFERRED` returns 1. -/
theorem addTable_mismatch_witness :
    addTable Scenario.layoutKinds Scenario.electrons Scenario.electrons 0 =
      Outcome.ok 0 Scenario.electrons ∧
    addTable Scenario.layoutKinds Scenario.electrons Scenario.ions 0 =
      Outcome.abort AbortMsg.cannotMixTables Scenario.electrons ∧
    addTable Scenario.layoutKinds Scenario.electrons Scenario.ions 3 =
      Outcome.ok 1 Scenario.electrons :=
  ⟨(addTable_mismatch Scenario.layoutKinds Scenario.electrons Scenario.electrons 0 0 1
      (by decide) (by decide) (fun h => absurd rfl h) (fun h => absurd rfl h)).1 rfl,
    (addTable_mismatch Scenario.layoutKinds Scenario.electrons Scenario.ions 0 1 1
      (by decide) (by decide) (fun _ => by decide) (fun _ => by decide)).2.1
      (by decide) (by decide) (by decide),
    (addTable_mismatch Scenario.layoutKinds Scenario.electrons Scenario.ions 3 1 1
      (by decide) (by decide) (fun _ => by decide) (fun _ => by decide)).2.2
      (by decide) (Or.inl (by decide))⟩

/-- The first `addTable` call on a particle set without tables creates the
self table; for a partner other than the set itself it also creates the
partner's table, at index 1. -/
theorem addTable_first {DT : Type} (kinds : DistanceTableKinds DT)
    (P psrc : ParticleTables DT) (dt_type : Int)
    (hname : P.myName ≠ "none") (hempty : P.DistTables = []) :
    ∃ tid P1 names, addTable kinds P psrc dt_type = Outcome.ok tid P1 ∧
      P1.myName = P.myName ∧ Registered P1 names ∧
      P1.myDistTableMap.lookup psrc.myName = some tid ∧
      (∀ n, n ∈ names ↔ n = psrc.myName ∧ n ≠ P.myName) ∧
      readAt P1.DistTables 0 = some (kinds.createDistanceTable P dt_type) ∧
      (psrc.myName = P.myName → tid = 0) ∧
      (psrc.myName ≠ P.myName → tid = 1 ∧ P1.DistTables.length = 2) := by
  by_cases hself : psrc.myName = P.myName
  · refine ⟨0, { P with DistTables := [kinds.createDistanceTable P dt_type],
                        myDistTableMap := [(P.myName, 0)] }, [], ?_, rfl, ?_, ?_, ?_, ?_, ?_, ?_⟩
    · unfold addTable
      simp [hname, hempty, hself, mapAssign]
    · exact ⟨rfl, rfl, rfl, by simp⟩
    · simp [hself, List.lookup_cons]
    · intro n
      simp only [List.not_mem_nil, false_iff, not_and, not_not]
      intro h
      rw [h, hself]
    · simp [readAt]
    · intro _
      rfl
    · intro h
      exact absurd hself h
  · refine ⟨1, { P with DistTables := [kinds.createDistanceTable P dt_type,
                          kinds.createDistanceTableAB psrc
                            { P with DistTables := [kinds.createDistanceTable P dt_type],
                                     myDistTableMap := [(P.myName, 0)] } dt_type],
                        myDistTableMap := [(P.myName, 0), (psrc.myName, 1)] },
      [psrc.myName], ?_, rfl, ?_, ?_, ?_, ?_, ?_, ?_⟩
    · have hb : (psrc.myName == P.myName) = false := by simp [hself]
      unfold addTable
      simp [hname, hempty, hself, mapAssign, List.lookup_cons, hb]
    · refine ⟨rfl, rfl, rfl, ?_⟩
      simp only [List.nodup_cons, List.mem_singleton, List.not_mem_nil, not_false_eq_true,
        List.nodup_nil, and_true]
      exact fun h => hself h.symm
    · have hb : (psrc.myName == P.myName) = false := by simp [hself]
      simp [List.lookup_cons, hb]
    · intro n
      simp only [List.mem_singleton]
      exact ⟨fun h => ⟨h, by rw [h]; exact hself⟩, fun h => h.1⟩
    · simp [readAt]
    · intro h
      exact absurd h hself
    · intro _
      exact ⟨rfl, rfl⟩

/-- A returning `addTable` call on a particle set that holds tables: a
request for the set itself or for a registered partner changes nothing, a
request for a new partner adds one table at the end. -/
theorem addTable_registered {DT : Type} (kinds : DistanceTableKinds DT)
    (P psrc P1 : ParticleTables DT) (dt_type tid : Int) (names : List String)
    (hname : P.myName ≠ "none") (hreg : Registered P names)
    (hcall : addTable kinds P psrc dt_type = Outcome.ok tid P1) :
    P1.myName = P.myName ∧
    P1.myDistTableMap.lookup psrc.myName = some tid ∧
    (∀ n r, P.myDistTableMap.lookup n = some r → P1.myDistTableMap.lookup n = some r) ∧
    (∃ more, P1.DistTables = P.DistTables ++ more) ∧
    ((psrc.myName = P.myName ∨ psrc.myName ∈ names) → P1 = P ∧ Registered P1 names) ∧
    (psrc.myName ≠ P.myName → psrc.myName ∉ names →
      tid = (P.DistTables.length : Int) ∧ P1.DistTables.length = P.DistTables.length + 1 ∧
      Registered P1 (names ++ [psrc.myName])) := by
  have hemp : P.DistTables.isEmpty = false := by
    cases h : P.DistTables with
    | nil =>
      have := hreg.2.2.1
      rw [h] at this
      simp at this
    | cons a as => rfl
  by_cases hself : psrc.myName = P.myName
  · have hres : addTable kinds P psrc dt_type = Outcome.ok 0 P := by
      unfold addTable
      simp [hname, hemp, hself]
    rw [hres] at hcall
    injection hcall with h1 h2
    subst h1 h2
    refine ⟨rfl, ?_, fun _ _ h => h, ⟨[], by simp⟩, fun _ => ⟨rfl, hreg⟩, fun h => absurd hself h⟩
    rw [hself]
    exact hreg.lookup_self
  · cases hl : P.myDistTableMap.lookup psrc.myName with
    | none =>
      have hres : addTable kinds P psrc dt_type = Outcome.ok (P.DistTables.length : Int)
          { P with DistTables := P.DistTables ++ [kinds.createDistanceTableAB psrc P dt_type],
                   myDistTableMap := P.myDistTableMap ++
                     [(psrc.myName, (P.DistTables.length : Int))] } := by
        unfold addTable
        simp [hname, hemp, hself, hl, mapAssign_new _ _ _ hl]
      rw [hres] at hcall
      injection hcall with h1 h2
      subst h1 h2
      have hnot : psrc.myName ∉ names := by
        have := (lookup_eq_none_iff_not_key _ _).1 hl
        rw [hreg.1] at this
        exact fun h => this (List.mem_cons_of_mem _ h)
      refine ⟨rfl, lookup_append_new _ _ _ hl, fun n r h => lookup_append_of_some _ _ n r h,
        ⟨_, rfl⟩, ?_, ?_⟩
      · rintro (h | h)
        · exact absurd h hself
        · exact absurd h hnot
      · intro _ _
        refine ⟨rfl, by simp, ?_⟩
        obtain ⟨hk, hv, hlen, hnd⟩ := hreg
        refine ⟨?_, ?_, ?_, ?_⟩
        · simp [hk]
        · simp only [List.map_append, hv, List.map_cons, List.map_nil, List.length_append,
            List.length_singleton]
          rw [List.range_succ (names.length + 1), List.map_append, hlen]
          simp
        · simp [hlen]
        · have : P.myName :: (names ++ [psrc.myName]) = (P.myName :: names) ++ [psrc.myName] :=
            rfl
          rw [this, List.nodup_append]
          refine ⟨hnd, by simp, ?_⟩
          intro a ha hb
          rw [List.mem_singleton] at hb
          subst hb
          rcases List.mem_cons.1 ha with h | h
          · exact hself h
          · exact hnot h
    | some t =>
      have hin := hreg.lookup_inRange _ _ hl
      have hread : readAt P.DistTables t =
          some (P.DistTables.get ⟨t.toNat, by omega⟩) :=
        readAt_of_inRange _ _ hin.1 (by omega)
      have hmem : psrc.myName ∈ names := by
        have := lookup_mem _ _ _ hl
        have h2 : psrc.myName ∈ P.myDistTableMap.map Prod.fst := List.mem_map.2 ⟨_, this, rfl⟩
        rw [hreg.1] at h2
        rcases List.mem_cons.1 h2 with h | h
        · exact absurd h hself
        · exact h
      by_cases hok : dt_type = kinds.DT_SOA_PREFERRED ∨
          kinds.is_same_type (P.DistTables.get ⟨t.toNat, by omega⟩) dt_type = true
      · have hres : addTable kinds P psrc dt_type = Outcome.ok t P := by
          unfold addTable
          simp only [hname, hemp, hself, hl, hread, if_false, false_and, Bool.false_eq_true]
          rw [if_pos hok]
        rw [hres] at hcall
        injection hcall with h1 h2
        subst h1 h2
        exact ⟨rfl, hl, fun _ _ h => h, ⟨[], by simp⟩, fun _ => ⟨rfl, hreg⟩,
          fun _ h => absurd hmem h⟩
      · have hres : addTable kinds P psrc dt_type =
            Outcome.abort AbortMsg.cannotMixTables P := by
          unfold addTable
          simp only [hname, hemp, hself, hl, hread, if_false, false_and, Bool.false_eq_true]
          rw [if_neg hok]
        rw [hres] at hcall
        exact Outcome.noConfusion hcall

/-- The registry after a returning `addTable` call on a particle set that
holds tables, with the partners it then lists. -/
theorem addTable_registered_names {DT : Type} (kinds : DistanceTableKinds DT)
    (P psrc P1 : ParticleTables DT) (dt_type tid : Int) (names : List String)
    (hname : P.myName ≠ "none") (hreg : Registered P names)
    (hcall : addTable kinds P psrc dt_type = Outcome.ok tid P1) :
    ∃ names1, Registered P1 names1 ∧
      ∀ n, n ∈ names1 ↔ n ∈ names ∨ (n ≠ P.myName ∧ n = psrc.myName) := by
  obtain ⟨_, _, _, _, hold, hnew⟩ :=
    addTable_registered kinds P psrc P1 dt_type tid names hname hreg hcall
  by_cases h : psrc.myName = P.myName ∨ psrc.myName ∈ names
  · refine ⟨names, (hold h).2, ?_⟩
    intro n
    constructor
    · exact fun hn => Or.inl hn
    · rintro (hn | ⟨hne, rfl⟩)
      · exact hn
      · rcases h with h | h
        · exact absurd h hne
        · exact h
  · have h1 : psrc.myName ≠ P.myName := fun e => h (Or.inl e)
    have h2 : psrc.myName ∉ names := fun e => h (Or.inr e)
    refine ⟨names ++ [psrc.myName], (hnew h1 h2).2.2, ?_⟩
    intro n
    simp only [List.mem_append, List.mem_singleton]
    constructor
    · rintro (hn | rfl)
      · exact Or.inl hn
      · exact Or.inr ⟨h1, rfl⟩
    · rintro (hn | ⟨_, rfl⟩)
      · exact Or.inl hn
      · exact Or.inr rfl

/-- A returning sequence of `addTable` calls on a particle set that holds
tables: the registry lists the partners requested so far, the entries and
tables present at the start are kept, and every call returned the index
under which its partner is registered at the end. -/
theorem addTables_registered {DT : Type} (kinds : DistanceTableKinds DT)
    (calls : List (ParticleTables DT × Int)) :
    ∀ (P P2 : ParticleTables DT) (names : List String) (rets : List Int),
      P.myName ≠ "none" → Registered P names →
      addTables kinds P calls = some (rets, P2) →
      P2.myName = P.myName ∧
      (∃ names2, Registered P2 names2 ∧
        ∀ n, n ∈ names2 ↔ n ∈ names ∨ (n ≠ P.myName ∧ ∃ c ∈ calls, c.1.myName = n)) ∧
      (∀ n r, P.myDistTableMap.lookup n = some r → P2.myDistTableMap.lookup n = some r) ∧
      (∃ more, P2.DistTables = P.DistTables ++ more) ∧
      rets.length = calls.length ∧
      (∀ (i : Nat) (c : ParticleTables DT × Int) (r : Int), calls[i]? = some c →
        rets[i]? = some r → P2.myDistTableMap.lookup c.1.myName = some r) := by
  induction calls with
  | nil =>
    intro P P2 names rets _ hreg hrun
    simp only [addTables, Option.some.injEq, Prod.mk.injEq] at hrun
    obtain ⟨rfl, rfl⟩ := hrun
    refine ⟨rfl, ⟨names, hreg, ?_⟩, fun _ _ h => h, ⟨[], by simp⟩, rfl, ?_⟩
    · intro n
      simp
    · intro i c r hc
      simp at hc
  | cons c cs ih =>
    intro P P2 names rets hname hreg hrun
    cases hcall : addTable kinds P c.1 c.2 with
    | undefined => simp [addTables, hcall] at hrun
    | abort m st => simp [addTables, hcall] at hrun
    | ok tid P1 =>
      cases hrest : addTables kinds P1 cs with
      | none => simp [addTables, hcall, hrest] at hrun
      | some res =>
        obtain ⟨tids, P3⟩ := res
        simp only [addTables, hcall, hrest, Option.some.injEq, Prod.mk.injEq] at hrun
        obtain ⟨rfl, rfl⟩ := hrun
        obtain ⟨hn1, hl1, hkeep1, ⟨more1, hmore1⟩, _, _⟩ :=
          addTable_registered kinds P c.1 P1 c.2 tid names hname hreg hcall
        obtain ⟨names1, hreg1, hmem1⟩ :=
          addTable_registered_names kinds P c.1 P1 c.2 tid names hname hreg hcall
        have hname1 : P1.myName ≠ "none" := by rw [hn1]; exact hname
        obtain ⟨hn2, ⟨names2, hreg2, hmem2⟩, hkeep2, ⟨more2, hmore2⟩, hlen, hret⟩ :=
          ih P1 P3 names1 tids hname1 hreg1 hrest
        refine ⟨by rw [hn2, hn1], ⟨names2, hreg2, ?_⟩,
          fun n r h => hkeep2 n r (hkeep1 n r h),
          ⟨more1 ++ more2, by rw [hmore2, hmore1, List.append_assoc]⟩, by simp [hlen], ?_⟩
        · intro n
          rw [hmem2, hmem1, hn1]
          simp only [List.mem_cons, exists_eq_or_imp]
          constructor
          · rintro ((h | ⟨h1, h2⟩) | ⟨h1, h2⟩)
            · exact Or.inl h
            · exact Or.inr ⟨h1, Or.inl h2.symm⟩
            · exact Or.inr ⟨h1, Or.inr h2⟩
          · rintro (h | ⟨h1, h2 | h2⟩)
            · exact Or.inl (Or.inl h)
            · exact Or.inl (Or.inr ⟨h1, h2.symm⟩)
            · exact Or.inr ⟨h1, h2⟩
        · intro i c1 r hc hr
          cases i with
          | zero =>
            simp only [List.getElem?_cons_zero, Option.some.injEq] at hc hr
            subst hc hr
            exact hkeep2 _ _ hl1
          | succ i =>
            simp only [List.getElem?_cons_succ] at hc hr
            exact hret i c1 r hc hr

/-- A returning, non-empty sequence of `addTable` calls on a particle set
without tables: table 0 is the self table created by the first call, the
registry lists the partners other than the set itself, and every call
returned the index under which its partner is registered at the end. -/
theorem addTables_from_empty {DT : Type} (kinds : DistanceTableKinds DT)
    (P0 P : ParticleTables DT) (c : ParticleTables DT × Int)
    (cs : List (ParticleTables DT × Int)) (rets : List Int)
    (hname : P0.myName ≠ "none") (hempty : P0.DistTables = [])
    (hrun : addTables kinds P0 (c :: cs) = some (rets, P)) :
    P.myName = P0.myName ∧
    (∃ names, Registered P names ∧
      ∀ n, n ∈ names ↔ n ≠ P0.myName ∧ ∃ d ∈ c :: cs, d.1.myName = n) ∧
    readAt P.DistTables 0 = some (kinds.createDistanceTable P0 c.2) ∧
    rets.length = (c :: cs).length ∧
    (∀ (i : Nat) (d : ParticleTables DT × Int) (r : Int), (c :: cs)[i]? = some d →
      rets[i]? = some r → P.myDistTableMap.lookup d.1.myName = some r) := by
  obtain ⟨tid, P1, names1, hcall, hn1, hreg1, hl1, hmem1, hself1, _, _⟩ :=
    addTable_first kinds P0 c.1 c.2 hname hempty
  cases hrest : addTables kinds P1 cs with
  | none => simp [addTables, hcall, hrest] at hrun
  | some res =>
    obtain ⟨tids, P3⟩ := res
    simp only [addTables, hcall, hrest, Option.some.injEq, Prod.mk.injEq] at hrun
    obtain ⟨rfl, rfl⟩ := hrun
    have hname1 : P1.myName ≠ "none" := by rw [hn1]; exact hname
    obtain ⟨hn2, ⟨names2, hreg2, hmem2⟩, hkeep2, ⟨more2, hmore2⟩, hlen, hret⟩ :=
      addTables_registered kinds cs P1 P3 names1 tids hname1 hreg1 hrest
    refine ⟨by rw [hn2, hn1], ⟨names2, hreg2, ?_⟩, ?_, by simp [hlen], ?_⟩
    · intro n
      rw [hmem2, hmem1, hn1]
      simp only [List.mem_cons, exists_eq_or_imp]
      constructor
      · rintro (⟨h1, h2⟩ | ⟨h1, h2⟩)
        · exact ⟨h2, Or.inl h1.symm⟩
        · exact ⟨h1, Or.inr h2⟩
      · rintro ⟨h1, h2 | h2⟩
        · exact Or.inl ⟨h2.symm, h1⟩
        · exact Or.inr ⟨h1, h2⟩
    · rw [hmore2]
      obtain ⟨h0, hlt⟩ := readAt_inRange _ _ _ hself1
      rw [readAt_eq_some_iff] at hself1 ⊢
      refine ⟨h0, ?_⟩
      rw [List.getElem?_append_left hlt]
      exact hself1.2
    · intro i d r hd hr
      cases i with
      | zero =>
        simp only [List.getElem?_cons_zero, Option.some.injEq] at hd hr
        subst hd hr
        exact hkeep2 _ _ hl1
      | succ i =>
        simp only [List.getElem?_cons_succ] at hd hr
        exact hret i d r hd hr

/-- A duplicate-free list of the names of `L` other than `my` has as many
entries as `L` has distinct names other than `my`. -/
theorem length_eq_distinct (names L : List String) (my : String) (hnd : names.Nodup)
    (hmem : ∀ n, n ∈ names ↔ n ≠ my ∧ n ∈ L) :
    names.length = ((L.filter (fun n => decide (n ≠ my))).dedup).length := by
  apply List.Perm.length_eq
  rw [List.perm_ext_iff_of_nodup hnd (List.nodup_dedup _)]
  intro n
  rw [hmem, List.mem_dedup, List.mem_filter]
  simp only [decide_eq_true_eq]
  exact ⟨fun h => ⟨h.2, h.1⟩, fun h => ⟨h.2, h.1⟩⟩

/-- What a registry says about the map and the number of tables. -/
theorem Registered.map_valid {DT : Type} {P : ParticleTables DT} {names : List String}
    (h : Registered P names) :
    P.myDistTableMap.map Prod.snd =
      (List.range P.DistTables.length).map (fun k : Nat => (k : Int)) ∧
    (P.myDistTableMap.map Prod.fst).Nodup ∧ P.DistTables.length = 1 + names.length ∧
    names.Nodup := by
  obtain ⟨hk, hv, hlen, hnd⟩ := h
  refine ⟨by rw [hv, hlen], by rw [hk]; exact hnd, by omega, (List.nodup_cons.1 hnd).2⟩

/-- C22 fails at the first call: on the electrons without tables a request
for the ions, a new partner, returns 1 and leaves two tables, while the
number of tables before the call is 0. -/
theorem addTable_first_partner_index :
    Scenario.electronsNew.DistTables.length = 0 ∧
    addTable Scenario.layoutKinds Scenario.electronsNew Scenario.ions 1 =
      Outcome.ok 1 Scenario.electrons := by
  decide

/-- C22, as the code behaves: let a particle set named other than "none"
start without tables, let the calls `pre` return the indices `rets` and
leave the state `P`, and let one more call `addTable(psrc, dt_type)` return
`tid` and leave `P1`. Then (a) table 0 is the self table, the own name is
registered at 0, and `tid = 0` exactly when the partner is the set itself;
(b) an earlier call with the same partner returned the same index, and the
call changes nothing; (c) for a partner not requested before and other than
the set itself, `tid` is the number of tables before the call, or 1 when
there was none (the self table is created first), and one table more exists
after the call; the number of tables is 1 plus the number of distinct
partner names other than the own one, and the indices stored in
`myDistTableMap` are `0, 1, ...` up to the number of tables, one for each
key. -/
theorem addTable_registry {DT : Type} (kinds : DistanceTableKinds DT)
    (P0 P P1 : ParticleTables DT) (pre : List (ParticleTables DT × Int)) (rets : List Int)
    (psrc : ParticleTables DT) (dt_type tid : Int)
    (hname : P0.myName ≠ "none") (hempty : P0.DistTables = [])
    (hpre : addTables kinds P0 pre = some (rets, P))
    (hcall : addTable kinds P psrc dt_type = Outcome.ok tid P1) :
    ((∃ dt0, readAt P1.DistTables 0 = some (kinds.createDistanceTable P0 dt0)) ∧
      P1.myDistTableMap.lookup P0.myName = some 0 ∧
      (tid = 0 ↔ psrc.myName = P0.myName)) ∧
    (∀ (i : Nat) (c : ParticleTables DT × Int) (r : Int), pre[i]? = some c →
      rets[i]? = some r → c.1.myName = psrc.myName → r = tid ∧ P1 = P) ∧
    (psrc.myName ≠ P0.myName → (∀ c ∈ pre, c.1.myName ≠ psrc.myName) →
      tid = max (P.DistTables.length : Int) 1 ∧ P1.DistTables.length = tid.toNat + 1) ∧
    P1.DistTables.length = 1 +
      ((((pre ++ [(psrc, dt_type)]).map (fun c => c.1.myName)).filter
        (fun n => decide (n ≠ P0.myName))).dedup).length ∧
    P1.myDistTableMap.map Prod.snd =
      (List.range P1.DistTables.length).map (fun k : Nat => (k : Int)) ∧
    (P1.myDistTableMap.map Prod.fst).Nodup := by
  cases pre with
  | nil =>
    simp only [addTables, Option.some.injEq, Prod.mk.injEq] at hpre
    obtain ⟨rfl, rfl⟩ := hpre
    obtain ⟨tid1, Q, names, hcall1, hn, hreg, hl, hmem, hself, hzero, hone⟩ :=
      addTable_first kinds P0 psrc dt_type hname hempty
    rw [hcall1] at hcall
    injection hcall with h1 h2
    subst h1 h2
    obtain ⟨hv, hk, hlen, hnd⟩ := hreg.map_valid
    refine ⟨⟨⟨dt_type, hself⟩, ?_, ?_⟩, ?_, ?_, ?_, hv, hk⟩
    · rw [← hn]
      exact hreg.lookup_self
    · constructor
      · intro h0
        by_contra hne
        have := (hone hne).1
        omega
      · exact hzero
    · intro i c r hc
      simp at hc
    · intro hne _
      obtain ⟨h1, h2⟩ := hone hne
      rw [hempty, h1, h2]
      exact ⟨by simp, by simp⟩
    · rw [hlen, length_eq_distinct names _ P0.myName hnd]
      intro n
      rw [hmem]
      simp only [List.nil_append, List.map_cons, List.map_nil, List.mem_singleton]
      exact ⟨fun h => ⟨h.2, h.1⟩, fun h => ⟨h.2, h.1⟩⟩
  | cons c cs =>
    obtain ⟨hn, ⟨names, hreg, hmem⟩, hself, hlen, hret⟩ :=
      addTables_from_empty kinds P0 P c cs rets hname hempty hpre
    have hnameP : P.myName ≠ "none" := by rw [hn]; exact hname
    obtain ⟨hn1, hl1, hkeep, ⟨more, hmore⟩, hold, hnew⟩ :=
      addTable_registered kinds P psrc P1 dt_type tid names hnameP hreg hcall
    obtain ⟨names1, hreg1, hmem1⟩ :=
      addTable_registered_names kinds P psrc P1 dt_type tid names hnameP hreg hcall
    obtain ⟨hv, hk, hlen1, hnd⟩ := hreg1.map_valid
    have hmy : P1.myName = P0.myName := by rw [hn1, hn]
    refine ⟨⟨⟨c.2, ?_⟩, ?_, ?_⟩, ?_, ?_, ?_, hv, hk⟩
    · rw [hmore]
      obtain ⟨h0, hlt⟩ := readAt_inRange _ _ _ hself
      rw [readAt_eq_some_iff] at hself ⊢
      refine ⟨h0, ?_⟩
      rw [List.getElem?_append_left hlt]
      exact hself.2
    · rw [← hmy]
      exact hreg1.lookup_self
    · constructor
      · intro h0
        rw [h0] at hl1
        rw [← hmy]
        exact hreg1.eq_self_of_lookup_zero _ hl1
      · intro hs
        have := hreg1.lookup_self
        rw [hmy, ← hs, hl1] at this
        injection this
    · intro i d r hd hr hsame
      have h1 := hkeep _ _ (hret i d r hd hr)
      rw [hsame, hl1] at h1
      injection h1 with h1
      refine ⟨h1.symm, (hold ?_).1⟩
      by_cases hs : psrc.myName = P.myName
      · exact Or.inl hs
      · refine Or.inr ((hmem _).2 ⟨by rw [← hn]; exact hs, d, List.getElem?_mem hd, hsame⟩)
    · intro hne hfresh
      have hnot : psrc.myName ∉ names := by
        intro hin
        obtain ⟨_, d, hd, hdn⟩ := (hmem _).1 hin
        exact hfresh d hd hdn
      obtain ⟨h1, h2, _⟩ := hnew (by rw [hn]; exact hne) hnot
      have hpos : 1 ≤ P.DistTables.length := by
        rw [hreg.2.2.1]
        omega
      rw [h1, h2]
      refine ⟨by omega, by omega⟩
    · rw [hlen1, length_eq_distinct names1 _ P0.myName hnd]
      intro n
      rw [hmem1, hmem, hn, List.mem_map]
      constructor
      · rintro (⟨h1, d, hd, hdn⟩ | ⟨h1, h2⟩)
        · exact ⟨h1, d, List.mem_append_left _ hd, hdn⟩
        · exact ⟨h1, (psrc, dt_type), List.mem_append_right _ (List.mem_singleton.2 rfl),
            h2.symm⟩
      · rintro ⟨h1, a, ha, han⟩
        rcases List.mem_append.1 ha with h | h
        · exact Or.inl ⟨h1, a, h, han⟩
        · rw [List.mem_singleton] at h
          subst h
          exact Or.inr ⟨h1, han.symm⟩

/-- The statement of C22 as amended for the electrons: after the requests
for the ions (index 1) and for the electrons themselves (index 0), a second
request for the ions returns 1 and changes nothing. -/
theorem addTable_registry_witness :
    addTables Scenario.layoutKinds Scenario.electronsNew
        [(Scenario.ions, 1), (Scenario.electrons, 1)] = some ([1, 0], Scenario.electrons) ∧
    addTable Scenario.layoutKinds Scenario.electrons Scenario.ions 1 =
      Outcome.ok 1 Scenario.electrons ∧
    (((∃ dt0, readAt Scenario.electrons.DistTables 0 =
        some (Scenario.layoutKinds.createDistanceTable Scenario.electronsNew dt0)) ∧
      Scenario.electrons.myDistTableMap.lookup Scenario.electronsNew.myName = some 0 ∧
      ((1 : Int) = 0 ↔ Scenario.ions.myName = Scenario.electronsNew.myName)) ∧
    (∀ (i : Nat) (c : ParticleTables Int × Int) (r : Int),
      [(Scenario.ions, (1 : Int)), (Scenario.electrons, 1)][i]? = some c →
      [(1 : Int), 0][i]? = some r → c.1.myName = Scenario.ions.myName →
      r = 1 ∧ Scenario.electrons = Scenario.electrons) ∧
    (Scenario.ions.myName ≠ Scenario.electronsNew.myName →
      (∀ c ∈ [(Scenario.ions, (1 : Int)), (Scenario.electrons, 1)],
        c.1.myName ≠ Scenario.ions.myName) →
      (1 : Int) = max (Scenario.electrons.DistTables.length : Int) 1 ∧
        Scenario.electrons.DistTables.length = (1 : Int).toNat + 1) ∧
    Scenario.electrons.DistTables.length = 1 +
      (((([(Scenario.ions, (1 : Int)), (Scenario.electrons, 1)] ++
          [(Scenario.ions, 1)]).map (fun c : ParticleTables Int × Int => c.1.myName)).filter
        (fun n => decide (n ≠ Scenario.electronsNew.myName))).dedup).length ∧
    Scenario.electrons.myDistTableMap.map Prod.snd =
      (List.range Scenario.electrons.DistTables.length).map (fun k : Nat => (k : Int)) ∧
    (Scenario.electrons.myDistTableMap.map Prod.fst).Nodup) :=
  ⟨by decide, by decide,
    addTable_registry Scenario.layoutKinds Scenario.electronsNew Scenario.electrons
      Scenario.electrons [(Scenario.ions, 1), (Scenario.electrons, 1)] [1, 0]
      Scenario.ions 1 1 (by decide) rfl (by decide) (by decide)⟩

end ParticleSet

end qmcplusplus
